import Mathlib

/-!
Verification of the mock KQL query engine (`src/services/mockDataService.ts`).

The engine is shallowly embedded: JavaScript strings become `List Char`,
JavaScript numbers become exact rationals extended with `NaN`/`±Infinity`
(`JSNum`), rows become ordered association lists from column names to
values, and each engine routine is translated into an executable Lean
function carrying the source routine's name.  Pattern matching that the
source performs with regular expressions is modelled by explicit scanning
functions (`try...`/`firstScan`) that reproduce the leftmost-match
semantics of the regexes in question.  The ambient timezone is modelled as
UTC, and the current clock (`Date.now()`) is passed explicitly as an
integer parameter `now` of epoch milliseconds.
-/

/- Batteries marks the `Rat` field operations `@[irreducible]`; re-allow
unfolding them so that concrete witness computations can be checked by
`decide` and `rfl`. -/
attribute [local semireducible] Rat.add Rat.mul Rat.sub Rat.inv

/-! ## JavaScript strings -/

abbrev JSStr := List Char

def jstr (s : String) : JSStr := s.data

/-- Model of the JS whitespace class used by `trim` and `\s`. -/
def isWSChar (c : Char) : Bool :=
  c = ' ' || c = '\t' || c = '\n' || c = '\r' || c = '\x0b' || c = '\x0c'

def lowChar (c : Char) : Char := c.toLower

def lowerStr (s : JSStr) : JSStr := s.map lowChar

/-- Model of `String.prototype.trim`. -/
def trimStr (s : JSStr) : JSStr :=
  ((s.dropWhile isWSChar).reverse.dropWhile isWSChar).reverse

/-- Model of `String.prototype.startsWith` for a literal pattern. -/
def beginsWith : JSStr → JSStr → Bool
  | [], _ => true
  | _ :: _, [] => false
  | p :: ps, c :: cs => p = c && beginsWith ps cs

/-- Case-insensitive literal prefix test (for `/i` regexes). -/
def beginsWithCI : JSStr → JSStr → Bool
  | [], _ => true
  | _ :: _, [] => false
  | p :: ps, c :: cs => lowChar p = lowChar c && beginsWithCI ps cs

/-- Model of `String.prototype.includes` for a literal pattern. -/
def containsSub (pat : JSStr) : JSStr → Bool
  | [] => beginsWith pat []
  | c :: cs => beginsWith pat (c :: cs) || containsSub pat cs

def endsWithStr (pat s : JSStr) : Bool := beginsWith pat.reverse s.reverse

/-- Model of `String.prototype.replace(pat, empty)`: remove the first
occurrence of a literal pattern. -/
def removeFirstSub (pat : JSStr) : JSStr → JSStr
  | [] => []
  | c :: cs =>
    if beginsWith pat (c :: cs) then (c :: cs).drop pat.length
    else c :: removeFirstSub pat cs

/-- Model of `String.prototype.split(c)` on a single separator character:
`n` separators yield `n+1` (possibly empty) parts. -/
def splitOnChar (c : Char) : JSStr → List JSStr
  | [] => [[]]
  | x :: xs =>
    let r := splitOnChar c xs
    if x = c then [] :: r
    else
      match r with
      | [] => [[x]]
      | h :: t => (x :: h) :: t

/-- Worker for `split(/\s+/)`: splits on maximal whitespace runs.  The
Boolean records whether the previous character was part of a separator
run. -/
def splitWsGo : JSStr → JSStr → Bool → List JSStr
  | [], cur, _ => [cur.reverse]
  | c :: cs, cur, inSep =>
    if isWSChar c then
      if inSep then splitWsGo cs cur true
      else cur.reverse :: splitWsGo cs [] true
    else splitWsGo cs (c :: cur) false

/-- Model of `String.prototype.split(/\s+/)`. -/
def splitWsPlus (s : JSStr) : List JSStr := splitWsGo s [] false

/-- Worker for a case-insensitive fixed-string `split`: the `Nat` counts
separator characters still to be skipped after a separator match. -/
def splitCIGo (pat : JSStr) : JSStr → JSStr → Nat → List JSStr
  | [], cur, _ => [cur.reverse]
  | c :: cs, cur, 0 =>
    if beginsWithCI pat (c :: cs) && pat.length != 0 then
      cur.reverse :: splitCIGo pat cs [] (pat.length - 1)
    else splitCIGo pat cs (c :: cur) 0
  | _ :: cs, cur, k + 1 => splitCIGo pat cs cur k

/-- Model of `String.prototype.split` on a case-insensitive fixed-string
regex such as `/ or /i`. -/
def splitCISub (pat s : JSStr) : List JSStr := splitCIGo pat s [] 0

def countWhile (p : Char → Bool) (s : JSStr) : Nat := (s.takeWhile p).length

/-- Length of a `\s+by\s+` separator match anchored at the current
position, if any (for `split(/\s+by\s+/i)`). -/
def byMatchLen (s : JSStr) : Option Nat :=
  let n1 := countWhile isWSChar s
  if n1 = 0 then none
  else
    let r := s.drop n1
    if beginsWithCI (jstr "by") r then
      let n2 := countWhile isWSChar (r.drop 2)
      if n2 = 0 then none else some (n1 + 2 + n2)
    else none

/-- Worker for `split(/\s+by\s+/i)`. -/
def splitByGo : JSStr → JSStr → Nat → List JSStr
  | [], cur, _ => [cur.reverse]
  | c :: cs, cur, 0 =>
    match byMatchLen (c :: cs) with
    | some k => cur.reverse :: splitByGo cs [] (k - 1)
    | none => splitByGo cs (c :: cur) 0
  | _ :: cs, cur, k + 1 => splitByGo cs cur k

/-- Model of `String.prototype.split(/\s+by\s+/i)`. -/
def splitBySep (s : JSStr) : List JSStr := splitByGo s [] 0

/-- Leftmost-match regex scanning: try the position-anchored matcher at
each successive start position, as a JS regex engine does. -/
def firstScan {β : Type} (f : JSStr → Option β) : JSStr → Option β
  | [] => f []
  | c :: cs =>
    match f (c :: cs) with
    | some r => some r
    | none => firstScan f cs

def isWordChar (c : Char) : Bool :=
  ('a' ≤ c && c ≤ 'z') || ('A' ≤ c && c ≤ 'Z') || ('0' ≤ c && c ≤ '9') || c = '_'

def isDigitChar (c : Char) : Bool := '0' ≤ c && c ≤ '9'

def isCmpOpChar (c : Char) : Bool := c = '<' || c = '>' || c = '=' || c = '!'

def isQuoteChar (c : Char) : Bool := c = '"' || c = Char.ofNat 39

def splitRun (p : Char → Bool) (s : JSStr) : JSStr × JSStr :=
  (s.takeWhile p, s.dropWhile p)

def expectChar (c : Char) : JSStr → Option JSStr
  | [] => none
  | x :: xs => if x = c then some xs else none

def joinWithChar (c : Char) : List JSStr → JSStr
  | [] => []
  | [s] => s
  | s :: rest => s ++ c :: joinWithChar c rest

/-! ## JavaScript numbers -/

/-- JavaScript double values are modelled as exact rationals extended with
the special values `NaN` and `±Infinity`; IEEE rounding is idealized
away, which none of the verified properties depend on. -/
inductive JSNum
  | rat (q : ℚ)
  | nan
  | inf
  | ninf
deriving DecidableEq, Repr

def numNeg : JSNum → JSNum
  | .rat q => .rat (-q)
  | .nan => .nan
  | .inf => .ninf
  | .ninf => .inf

def numAdd : JSNum → JSNum → JSNum
  | .rat a, .rat b => .rat (a + b)
  | .nan, _ => .nan
  | _, .nan => .nan
  | .inf, .ninf => .nan
  | .ninf, .inf => .nan
  | .inf, _ => .inf
  | _, .inf => .inf
  | .ninf, _ => .ninf
  | _, .ninf => .ninf

def numSub (a b : JSNum) : JSNum := numAdd a (numNeg b)

def numMul : JSNum → JSNum → JSNum
  | .rat a, .rat b => .rat (a * b)
  | .nan, _ => .nan
  | _, .nan => .nan
  | .inf, .rat b => if b = 0 then .nan else if b > 0 then .inf else .ninf
  | .rat a, .inf => if a = 0 then .nan else if a > 0 then .inf else .ninf
  | .ninf, .rat b => if b = 0 then .nan else if b > 0 then .ninf else .inf
  | .rat a, .ninf => if a = 0 then .nan else if a > 0 then .ninf else .inf
  | .inf, .inf => .inf
  | .inf, .ninf => .ninf
  | .ninf, .inf => .ninf
  | .ninf, .ninf => .inf

def numDiv : JSNum → JSNum → JSNum
  | .rat a, .rat b =>
    if b = 0 then (if a = 0 then .nan else if a > 0 then .inf else .ninf)
    else .rat (a / b)
  | .nan, _ => .nan
  | _, .nan => .nan
  | .inf, .rat b => if b < 0 then .ninf else .inf
  | .ninf, .rat b => if b < 0 then .inf else .ninf
  | .rat _, .inf => .rat 0
  | .rat _, .ninf => .rat 0
  | _, _ => .nan

def numLtB : JSNum → JSNum → Bool
  | .rat a, .rat b => a < b
  | .rat _, .inf => true
  | .ninf, .rat _ => true
  | .ninf, .inf => true
  | _, _ => false

/-- Model of strict number equality (`===` and `==` on two numbers). -/
def numEqB : JSNum → JSNum → Bool
  | .rat a, .rat b => a = b
  | .inf, .inf => true
  | .ninf, .ninf => true
  | _, _ => false

def numLeB (a b : JSNum) : Bool := numLtB a b || numEqB a b

def numGtB (a b : JSNum) : Bool := numLtB b a

def numGeB (a b : JSNum) : Bool := numLeB b a

def numFloor : JSNum → JSNum
  | .rat q => .rat (q.floor : ℤ)
  | n => n

def numAbs : JSNum → JSNum
  | .rat q => .rat |q|
  | .nan => .nan
  | _ => .inf

/-- Model of `Math.min` on two non-missing arguments. -/
def numMinB (a b : JSNum) : JSNum :=
  if a = .nan || b = .nan then .nan else if numLtB b a then b else a

def numMaxB (a b : JSNum) : JSNum :=
  if a = .nan || b = .nan then .nan else if numLtB a b then b else a

def natOfDigits (ds : JSStr) : Nat := ds.foldl (fun a c => 10 * a + (c.toNat - 48)) 0

def natDigitsStr (n : Nat) : JSStr := (Nat.repr n).data

def intToString (i : Int) : JSStr :=
  if i < 0 then '-' :: natDigitsStr i.natAbs else natDigitsStr i.natAbs

/-- Decimal digits of the fractional part of a rational in `[0, 1)`,
up to 17 places (the idealized shortest-double rendering). -/
def fracDigitsStr : ℚ → Nat → JSStr
  | _, 0 => []
  | q, k + 1 =>
    if q = 0 then []
    else
      let q10 := q * 10
      let d : Nat := q10.floor.toNat
      Char.ofNat (48 + d) :: fracDigitsStr (q10 - (d : ℚ)) k

def ratToString (q : ℚ) : JSStr :=
  let sgn : JSStr := if q < 0 then ['-'] else []
  let a := |q|
  let ip : Nat := a.floor.toNat
  let fr := a - (a.floor : ℚ)
  if fr = 0 then sgn ++ natDigitsStr ip
  else sgn ++ natDigitsStr ip ++ '.' :: fracDigitsStr fr 17

/-- Model of `String(n)` for a JS number. -/
def numToString : JSNum → JSStr
  | .rat q => ratToString q
  | .nan => jstr "NaN"
  | .inf => jstr "Infinity"
  | .ninf => jstr "-Infinity"

/-- Optional exponent suffix of a float literal (`e`/`E`, optional sign,
digits); absent or incomplete exponents are ignored, as `parseFloat`
does. -/
def applyExpSuffix (m : ℚ) (r : JSStr) : ℚ :=
  match r with
  | c :: r1 =>
    if c = 'e' || c = 'E' then
      let (sgn, r2) : Int × JSStr :=
        match r1 with
        | '-' :: t => (-1, t)
        | '+' :: t => (1, t)
        | t => (1, t)
      let (ds, _) := splitRun isDigitChar r2
      if ds = [] then m else m * (10 : ℚ) ^ (sgn * (natOfDigits ds : Int))
    else m
  | [] => m

/-- Unsigned part of the `parseFloat` grammar: `Infinity`, or digits with
an optional fraction and exponent; longest valid prefix wins. -/
def parseUnsignedFloat (s : JSStr) : JSNum :=
  if beginsWith (jstr "Infinity") s then .inf
  else
    let (ip, r1) := splitRun isDigitChar s
    match r1 with
    | '.' :: r2 =>
      let (fp, r3) := splitRun isDigitChar r2
      if ip = [] && fp = [] then .nan
      else
        let m : ℚ := (natOfDigits ip : ℚ) + (natOfDigits fp : ℚ) / (10 : ℚ) ^ fp.length
        .rat (applyExpSuffix m r3)
    | _ =>
      if ip = [] then .nan
      else .rat (applyExpSuffix (natOfDigits ip : ℚ) r1)

/-- Model of the global `parseFloat`: skip leading whitespace, optional
sign, then the longest valid float-literal prefix; `NaN` otherwise. -/
def parseFloatStr (s : JSStr) : JSNum :=
  match s.dropWhile isWSChar with
  | '-' :: r => numNeg (parseUnsignedFloat r)
  | '+' :: r => parseUnsignedFloat r
  | r => parseUnsignedFloat r

def isHexDigitChar (c : Char) : Bool :=
  isDigitChar c || ('a' ≤ c && c ≤ 'f') || ('A' ≤ c && c ≤ 'F')

def hexVal (c : Char) : Nat :=
  if isDigitChar c then c.toNat - 48
  else if 'a' ≤ c && c ≤ 'f' then c.toNat - 87
  else c.toNat - 55

/-- Full-string unsigned decimal literal for `ToNumber` (must consume the
whole string, unlike `parseFloat`). -/
def parseFullUnsigned (s : JSStr) : Option ℚ :=
  if s = jstr "Infinity" then none
  else
    let (ip, r1) := splitRun isDigitChar s
    match r1 with
    | '.' :: r2 =>
      let (fp, r3) := splitRun isDigitChar r2
      if ip = [] && fp = [] then none
      else
        let m : ℚ := (natOfDigits ip : ℚ) + (natOfDigits fp : ℚ) / (10 : ℚ) ^ fp.length
        match r3 with
        | [] => some m
        | c :: r4 =>
          if c = 'e' || c = 'E' then
            let (sgn, r5) : Int × JSStr :=
              match r4 with
              | '-' :: t => (-1, t)
              | '+' :: t => (1, t)
              | t => (1, t)
            let (ds, r6) := splitRun isDigitChar r5
            if ds = [] || r6 ≠ [] then none
            else some (m * (10 : ℚ) ^ (sgn * (natOfDigits ds : Int)))
          else none
    | [] => if ip = [] then none else some (natOfDigits ip : ℚ)
    | c :: r4 =>
      if ip = [] then none
      else if c = 'e' || c = 'E' then
        let (sgn, r5) : Int × JSStr :=
          match r4 with
          | '-' :: t => (-1, t)
          | '+' :: t => (1, t)
          | t => (1, t)
        let (ds, r6) := splitRun isDigitChar r5
        if ds = [] || r6 ≠ [] then none
        else some ((natOfDigits ip : ℚ) * (10 : ℚ) ^ (sgn * (natOfDigits ds : Int)))
      else none

/-- Model of `ToNumber` on a string: trim, empty means zero, hex literal,
or a fully consumed signed decimal literal / `Infinity`; `NaN`
otherwise. -/
def strToNumber (s : JSStr) : JSNum :=
  let t := trimStr s
  if t = [] then .rat 0
  else if beginsWith (jstr "0x") t || beginsWith (jstr "0X") t then
    let ds := t.drop 2
    if ds ≠ [] && ds.all isHexDigitChar then
      .rat (ds.foldl (fun a c => 16 * a + hexVal c) 0 : Nat)
    else .nan
  else
    let (sgn, body) : Int × JSStr :=
      match t with
      | '-' :: r => (-1, r)
      | '+' :: r => (1, r)
      | r => (1, r)
    if body = jstr "Infinity" then (if sgn = 1 then .inf else .ninf)
    else
      match parseFullUnsigned body with
      | some q => .rat (sgn * q)
      | none => .nan

/-! ## JavaScript values and rows -/

/-- Scalar or array value stored in a row.  `date` carries epoch
milliseconds, with `none` standing for an Invalid Date. -/
inductive Value
  | str (s : JSStr)
  | num (n : JSNum)
  | bool (b : Bool)
  | date (d : Option Int)
  | null
  | arr (vs : List Value)

/-- Rows are ordered key/value lists mirroring JS object key order; an
entry whose payload is `none` is a key present with value `undefined`. -/
abbrev Row := List (JSStr × Option Value)

def rowEntry (row : Row) (k : JSStr) : Option (Option Value) :=
  (row.find? (fun e => decide (e.1 = k))).map (fun e => e.2)

/-- Model of `row[k]`: an absent key and a key stored as `undefined` both
read as `undefined`. -/
def jsIndex (row : Row) (k : JSStr) : Option Value :=
  match rowEntry row k with
  | some jv => jv
  | none => none

def hasKeyRow (row : Row) (k : JSStr) : Bool := (rowEntry row k).isSome

/-- Model of assignment `row[k] = v` under object key-order semantics:
an existing key keeps its position, a new key is appended. -/
def setKey (row : Row) (k : JSStr) (v : Option Value) : Row :=
  if hasKeyRow row k then row.map (fun e => if e.1 = k then (k, v) else e)
  else row ++ [(k, v)]

/-- Model of the object spread `{...a, ...b}`. -/
def mergeRow (a b : Row) : Row :=
  a.map (fun e =>
    match rowEntry b e.1 with
    | some jv => (e.1, jv)
    | none => e) ++
  b.filter (fun e => !hasKeyRow a e.1)

/-- Modelled: `Date.prototype.toString` produces a timezone- and
implementation-dependent humanized text; it is abstracted to a
deterministic rendering that, like the real one, never parses as a
number. -/
def dateToString : Option Int → JSStr
  | none => jstr "Invalid Date"
  | some ms => jstr "Date " ++ intToString ms

mutual

/-- Model of `String(v)` for a defined value. -/
def valueToString : Value → JSStr
  | .str s => s
  | .num n => numToString n
  | .bool b => if b then jstr "true" else jstr "false"
  | .null => jstr "null"
  | .date d => dateToString d
  | .arr vs => arrElemsString vs

/-- Model of `Array.prototype.toString`: comma-joined elements with a
`null` element rendered empty. -/
def arrElemsString : List Value → JSStr
  | [] => []
  | [Value.null] => []
  | [v] => valueToString v
  | Value.null :: vs => ',' :: arrElemsString vs
  | v :: vs => valueToString v ++ ',' :: arrElemsString vs

end

/-- Model of `String(x)` including `undefined`. -/
def jsToString : Option Value → JSStr
  | none => jstr "undefined"
  | some v => valueToString v

/-- Primitive obtained from `ToPrimitive` with number hint, as used by
the relational operators: dates expose their millisecond value, arrays
their string form. -/
inductive JSPrim
  | pstr (s : JSStr)
  | pnum (n : JSNum)
  | pbool (b : Bool)
  | pnull
  | pundef

def toPrimitive : Option Value → JSPrim
  | none => .pundef
  | some .null => .pnull
  | some (.bool b) => .pbool b
  | some (.num n) => .pnum n
  | some (.str s) => .pstr s
  | some (.date (some ms)) => .pnum (.rat ms)
  | some (.date none) => .pnum .nan
  | some (.arr vs) => .pstr (arrElemsString vs)

def primToNumber : JSPrim → JSNum
  | .pstr s => strToNumber s
  | .pnum n => n
  | .pbool b => .rat (if b then 1 else 0)
  | .pnull => .rat 0
  | .pundef => .nan

/-- Code-unit lexicographic order on strings, as JS `<` on two strings. -/
def lexLtStr : JSStr → JSStr → Bool
  | [], [] => false
  | [], _ :: _ => true
  | _ :: _, [] => false
  | a :: as, b :: bs =>
    if a.toNat < b.toNat then true
    else if b.toNat < a.toNat then false
    else lexLtStr as bs

/-- Model of the JS `<` relational operator on two row values. -/
def jsLtB (a b : Option Value) : Bool :=
  match toPrimitive a, toPrimitive b with
  | .pstr x, .pstr y => lexLtStr x y
  | pa, pb => numLtB (primToNumber pa) (primToNumber pb)

/-- Model of strict equality `===` on two row values.  Dates and arrays
compare by object reference; distinct pipeline values are modelled as
distinct objects, hence never strictly equal. -/
def jsStrictEqV : Option Value → Option Value → Bool
  | none, none => true
  | some .null, some .null => true
  | some (.bool a), some (.bool b) => a = b
  | some (.num a), some (.num b) => numEqB a b
  | some (.str a), some (.str b) => a = b
  | _, _ => false

/-- Model of the SameValueZero comparison used by `Set`: like `===` but
`NaN` matches itself. -/
def svzEqV (a b : Option Value) : Bool :=
  match a, b with
  | some (.num .nan), some (.num .nan) => true
  | x, y => jsStrictEqV x y

/-- Insertion-order deduplication by SameValueZero, as `new Set(...)`. -/
def dedupSvz : List (Option Value) → List (Option Value) → List (Option Value)
  | [], _ => []
  | v :: vs, seen =>
    if seen.any (fun w => svzEqV w v) then dedupSvz vs seen
    else v :: dedupSvz vs (v :: seen)

/-! ## Calendar arithmetic (UTC model of the local timezone) -/

def civilFromDays (z0 : Int) : Int × Int × Int :=
  let z := z0 + 719468
  let era := Int.fdiv z 146097
  let doe := z - era * 146097
  let yoe := Int.fdiv (doe - Int.fdiv doe 1460 + Int.fdiv doe 36524 - Int.fdiv doe 146096) 365
  let y := yoe + era * 400
  let doy := doe - (365 * yoe + Int.fdiv yoe 4 - Int.fdiv yoe 100)
  let mp := Int.fdiv (5 * doy + 2) 153
  let d := doy - Int.fdiv (153 * mp + 2) 5 + 1
  let m := mp + (if mp < 10 then 3 else -9)
  (y + (if m ≤ 2 then 1 else 0), m, d)

def daysFromCivil (y m d : Int) : Int :=
  let y2 := y - (if m ≤ 2 then 1 else 0)
  let era := Int.fdiv y2 400
  let yoe := y2 - era * 400
  let mp := Int.emod (m + 9) 12
  let doy := Int.fdiv (153 * mp + 2) 5 + d - 1
  let doe := yoe * 365 + Int.fdiv yoe 4 - Int.fdiv yoe 100 + doy
  era * 146097 + doe - 719468

def padNat (w n : Nat) : JSStr :=
  let s := natDigitsStr n
  (List.replicate (w - s.length) '0') ++ s

/-- Model of `Date.prototype.toISOString` for a valid date. -/
def isoString (ms : Int) : JSStr :=
  let days := Int.fdiv ms 86400000
  let msod := (ms - days * 86400000).toNat
  let c := civilFromDays days
  let yearStr :=
    if c.1 < 0 then '-' :: padNat 6 c.1.natAbs
    else if c.1 > 9999 then '+' :: padNat 6 c.1.toNat
    else padNat 4 c.1.toNat
  yearStr ++ '-' :: padNat 2 c.2.1.toNat ++ '-' :: padNat 2 c.2.2.toNat ++
    'T' :: padNat 2 (msod / 3600000) ++ ':' :: padNat 2 ((msod / 60000) % 60) ++
    ':' :: padNat 2 ((msod / 1000) % 60) ++ '.' :: padNat 3 (msod % 1000) ++ ['Z']

/-- Modelled date-string parsing: only the ISO-8601 forms whose handling
ECMA-262 guarantees (`YYYY-MM-DD` with an optional `THH:MM[:SS[.sss]][Z]`
time part, read as UTC here) produce a valid date; all other strings are
implementation-defined in JS and are modelled as invalid. -/
def parseISODate (s : JSStr) : Option Int :=
  let (ys, r1) := splitRun isDigitChar s
  if ys.length ≠ 4 then none
  else
    match expectChar '-' r1 with
    | none => none
    | some r2 =>
      let (ms', r3) := splitRun isDigitChar r2
      if ms'.length ≠ 2 then none
      else
        match expectChar '-' r3 with
        | none => none
        | some r4 =>
          let (ds, r5) := splitRun isDigitChar r4
          if ds.length ≠ 2 then none
          else
            let y : Int := natOfDigits ys
            let mo : Int := natOfDigits ms'
            let d : Int := natOfDigits ds
            if mo < 1 || mo > 12 || d < 1 || d > 31 then none
            else
              let base := daysFromCivil y mo d * 86400000
              match r5 with
              | [] => some base
              | 'T' :: r6 =>
                let (hs, r7) := splitRun isDigitChar r6
                if hs.length ≠ 2 then none
                else
                  match expectChar ':' r7 with
                  | none => none
                  | some r8 =>
                    let (mins, r9) := splitRun isDigitChar r8
                    if mins.length ≠ 2 then none
                    else
                      let hm := base + (natOfDigits hs : Int) * 3600000 +
                        (natOfDigits mins : Int) * 60000
                      match r9 with
                      | [] => some hm
                      | ['Z'] => some hm
                      | ':' :: r10 =>
                        let (ss, r11) := splitRun isDigitChar r10
                        if ss.length ≠ 2 then none
                        else
                          let hms := hm + (natOfDigits ss : Int) * 1000
                          match r11 with
                          | [] => some hms
                          | ['Z'] => some hms
                          | '.' :: r12 =>
                            let (fs, r13) := splitRun isDigitChar r12
                            if fs.length ≠ 3 then none
                            else
                              let full := hms + (natOfDigits fs : Int)
                              match r13 with
                              | [] => some full
                              | ['Z'] => some full
                              | _ => none
                          | _ => none
                      | _ => none
              | _ => none

/-- Model of `new Date(x)` for a row value: epoch milliseconds or `none`
for an Invalid Date. -/
def dateOfValue : Option Value → Option Int
  | some (.date d) => d
  | some (.num (.rat q)) => some (q.num / q.den)
  | some (.num _) => none
  | some (.str s) => parseISODate s
  | some (.bool b) => some (if b then 1 else 0)
  | some .null => some 0
  | some (.arr _) => none
  | none => none

def dayFloorMs (t : Int) : Int := Int.fdiv t 86400000 * 86400000

def dateNum : Option Int → JSNum
  | some ms => .rat ms
  | none => .nan

/-! ## Regex models for the condition evaluator -/

/-- Position-anchored model of `(\w+)\s*([<>=!]+)\s*(\d+(?:\.\d+)?)`. -/
def tryNumericCmp (s : JSStr) : Option (JSStr × JSStr × JSStr) :=
  let (f, r1) := splitRun isWordChar s
  if f = [] then none
  else
    let r2 := r1.dropWhile isWSChar
    let (op, r3) := splitRun isCmpOpChar r2
    if op = [] then none
    else
      let r4 := r3.dropWhile isWSChar
      let (d, r5) := splitRun isDigitChar r4
      if d = [] then none
      else
        match r5 with
        | '.' :: r6 =>
          let (fr, _) := splitRun isDigitChar r6
          if fr = [] then some (f, op, d) else some (f, op, d ++ '.' :: fr)
        | _ => some (f, op, d)

/-- Position-anchored model of `(\w+)\s*==\s*["']([^"']+)["']`. -/
def tryEquality (s : JSStr) : Option (JSStr × JSStr) :=
  let (f, r1) := splitRun isWordChar s
  if f = [] then none
  else
    let r2 := r1.dropWhile isWSChar
    match r2 with
    | '=' :: '=' :: r3 =>
      let r4 := r3.dropWhile isWSChar
      match r4 with
      | q :: r5 =>
        if isQuoteChar q then
          let (content, r6) := splitRun (fun c => !isQuoteChar c) r5
          if content = [] then none
          else
            match r6 with
            | q2 :: _ => if isQuoteChar q2 then some (f, content) else none
            | [] => none
        else none
      | [] => none
    | _ => none

/-- Position-anchored model of `(\w+)\s+in\s*\(([^)]+)\)` (`/i`). -/
def tryInCond (s : JSStr) : Option (JSStr × JSStr) :=
  let (f, r1) := splitRun isWordChar s
  if f = [] then none
  else
    let n1 := countWhile isWSChar r1
    if n1 = 0 then none
    else
      let r2 := r1.drop n1
      if beginsWithCI (jstr "in") r2 then
        let r3 := (r2.drop 2).dropWhile isWSChar
        match expectChar '(' r3 with
        | none => none
        | some r4 =>
          let (content, r5) := splitRun (fun c => c ≠ ')') r4
          if content = [] then none
          else
            match expectChar ')' r5 with
            | some _ => some (f, content)
            | none => none
      else none

/-- Position-anchored model of `(\w+)\s+(contains|has)\s+["']([^"']+)["']`
(`/i`).  The two keyword alternatives behave identically downstream, so
only the field and the quoted text are captured. -/
def tryContainsCond (s : JSStr) : Option (JSStr × JSStr) :=
  let (f, r1) := splitRun isWordChar s
  if f = [] then none
  else
    let n1 := countWhile isWSChar r1
    if n1 = 0 then none
    else
      let r2 := r1.drop n1
      let kw : Option JSStr :=
        if beginsWithCI (jstr "contains") r2 then some (r2.drop 8)
        else if beginsWithCI (jstr "has") r2 then some (r2.drop 3)
        else none
      match kw with
      | none => none
      | some r3 =>
        let n2 := countWhile isWSChar r3
        if n2 = 0 then none
        else
          match r3.drop n2 with
          | q :: r5 =>
            if isQuoteChar q then
              let (content, r6) := splitRun (fun c => !isQuoteChar c) r5
              if content = [] then none
              else
                match r6 with
                | q2 :: _ => if isQuoteChar q2 then some (f, content) else none
                | [] => none
            else none
          | [] => none

/-- Position-anchored model of
`(\w+)\s+(startswith|endswith)\s+["']([^"']+)["']` (`/i`); the Boolean is
`true` for `startswith`. -/
def tryStringFunc (s : JSStr) : Option (JSStr × Bool × JSStr) :=
  let (f, r1) := splitRun isWordChar s
  if f = [] then none
  else
    let n1 := countWhile isWSChar r1
    if n1 = 0 then none
    else
      let r2 := r1.drop n1
      let kw : Option (Bool × JSStr) :=
        if beginsWithCI (jstr "startswith") r2 then some (true, r2.drop 10)
        else if beginsWithCI (jstr "endswith") r2 then some (false, r2.drop 8)
        else none
      match kw with
      | none => none
      | some (isStart, r3) =>
        let n2 := countWhile isWSChar r3
        if n2 = 0 then none
        else
          match r3.drop n2 with
          | q :: r5 =>
            if isQuoteChar q then
              let (content, r6) := splitRun (fun c => !isQuoteChar c) r5
              if content = [] then none
              else
                match r6 with
                | q2 :: _ => if isQuoteChar q2 then some (f, isStart, content) else none
                | [] => none
            else none
          | [] => none

/-- Position-anchored model of `(\w+)\s+is\s+(not\s+)?null` (`/i`); the
Boolean records whether the `not` group matched. -/
def tryNullCheck (s : JSStr) : Option (JSStr × Bool) :=
  let (f, r1) := splitRun isWordChar s
  if f = [] then none
  else
    let n1 := countWhile isWSChar r1
    if n1 = 0 then none
    else
      let r2 := r1.drop n1
      if beginsWithCI (jstr "is") r2 then
        let n2 := countWhile isWSChar (r2.drop 2)
        if n2 = 0 then none
        else
          let r3 := (r2.drop 2).drop n2
          let withNot : Option JSStr :=
            if beginsWithCI (jstr "not") r3 then
              let n3 := countWhile isWSChar (r3.drop 3)
              if n3 = 0 then none else some ((r3.drop 3).drop n3)
            else none
          match withNot with
          | some r4 => if beginsWithCI (jstr "null") r4 then some (f, true) else none
          | none => if beginsWithCI (jstr "null") r3 then some (f, false) else none
      else none

/-! ## Regex models for the time-condition evaluator

These regexes in the source carry no `/i` flag, so all keywords are
matched case-sensitively. -/

def timeUnitMs (u : Char) : Int :=
  if u = 'd' then 86400000 else if u = 'h' then 3600000
  else if u = 'm' then 60000 else 1000

def tryAgoUnit (s : JSStr) : Option (Nat × Char × JSStr) :=
  if beginsWith (jstr "ago(") s then
    let (ds, r1) := splitRun isDigitChar (s.drop 4)
    if ds = [] then none
    else
      match r1 with
      | u :: r2 =>
        if u = 'd' || u = 'h' || u = 'm' || u = 's' then
          match expectChar ')' r2 with
          | some r3 => some (natOfDigits ds, u, r3)
          | none => none
        else none
      | [] => none
  else none

/-- Position-anchored model of
`timestamp\s*([><=!]+)\s*ago\((\d+)(d|h|m|s)\)`. -/
def tryAgoCmp (s : JSStr) : Option (JSStr × Nat × Char) :=
  if beginsWith (jstr "timestamp") s then
    let r1 := (s.drop 9).dropWhile isWSChar
    let (op, r2) := splitRun isCmpOpChar r1
    if op = [] then none
    else
      match tryAgoUnit (r2.dropWhile isWSChar) with
      | some (n, u, _) => some (op, n, u)
      | none => none
  else none

/-- Position-anchored model of
`timestamp\s+between\s*\(\s*ago\((\d+)(d|h|m|s)\)\s*\.\.\s*ago\((\d+)(d|h|m|s)\)\s*\)`. -/
def tryBetween (s : JSStr) : Option (Nat × Char × Nat × Char) :=
  if beginsWith (jstr "timestamp") s then
    let r1 := s.drop 9
    let n1 := countWhile isWSChar r1
    if n1 = 0 then none
    else if beginsWith (jstr "between") (r1.drop n1) then
      let r2 := ((r1.drop n1).drop 7).dropWhile isWSChar
      match expectChar '(' r2 with
      | none => none
      | some r3 =>
        match tryAgoUnit (r3.dropWhile isWSChar) with
        | none => none
        | some (a, ua, r4) =>
          let r5 := r4.dropWhile isWSChar
          match r5 with
          | '.' :: '.' :: r6 =>
            match tryAgoUnit (r6.dropWhile isWSChar) with
            | none => none
            | some (b, ub, r7) =>
              match expectChar ')' (r7.dropWhile isWSChar) with
              | some _ => some (a, ua, b, ub)
              | none => none
          | _ => none
    else none
  else none

/-- Position-anchored model of `timestamp\s*([><=!]+)\s*<kw>\((.*?)\)` for
the `startofday`/`endofday`/`startofweek` keywords: the lazy group
captures up to the first `)`, and `.` excludes line terminators. -/
def tryTimeKw (kw : JSStr) (s : JSStr) : Option (JSStr × JSStr) :=
  if beginsWith (jstr "timestamp") s then
    let r1 := (s.drop 9).dropWhile isWSChar
    let (op, r2) := splitRun isCmpOpChar r1
    if op = [] then none
    else
      let r3 := r2.dropWhile isWSChar
      if beginsWith kw r3 then
        match expectChar '(' (r3.drop kw.length) with
        | none => none
        | some r4 =>
          let (content, r5) := splitRun (fun c => c ≠ ')') r4
          if content.any (fun c => c = '\n' || c = '\r') then none
          else
            match expectChar ')' r5 with
            | some _ => some (op, content)
            | none => none
      else none
  else none

/-- Model of `/ago\((\d+)(d|h|m|s)\)/` searched anywhere in a nested date
expression. -/
def scanAgoInner (s : JSStr) : Option (Nat × Char) :=
  firstScan (fun t =>
    match tryAgoUnit t with
    | some (n, u, _) => some (n, u)
    | none => none) s

/-- Comparison dispatch shared by the `ago()` branch of
`evaluateTimeCondition`. -/
def agoCompare (op : JSStr) (rowTime : Option Int) (cutoff : Int) : Bool :=
  if op = jstr ">=" then numGeB (dateNum rowTime) (.rat cutoff)
  else if op = jstr ">" then numGtB (dateNum rowTime) (.rat cutoff)
  else if op = jstr "<=" then numLeB (dateNum rowTime) (.rat cutoff)
  else if op = jstr "<" then numLtB (dateNum rowTime) (.rat cutoff)
  else if op = jstr "==" then
    match rowTime with
    | some ms => |ms - cutoff| < 60000
    | none => false
  else if op = jstr "!=" then
    match rowTime with
    | some ms => |ms - cutoff| ≥ 60000
    | none => false
  else true

/-- Resolution of the `startofday`/`endofday` argument: a nested
`ago(...)` offsets the clock, anything else means the current time. -/
def timeKwTarget (now : Int) (dateExpr : JSStr) : Int :=
  if containsSub (jstr "ago(") dateExpr then
    match scanAgoInner dateExpr with
    | some (n, u) => now - n * timeUnitMs u
    | none => now
  else now

/-- Model of `evaluateTimeCondition`. -/
def evaluateTimeCondition (now : Int) (row : Row) (condition : JSStr) : Bool :=
  let rowTime := dateOfValue (jsIndex row (jstr "timestamp"))
  match firstScan tryAgoCmp condition with
  | some (op, n, u) => agoCompare op rowTime (now - n * timeUnitMs u)
  | none =>
  match firstScan tryBetween condition with
  | some (a, ua, b, ub) =>
    let startTime := now - a * timeUnitMs ua
    let endTime := now - b * timeUnitMs ub
    numGeB (dateNum rowTime) (.rat endTime) && numLeB (dateNum rowTime) (.rat startTime)
  | none =>
  match firstScan (tryTimeKw (jstr "startofday")) condition with
  | some (op, dateExpr) =>
    let startOfDay := dayFloorMs (timeKwTarget now dateExpr)
    if op = jstr ">=" then numGeB (dateNum rowTime) (.rat startOfDay)
    else if op = jstr ">" then numGtB (dateNum rowTime) (.rat startOfDay)
    else if op = jstr "<=" then numLeB (dateNum rowTime) (.rat startOfDay)
    else if op = jstr "<" then numLtB (dateNum rowTime) (.rat startOfDay)
    else if op = jstr "==" then
      numGeB (dateNum rowTime) (.rat startOfDay) &&
        numLtB (dateNum rowTime) (.rat (startOfDay + 86400000))
    else true
  | none =>
  match firstScan (tryTimeKw (jstr "endofday")) condition with
  | some (op, dateExpr) =>
    let target := timeKwTarget now dateExpr
    let endOfDay := dayFloorMs target + 86399999
    if op = jstr ">=" then numGeB (dateNum rowTime) (.rat endOfDay)
    else if op = jstr ">" then numGtB (dateNum rowTime) (.rat endOfDay)
    else if op = jstr "<=" then numLeB (dateNum rowTime) (.rat endOfDay)
    else if op = jstr "<" then numLtB (dateNum rowTime) (.rat endOfDay)
    else if op = jstr "==" then
      match rowTime with
      | some ms => dayFloorMs ms = dayFloorMs target
      | none => false
    else true
  | none =>
  match firstScan (tryTimeKw (jstr "startofweek")) condition with
  | some (op, _) =>
    let dow := Int.emod (Int.fdiv now 86400000 + 4) 7
    let startOfWeek := dayFloorMs (now - dow * 86400000)
    if op = jstr ">=" then numGeB (dateNum rowTime) (.rat startOfWeek)
    else if op = jstr ">" then numGtB (dateNum rowTime) (.rat startOfWeek)
    else if op = jstr "<=" then numLeB (dateNum rowTime) (.rat startOfWeek)
    else if op = jstr "<" then numLtB (dateNum rowTime) (.rat startOfWeek)
    else true
  | none => true

/-- Model of `evaluateCondition`: time predicates, then case-insensitive
quoted equality, then numeric comparison, else fail-open `true`. -/
def evaluateCondition (now : Int) (row : Row) (condition : JSStr) : Bool :=
  if containsSub (jstr "ago(") condition then evaluateTimeCondition now row condition
  else
    match firstScan tryEquality condition with
    | some (field, value) =>
      lowerStr (jsToString (jsIndex row field)) = lowerStr value
    | none =>
      match firstScan tryNumericCmp condition with
      | some (field, op, value) =>
        let fieldValue := parseFloatStr (jsToString (jsIndex row field))
        let compareValue := parseFloatStr value
        if op = jstr ">" then numGtB fieldValue compareValue
        else if op = jstr "<" then numLtB fieldValue compareValue
        else if op = jstr ">=" then numGeB fieldValue compareValue
        else if op = jstr "<=" then numLeB fieldValue compareValue
        else if op = jstr "==" then numEqB fieldValue compareValue
        else if op = jstr "!=" then !numEqB fieldValue compareValue
        else true
      | none => true

/-- Leaf dispatch of `evaluateComplexCondition` (the non-recursive
branches: membership, substring, prefix/suffix, null checks, then
`evaluateCondition`). -/
def evaluateLeafCondition (now : Int) (row : Row) (condition : JSStr) : Bool :=
  match firstScan tryInCond condition with
  | some (field, valuesList) =>
    let values := (splitOnChar ',' valuesList).map
      (fun v => (trimStr v).filter (fun c => !isQuoteChar c))
    values.any (fun v => v = jsToString (jsIndex row field))
  | none =>
  match firstScan tryContainsCond condition with
  | some (field, value) =>
    containsSub (lowerStr value) (lowerStr (jsToString (jsIndex row field)))
  | none =>
  match firstScan tryStringFunc condition with
  | some (field, isStart, value) =>
    let fieldValue := lowerStr (jsToString (jsIndex row field))
    let searchValue := lowerStr value
    if isStart then beginsWith searchValue fieldValue
    else endsWithStr searchValue fieldValue
  | none =>
  if containsSub (jstr "is null") condition || containsSub (jstr "is not null") condition then
    match firstScan tryNullCheck condition with
    | some (field, notNull) =>
      let isNull :=
        match jsIndex row field with
        | none => true
        | some .null => true
        | some _ => false
      if notNull then !isNull else isNull
    | none => evaluateCondition now row condition
  else evaluateCondition now row condition

/-- Model of the `^\((.+)\)$` test: first character `(`, last character
`)`, a nonempty middle, and no line terminator in the middle (which `.`
cannot match). -/
def isParenWrapped (s : JSStr) : Bool :=
  match s with
  | '(' :: rest =>
    rest.length ≥ 2 && rest.getLast? = some ')' &&
      !(rest.dropLast.any (fun c => c = '\n' || c = '\r'))
  | _ => false

def parenInner (s : JSStr) : JSStr := (s.drop 1).dropLast

/-- Fuelled model of `evaluateComplexCondition`; every recursive call of
the source shortens the condition text by at least one character, so
`length + 1` fuel (supplied by `evaluateComplexCondition`) always
suffices and the out-of-fuel branch is unreachable. -/
def evalCCFuel (now : Int) (row : Row) : Nat → JSStr → Bool
  | 0, _ => true
  | fuel + 1, condition =>
    if containsSub (jstr " or ") condition then
      ((splitCISub (jstr " or ") condition).map trimStr).any
        (fun part => evalCCFuel now row fuel part)
    else if containsSub (jstr " and ") condition then
      ((splitCISub (jstr " and ") condition).map trimStr).all
        (fun part => evalCCFuel now row fuel part)
    else if isParenWrapped condition then
      evalCCFuel now row fuel (parenInner condition)
    else if beginsWith (jstr "not ") (trimStr condition) then
      !evalCCFuel now row fuel ((trimStr condition).drop 4)
    else evaluateLeafCondition now row condition

/-- Model of `evaluateComplexCondition`. -/
def evaluateComplexCondition (now : Int) (row : Row) (condition : JSStr) : Bool :=
  evalCCFuel now row (condition.length + 1) condition

/-- Model of `applyWhereOperation`.  The surrounding `try`/`catch` keeps a
row on an evaluation exception; the embedded evaluator is total, so the
filter below is its exact behaviour. -/
def applyWhereOperation (now : Int) (data : List Row) (condition : JSStr) : List Row :=
  data.filter (fun row => evaluateComplexCondition now row condition)

/-! ## Model of `Array.prototype.sort`

ECMA-262 specifies `sort` as a stable sort whose output is ordered by the
comparator whenever the comparator is consistent, and leaves the order
implementation-defined otherwise.  A stable insertion sort realizes that
contract and, unlike the library merge sort, is structurally recursive,
so concrete runs reduce inside the kernel. -/

def jsSortInsert {α : Type} (le : α → α → Bool) (x : α) : List α → List α
  | [] => [x]
  | y :: ys => if le x y then x :: y :: ys else y :: jsSortInsert le x ys

def jsArraySort {α : Type} (le : α → α → Bool) : List α → List α
  | [] => []
  | x :: xs => jsSortInsert le x (jsArraySort le xs)

/-! ## Aggregation engine -/

/-- Position-anchored model of `(avg|sum|count|min|max)\(([^)]+)\)`,
alternatives tried in source order. -/
def tryBasicAgg (s : JSStr) : Option (JSStr × JSStr) :=
  let tryKw : JSStr → Option (JSStr × JSStr) := fun kw =>
    if beginsWith kw s then
      match expectChar '(' (s.drop kw.length) with
      | none => none
      | some r1 =>
        let (content, r2) := splitRun (fun c => c ≠ ')') r1
        if content = [] then none
        else
          match expectChar ')' r2 with
          | some _ => some (kw, content)
          | none => none
    else none
  match tryKw (jstr "avg") with
  | some r => some r
  | none =>
  match tryKw (jstr "sum") with
  | some r => some r
  | none =>
  match tryKw (jstr "count") with
  | some r => some r
  | none =>
  match tryKw (jstr "min") with
  | some r => some r
  | none => tryKw (jstr "max")

/-- Position-anchored model of `<name>\(([^)]+)\)` for the single-keyword
aggregation regexes (`dcount`, `stdev`, `make_list`, `make_set`). -/
def tryNamedArg (kw : JSStr) (s : JSStr) : Option JSStr :=
  if beginsWith kw s then
    match expectChar '(' (s.drop kw.length) with
    | none => none
    | some r1 =>
      let (content, r2) := splitRun (fun c => c ≠ ')') r1
      if content = [] then none
      else
        match expectChar ')' r2 with
        | some _ => some content
        | none => none
  else none

/-- Position-anchored model of
`percentile\(([^,]+),\s*(\d+(?:\.\d+)?)\)`. -/
def tryPercentile (s : JSStr) : Option (JSStr × JSStr) :=
  if beginsWith (jstr "percentile(") s then
    let (field, r1) := splitRun (fun c => c ≠ ',') (s.drop 11)
    if field = [] then none
    else
      match expectChar ',' r1 with
      | none => none
      | some r2 =>
        let r3 := r2.dropWhile isWSChar
        let (d, r4) := splitRun isDigitChar r3
        if d = [] then none
        else
          match r4 with
          | '.' :: r5 =>
            let (fr, r6) := splitRun isDigitChar r5
            if fr = [] then
              match expectChar ')' r4 with
              | some _ => some (field, d)
              | none => none
            else
              match expectChar ')' r6 with
              | some _ => some (field, d ++ '.' :: fr)
              | none => none
          | _ =>
            match expectChar ')' r4 with
            | some _ => some (field, d)
            | none => none
  else none

/-- Numeric values of a field across a row group: `parseFloat` each and
drop the `NaN`s, as `calculateAggregation` does. -/
def aggValues (data : List Row) (field : JSStr) : List JSNum :=
  (data.map (fun row => parseFloatStr (jsToString (jsIndex row field)))).filter
    (fun v => v ≠ .nan)

def numSumL (vs : List JSNum) : JSNum := vs.foldl numAdd (.rat 0)

def foldMinL (vs : List JSNum) : JSNum := vs.foldl numMinB .inf

def foldMaxL (vs : List JSNum) : JSNum := vs.foldl numMaxB .ninf

/-- Comparator order of `sort((a, b) => a - b)`. -/
def ascNumLe (a b : JSNum) : Bool :=
  match numSub a b with
  | .rat q => q ≤ 0
  | .ninf => true
  | _ => false

/-- Modelled `Math.sqrt`: exact on perfect rational squares, with an
integer-scaled floor approximation elsewhere (irrational square roots
are not rational; no verified property depends on the inexact case). -/
def numSqrt : JSNum → JSNum
  | .rat q =>
    if q < 0 then .nan
    else
      let n := q.num.toNat
      let d := q.den
      if Nat.sqrt n * Nat.sqrt n = n && Nat.sqrt d * Nat.sqrt d = d then
        .rat ((Nat.sqrt n : ℚ) / (Nat.sqrt d : ℚ))
      else .rat ((Nat.sqrt (n * d) : ℚ) / (d : ℚ))
  | .inf => .inf
  | _ => .nan

/-- Non-null, non-undefined raw values of a field, for
`make_list`/`make_set`. -/
def collectNonNull (data : List Row) (field : JSStr) : List Value :=
  data.filterMap (fun row =>
    match jsIndex row field with
    | none => none
    | some .null => none
    | some v => some v)

def dedupSvzValues : List Value → List Value → List Value
  | [], _ => []
  | v :: vs, seen =>
    if seen.any (fun w => svzEqV (some w) (some v)) then dedupSvzValues vs seen
    else v :: dedupSvzValues vs (v :: seen)

/-- Model of `calculateAggregation`.  The outer `Option` is the JS `null`
returned for an unrecognized spec or an empty `min`/`max`/`percentile`;
the inner `Option Value` is the computed value, with `none` standing for
the `undefined` an out-of-range percentile index produces. -/
def calculateAggregation (data : List Row) (agg : JSStr) : Option (Option Value) :=
  match firstScan tryBasicAgg agg with
  | some (func, field) =>
    let values := aggValues data field
    if func = jstr "avg" then
      some (some (.num (if values.length > 0 then
        numDiv (numSumL values) (.rat values.length) else .rat 0)))
    else if func = jstr "sum" then some (some (.num (numSumL values)))
    else if func = jstr "count" then some (some (.num (.rat data.length)))
    else if func = jstr "min" then
      if values.length > 0 then some (some (.num (foldMinL values))) else none
    else
      if values.length > 0 then some (some (.num (foldMaxL values))) else none
  | none =>
  if agg = jstr "count()" || agg = jstr "count" then some (some (.num (.rat data.length)))
  else
  match firstScan (tryNamedArg (jstr "dcount")) agg with
  | some field =>
    some (some (.num (.rat (dedupSvz (data.map (fun row => jsIndex row field)) []).length)))
  | none =>
  match firstScan tryPercentile agg with
  | some (field, pcap) =>
    let values := jsArraySort ascNumLe (aggValues data field)
    if values.length = 0 then none
    else
      match parseFloatStr pcap with
      | .rat p =>
        let idx : Nat := ((p / 100) * ((values.length : ℚ) - 1)).floor.toNat
        match values.get? idx with
        | some v => some (some (.num v))
        | none => some none
      | _ => some none
  | none =>
  match firstScan (tryNamedArg (jstr "stdev")) agg with
  | some field =>
    let values := aggValues data field
    if values.length ≤ 1 then some (some (.num (.rat 0)))
    else
      let mean := numDiv (numSumL values) (.rat values.length)
      let variance := numDiv
        (values.foldl (fun s v => numAdd s (numMul (numSub v mean) (numSub v mean))) (.rat 0))
        (.rat values.length)
      some (some (.num (numSqrt variance)))
  | none =>
  match firstScan (tryNamedArg (jstr "make_list")) agg with
  | some field => some (some (.arr (collectNonNull data field)))
  | none =>
  match firstScan (tryNamedArg (jstr "make_set")) agg with
  | some field => some (some (.arr (dedupSvzValues (collectNonNull data field) [])))
  | none => none

/-! ## Bin function -/

/-- Position-anchored model of `bin\(([^,]+),\s*([^)]+)\)`. -/
def tryBin (s : JSStr) : Option (JSStr × JSStr) :=
  if beginsWith (jstr "bin(") s then
    let (field, r1) := splitRun (fun c => c ≠ ',') (s.drop 4)
    if field = [] then none
    else
      match expectChar ',' r1 with
      | none => none
      | some r2 =>
        let r3 := r2.dropWhile isWSChar
        let (interval, r4) := splitRun (fun c => c ≠ ')') r3
        if interval = [] then none
        else
          match expectChar ')' r4 with
          | some _ => some (field, interval)
          | none => none
  else none

/-- Position-anchored model of `(\d+)(h|d|m|s)`. -/
def tryIntervalUnit (s : JSStr) : Option (Nat × Char) :=
  let (ds, r1) := splitRun isDigitChar s
  if ds = [] then none
  else
    match r1 with
    | u :: _ =>
      if u = 'h' || u = 'd' || u = 'm' || u = 's' then some (natOfDigits ds, u) else none
    | [] => none

/-- Errors the engine can raise: an unknown table (with its name), the
`TypeError` of reading a property of `undefined`, and the `RangeError`
`toISOString` throws on an Invalid Date. -/
inductive ExecError
  | unknownTable (name : JSStr)
  | typeError
  | rangeError
deriving DecidableEq, Repr

/-- Model of `applyTimeBin`.  An hour or minute interval count of zero
drives `setHours`/`setMinutes` to `Infinity`, invalidating the date, so
`toISOString` throws, as it does for an already Invalid Date. -/
def applyTimeBin (d : Option Int) (interval : JSStr) : Except ExecError JSStr :=
  match firstScan tryIntervalUnit interval with
  | some (n, u) =>
    match d with
    | none => .error .rangeError
    | some ms =>
      if u = 'h' then
        if n = 0 then .error .rangeError
        else
          let hourFloor := Int.fdiv ms 3600000 * 3600000
          let hours := Int.emod (Int.fdiv hourFloor 3600000) 24
          let hourGroup := Int.fdiv hours n * n
          .ok (isoString (hourFloor - hours * 3600000 + hourGroup * 3600000))
      else if u = 'd' then
        .ok ((isoString (dayFloorMs ms)).takeWhile (fun c => c ≠ 'T'))
      else if u = 'm' then
        if n = 0 then .error .rangeError
        else
          let minuteFloor := Int.fdiv ms 60000 * 60000
          let minutes := Int.emod (Int.fdiv minuteFloor 60000) 60
          let minuteGroup := Int.fdiv minutes n * n
          .ok (isoString (minuteFloor - minutes * 60000 + minuteGroup * 60000))
      else .ok (isoString ms)
  | none =>
    match d with
    | none => .error .rangeError
    | some ms => .ok (isoString ms)

/-- Model of `applyNumericBin`: floor the value to a multiple of the
interval, rendered as a string. -/
def applyNumericBin (value : JSNum) (interval : JSStr) : JSStr :=
  match parseFloatStr interval with
  | .nan => numToString value
  | iv => numToString (numMul (numFloor (numDiv value iv)) iv)

def isDateV : Option Value → Bool
  | some (.date _) => true
  | _ => false

/-- Model of `applyBinFunction`. -/
def applyBinFunction (row : Row) (binExpression : JSStr) : Except ExecError JSStr :=
  match firstScan tryBin binExpression with
  | some (field, intervalExpr) =>
    let fieldValue := jsIndex row field
    if field = jstr "timestamp" || isDateV fieldValue then
      applyTimeBin (dateOfValue fieldValue) intervalExpr
    else .ok (applyNumericBin (parseFloatStr (jsToString fieldValue)) intervalExpr)
  | none => .ok (jsToString (jsIndex row binExpression))

/-! ## Pipeline operations -/

/-- Model of `applyProjectOperation`: each output row gets exactly the
requested columns in order, absent sources becoming `undefined`-valued
keys. -/
def projectRow (columns : List JSStr) (row : Row) : Row :=
  columns.foldl (fun acc col =>
    setKey acc col (match rowEntry row col with
      | some jv => jv
      | none => none)) []

def applyProjectOperation (data : List Row) (columns : List JSStr) : List Row :=
  data.map (projectRow columns)

def distinctKeyOf (columns : List JSStr) (row : Row) : JSStr :=
  joinWithChar '|' (columns.map (fun col => jsToString (jsIndex row col)))

def distinctGo (columns : List JSStr) : List Row → List JSStr → List Row
  | [], _ => []
  | row :: rest, seen =>
    let key := distinctKeyOf columns row
    if seen.any (fun s => s = key) then distinctGo columns rest seen
    else row :: distinctGo columns rest (key :: seen)

/-- Model of `applyDistinctOperation`: keep the first row for each
pipe-joined column-value key, preserving order. -/
def applyDistinctOperation (data : List Row) (columns : List JSStr) : List Row :=
  distinctGo columns data []

/-- Field/direction extraction shared by `top` and `sort`: strip the
first `  desc`/` asc` occurrence and trim. -/
def sortDirSplit (expression : JSStr) : JSStr × Bool :=
  if containsSub (jstr " desc") expression then
    (trimStr (removeFirstSub (jstr " desc") expression), true)
  else (trimStr (removeFirstSub (jstr " asc") expression), false)

/-- The `(a, b) => (aVal < bVal ? -1 : aVal > bVal ? 1 : 0)` comparator
(negated for descending) rendered as the `le` relation of a stable merge
sort, which models `Array.prototype.sort`. -/
def rowCompareLe (field : JSStr) (desc : Bool) (a b : Row) : Bool :=
  let av := jsIndex a field
  let bv := jsIndex b field
  let c : Int := if jsLtB av bv then -1 else if jsLtB bv av then 1 else 0
  (if desc then -c else c) ≤ 0

/-- Model of `applyTopOperation`. -/
def applyTopOperation (data : List Row) (count : Nat) (orderBy : Option JSStr) : List Row :=
  match orderBy with
  | some ob =>
    let fd := sortDirSplit ob
    (jsArraySort (rowCompareLe fd.1 fd.2) data).take count
  | none => data.take count

/-- Model of `applySortOperation`. -/
def applySortOperation (data : List Row) (expression : JSStr) : List Row :=
  let fd := sortDirSplit expression
  jsArraySort (rowCompareLe fd.1 fd.2) data

/-- Position-anchored model of the extend regex `(\w+)\s*=\s*(.+)`. -/
def tryAssignment (s : JSStr) : Option (JSStr × JSStr) :=
  let (f, r1) := splitRun isWordChar s
  if f = [] then none
  else
    let r2 := r1.dropWhile isWSChar
    match expectChar '=' r2 with
    | none => none
    | some r3 =>
      let r4 := r3.dropWhile isWSChar
      let expr := r4.takeWhile (fun c => c ≠ '\n' && c ≠ '\r')
      if expr = [] then none else some (f, expr)

def jsTruthy : Option Value → Bool
  | none => false
  | some .null => false
  | some (.bool b) => b
  | some (.num n) => !(n = .nan || n = .rat 0)
  | some (.str s) => s ≠ []
  | some (.date _) => true
  | some (.arr _) => true

/-- Model of `evaluateExpression`: a `+`-joined sum of parsed fields
(falsy parses contribute zero), else a field lookup falling back to the
literal expression text when falsy. -/
def evaluateExpression (row : Row) (expression : JSStr) : Option Value :=
  if containsSub (jstr "+") expression then
    some (.num ((splitOnChar '+' expression).foldl
      (fun sum part =>
        let v := parseFloatStr (jsToString (jsIndex row (trimStr part)))
        numAdd sum (if jsTruthy (some (.num v)) then v else .rat 0))
      (.rat 0)))
  else
    let jv := jsIndex row expression
    if jsTruthy jv then jv else some (.str expression)

/-- Model of `applyExtendOperation`. -/
def applyExtendOperation (data : List Row) (expression : JSStr) : List Row :=
  match firstScan tryAssignment expression with
  | some (newField, expr) =>
    data.map (fun row => setKey row newField (evaluateExpression row expr))
  | none => data

/-- Model of `applyBinOperation`: when the expression carries a
`bin(field, interval)` call, add a `bin_<field>` column per row. -/
def applyBinOperation (data : List Row) (expression : JSStr) : Except ExecError (List Row) :=
  match firstScan tryBin expression with
  | some (field, _) =>
    data.mapM (fun row => do
      let bv ← applyBinFunction row expression
      pure (setKey row (jstr "bin_" ++ field) (some (.str bv))))
  | none => .ok data

/-! ## Summarize -/

def insertGroup (gs : List (JSStr × List Row)) (key : JSStr) (row : Row) :
    List (JSStr × List Row) :=
  if gs.any (fun g => g.1 = key) then
    gs.map (fun g => if g.1 = key then (g.1, g.2 ++ [row]) else g)
  else gs ++ [(key, [row])]

/-- Group-key component for one group-by expression: a `bin(...)` call
goes through the bin function, anything else is the stringified field
value. -/
def groupComponent (row : Row) (col : JSStr) : Except ExecError JSStr :=
  if containsSub (jstr "bin(") col then applyBinFunction row col
  else .ok (jsToString (jsIndex row col))

def groupKeyOf (groupBy : List JSStr) (row : Row) : Except ExecError JSStr := do
  let parts ← groupBy.mapM (groupComponent row)
  pure (joinWithChar '|' parts)

/-- Fold adding one field per aggregation spec, skipping null results, as
the `aggregations.forEach` with its `!== null` guard. -/
def aggFold (data : List Row) (aggregations : List JSStr) (base : Row) : Row :=
  aggregations.foldl (fun acc agg =>
    match calculateAggregation data agg with
    | none => acc
    | some jv => setKey acc agg jv) base

/-- Group-by columns of one output row, recovered from the pipe-split
group key by index. -/
def groupByColumns (groupBy : List JSStr) (groupValues : List JSStr) : Row :=
  (groupBy.enum).foldl (fun acc e =>
    setKey acc e.2 (match groupValues.get? e.1 with
      | some s => some (.str s)
      | none => none)) []

/-- Model of `applySummarizeOperation`. -/
def applySummarizeOperation (data : List Row) (aggregations groupBy : List JSStr) :
    Except ExecError (List Row) :=
  if groupBy.isEmpty then .ok [aggFold data aggregations []]
  else do
    let groups ← data.foldlM (fun gs row => do
      let key ← groupKeyOf groupBy row
      pure (insertGroup gs key row)) ([] : List (JSStr × List Row))
    let results := groups.map (fun g =>
      aggFold g.2 aggregations (groupByColumns groupBy (splitOnChar '|' g.1)))
    pure (jsArraySort (rowCompareLe (groupBy.headD []) false) results)

/-! ## Table registry, join and union -/

/-- The six fixture tables, supplied as an abstract read-only snapshot;
their generated contents do not matter for any verified property. -/
structure Env where
  battery : List Row
  vessels : List Row
  maintenance : List Row
  weather : List Row
  navigation : List Row
  events : List Row

/-- Model of `getTableData`: case-insensitive dispatch on the six known
names, raising `unknownTable` (carrying the original name) otherwise. -/
def getTableData (env : Env) (tableName : JSStr) : Except ExecError (List Row) :=
  let table := lowerStr tableName
  if table = jstr "batteryreadings" then .ok env.battery
  else if table = jstr "vesselinfo" then .ok env.vessels
  else if table = jstr "vesselmaintenance" then .ok env.maintenance
  else if table = jstr "weatherdata" then .ok env.weather
  else if table = jstr "navigationdata" then .ok env.navigation
  else if table = jstr "alertsandevents" then .ok env.events
  else .error (.unknownTable tableName)

def isKnownTableName (tableName : JSStr) : Bool :=
  let table := lowerStr tableName
  table = jstr "batteryreadings" || table = jstr "vesselinfo" ||
    table = jstr "vesselmaintenance" || table = jstr "weatherdata" ||
    table = jstr "navigationdata" || table = jstr "alertsandevents"

/-- Right-side record of all nulls keyed by the right table's first row's
columns (empty when the right table is empty), for left-outer joins. -/
def nullRowOf (rows : List Row) : Row :=
  match rows with
  | [] => []
  | r0 :: _ => r0.map (fun e => (e.1, some Value.null))

/-- Model of `performJoin`.  The nested `forEach`/`push` loops are
rendered as `flatMap`/`filterMap` in the same iteration order; `full`
and `fullouter` fall back to a left join, unrecognized kinds to an inner
join. -/
def performJoin (leftData rightData : List Row) (leftField rightField : JSStr)
    (kind : JSStr) : List Row :=
  let matchesL := fun (l : Row) => rightData.filterMap (fun r =>
    if jsStrictEqV (jsIndex l leftField) (jsIndex r rightField) then
      some (mergeRow l r) else none)
  let innerJoin := leftData.flatMap matchesL
  let leftJoin := leftData.flatMap (fun l =>
    let ms := matchesL l
    if ms.isEmpty then [mergeRow l (nullRowOf rightData)] else ms)
  let k := lowerStr kind
  if k = jstr "inner" then innerJoin
  else if k = jstr "left" || k = jstr "leftouter" then leftJoin
  else if k = jstr "right" || k = jstr "rightouter" then
    rightData.flatMap (fun r =>
      let ms := leftData.filterMap (fun l =>
        if jsStrictEqV (jsIndex l leftField) (jsIndex r rightField) then
          some (mergeRow l r) else none)
      if ms.isEmpty then [mergeRow (nullRowOf leftData) r] else ms)
  else if k = jstr "full" || k = jstr "fullouter" then leftJoin
  else innerJoin

/-- Position-anchored model of the join-condition regex
`(\w+)\.(\w+)\s*==\s*(\w+)\.(\w+)`; only the two field names (the
second and fourth captures) are used downstream. -/
def tryDottedEq (s : JSStr) : Option (JSStr × JSStr) :=
  let (a, r1) := splitRun isWordChar s
  if a = [] then none
  else
    match expectChar '.' r1 with
    | none => none
    | some r2 =>
      let (lf, r3) := splitRun isWordChar r2
      if lf = [] then none
      else
        let r4 := r3.dropWhile isWSChar
        match r4 with
        | '=' :: '=' :: r5 =>
          let r6 := r5.dropWhile isWSChar
          let (b, r7) := splitRun isWordChar r6
          if b = [] then none
          else
            match expectChar '.' r7 with
            | none => none
            | some r8 =>
              let (rf, _) := splitRun isWordChar r8
              if rf = [] then none else some (lf, rf)
        | _ => none
    
/-- Position-anchored model of the bare equality `(\w+)\s*==\s*(\w+)`. -/
def tryBareEq (s : JSStr) : Option (JSStr × JSStr) :=
  let (a, r1) := splitRun isWordChar s
  if a = [] then none
  else
    let r2 := r1.dropWhile isWSChar
    match r2 with
    | '=' :: '=' :: r3 =>
      let r4 := r3.dropWhile isWSChar
      let (b, _) := splitRun isWordChar r4
      if b = [] then none else some (a, b)
    | _ => none

/-- Model of `applyJoinOperation`: resolve the right table (hard failure
on an unknown name), then an unconditioned cross product, a recognized
equality condition, or — for any other condition shape — the left rows
unchanged. -/
def applyJoinOperation (env : Env) (leftData : List Row) (kind table : JSStr)
    (condition : Option JSStr) : Except ExecError (List Row) := do
  let rightData ← getTableData env table
  match condition with
  | none =>
    pure (leftData.flatMap (fun l => rightData.map (fun r => mergeRow l r)))
  | some cond =>
    match firstScan tryDottedEq cond with
    | some (lf, rf) => pure (performJoin leftData rightData lf rf kind)
    | none =>
      match firstScan tryBareEq cond with
      | some (lf, rf) => pure (performJoin leftData rightData lf rf kind)
      | none => pure leftData

/-- Model of `applyUnionOperation`: plain concatenation after resolving
the right table. -/
def applyUnionOperation (env : Env) (leftData : List Row) (table : JSStr) :
    Except ExecError (List Row) := do
  let rightData ← getTableData env table
  pure (leftData ++ rightData)

/-! ## Operation and statement parsing -/

inductive KQLOperation
  | whereOp (condition : JSStr)
  | summarize (aggregations : List JSStr) (groupBy : List JSStr)
  | project (columns : List JSStr)
  | extend (expression : JSStr)
  | distinct (columns : List JSStr)
  | top (count : Nat) (orderBy : Option JSStr)
  | sort (expression : JSStr)
  | bin (expression : JSStr)
  | join (kind : JSStr) (table : JSStr) (condition : Option JSStr)
  | union (table : JSStr)
deriving DecidableEq, Repr

structure KQLQuery where
  table : JSStr
  operations : List KQLOperation
deriving DecidableEq, Repr

/-- Position-anchored model of `top\s+(\d+)(?:\s+by\s+(.+))?` (`/i`):
count digits, then an optional `by` clause whose greedy tail capture
stops at a line terminator. -/
def tryTop (s : JSStr) : Option (Nat × Option JSStr) :=
  if beginsWithCI (jstr "top") s then
    let r1 := s.drop 3
    let n1 := countWhile isWSChar r1
    if n1 = 0 then none
    else
      let (ds, r2) := splitRun isDigitChar (r1.drop n1)
      if ds = [] then none
      else
        let count := natOfDigits ds
        let n2 := countWhile isWSChar r2
        if n2 > 0 && beginsWithCI (jstr "by") (r2.drop n2) then
          let r3 := (r2.drop n2).drop 2
          let n3 := countWhile isWSChar r3
          if n3 = 0 then some (count, none)
          else
            let rest := (r3.drop n3).takeWhile (fun c => c ≠ '\n' && c ≠ '\r')
            if rest = [] then some (count, none) else some (count, some rest)
        else some (count, none)
  else none

/-- Shared tail `(\w+)\s+on\s+(.+)` of the join regex: right table name,
the `on` keyword, and the raw condition text. -/
def tryJoinTail (s : JSStr) : Option (JSStr × JSStr) :=
  let (table, r1) := splitRun isWordChar s
  if table = [] then none
  else
    let n1 := countWhile isWSChar r1
    if n1 = 0 then none
    else if beginsWithCI (jstr "on") (r1.drop n1) then
      let r2 := (r1.drop n1).drop 2
      let n2 := countWhile isWSChar r2
      if n2 = 0 then none
      else
        let rest := (r2.drop n2).takeWhile (fun c => c ≠ '\n' && c ≠ '\r')
        if rest = [] then none else some (table, rest)
    else none

/-- Position-anchored model of
`join\s+(?:kind\s*=\s*(\w+)\s+)?(\w+)\s+on\s+(.+)` (`/i`): the optional
`kind` group is tried first, as regex backtracking does. -/
def tryJoinFull (s : JSStr) : Option (Option JSStr × JSStr × JSStr) :=
  if beginsWithCI (jstr "join") s then
    let r1 := s.drop 4
    let n1 := countWhile isWSChar r1
    if n1 = 0 then none
    else
      let r2 := r1.drop n1
      let withKind : Option (Option JSStr × JSStr × JSStr) :=
        if beginsWithCI (jstr "kind") r2 then
          let r3 := (r2.drop 4).dropWhile isWSChar
          match expectChar '=' r3 with
          | none => none
          | some r4 =>
            let (kindW, r5) := splitRun isWordChar (r4.dropWhile isWSChar)
            if kindW = [] then none
            else
              let n2 := countWhile isWSChar r5
              if n2 = 0 then none
              else
                match tryJoinTail (r5.drop n2) with
                | some (table, cond) => some (some kindW, table, cond)
                | none => none
        else none
      match withKind with
      | some r => some r
      | none =>
        match tryJoinTail r2 with
        | some (table, cond) => some (none, table, cond)
        | none => none
  else none

/-- Position-anchored model of `join\s+(\w+)` / `union\s+(\w+)` (`/i`). -/
def tryKwTable (kw : JSStr) (s : JSStr) : Option JSStr :=
  if beginsWithCI kw s then
    let r1 := s.drop kw.length
    let n1 := countWhile isWSChar r1
    if n1 = 0 then none
    else
      let (table, _) := splitRun isWordChar (r1.drop n1)
      if table = [] then none else some table
  else none

/-- Model of `parseJoinOperation`. -/
def parseJoinOperation (operationText : JSStr) : KQLOperation :=
  match firstScan tryJoinFull operationText with
  | some (kindW, table, cond) =>
    .join (kindW.getD (jstr "inner")) table (some (trimStr cond))
  | none =>
    match firstScan (tryKwTable (jstr "join")) operationText with
    | some table => .join (jstr "inner") table none
    | none => .join (jstr "inner") [] none

/-- Model of `parseUnionOperation`. -/
def parseUnionOperation (operationText : JSStr) : JSStr :=
  match firstScan (tryKwTable (jstr "union")) operationText with
  | some table => table
  | none => []

/-- Model of `parseSummarizeOperation`: strip the keyword, split once on
`\s+by\s+`, and comma-split both sides. -/
def parseSummarizeParts (operationText : JSStr) : List JSStr × List JSStr :=
  let content := trimStr (operationText.drop 9)
  let parts := splitBySep content
  let aggregations := (splitOnChar ',' (parts.headD [])).map trimStr
  let groupBy :=
    if parts.length > 1 then (splitOnChar ',' ((parts.drop 1).headD [])).map trimStr
    else []
  (aggregations, groupBy)

/-- Model of `replace(/^\s+by\s+/i, emptyText)` in the sort branch. -/
def stripLeadingBy (s : JSStr) : JSStr :=
  let n1 := countWhile isWSChar s
  if n1 = 0 then s
  else if beginsWithCI (jstr "by") (s.drop n1) then
    let n2 := countWhile isWSChar ((s.drop n1).drop 2)
    if n2 = 0 then s else ((s.drop n1).drop 2).drop n2
  else s

/-- Model of `parseKQLOperation`: dispatch on the lowercased first
whitespace-delimited token; unrecognized keywords yield `none`. -/
def parseKQLOperation (operationText : JSStr) : Option KQLOperation :=
  let parts := splitWsPlus operationText
  let operator := lowerStr (parts.headD [])
  if operator = jstr "where" then some (.whereOp (trimStr (operationText.drop 5)))
  else if operator = jstr "summarize" then
    let p := parseSummarizeParts operationText
    some (.summarize p.1 p.2)
  else if operator = jstr "project" then
    some (.project ((splitOnChar ',' (operationText.drop 7)).map trimStr))
  else if operator = jstr "extend" then some (.extend (trimStr (operationText.drop 6)))
  else if operator = jstr "distinct" then
    some (.distinct ((splitOnChar ',' (operationText.drop 8)).map trimStr))
  else if operator = jstr "top" then
    match firstScan tryTop operationText with
    | some (count, orderBy) => some (.top count (orderBy.map trimStr))
    | none => some (.top 10 none)
  else if operator = jstr "sort" || operator = jstr "order" then
    some (.sort (trimStr (stripLeadingBy (operationText.drop operator.length))))
  else if operator = jstr "bin" then some (.bin operationText)
  else if operator = jstr "join" then some (parseJoinOperation operationText)
  else if operator = jstr "union" then some (.union (parseUnionOperation operationText))
  else none

/-- Model of `parseKQLStatement`.  Reading `lines[0]` of an all-blank
query dereferences `undefined`, a `TypeError`.  Operations from
subsequent `|`-prefixed lines are collected first; operations chained
after the table name on the first line are appended after them. -/
def parseKQLStatement (kqlQuery : JSStr) : Except ExecError KQLQuery :=
  let lines := ((splitOnChar '\n' kqlQuery).map trimStr).filter (fun line => line ≠ [])
  match lines with
  | [] => .error .typeError
  | firstLine :: rest =>
    let tableName := firstLine.takeWhile (fun c => !isWSChar c)
    let lineOps := rest.filterMap (fun line =>
      if beginsWith (jstr "|") line then parseKQLOperation (trimStr (line.drop 1))
      else none)
    let firstLineRest := trimStr (firstLine.drop tableName.length)
    let chainedOps :=
      if beginsWith (jstr "|") firstLineRest then
        ((splitOnChar '|' firstLineRest).filter (fun part => trimStr part ≠ [])).filterMap
          (fun part => parseKQLOperation (trimStr part))
      else []
    .ok ⟨tableName, lineOps ++ chainedOps⟩

/-! ## Executor -/

/-- Model of `applyKQLOperation`. -/
def applyKQLOperation (env : Env) (now : Int) (data : List Row) :
    KQLOperation → Except ExecError (List Row)
  | .whereOp condition => .ok (applyWhereOperation now data condition)
  | .project columns => .ok (applyProjectOperation data columns)
  | .summarize aggregations groupBy => applySummarizeOperation data aggregations groupBy
  | .distinct columns => .ok (applyDistinctOperation data columns)
  | .top count orderBy => .ok (applyTopOperation data count orderBy)
  | .sort expression => .ok (applySortOperation data expression)
  | .extend expression => .ok (applyExtendOperation data expression)
  | .bin expression => applyBinOperation data expression
  | .join kind table condition => applyJoinOperation env data kind table condition
  | .union table => applyUnionOperation env data table

/-- Model of `executeKQLQuery`: parse, resolve the main table, then fold
the operations left to right. -/
def executeKQLQuery (env : Env) (now : Int) (kqlQuery : JSStr) :
    Except ExecError (List Row) := do
  let parsedQuery ← parseKQLStatement kqlQuery
  let init ← getTableData env parsedQuery.table
  parsedQuery.operations.foldlM (applyKQLOperation env now) init

/-- A pipeline operation that cannot raise a bin interval error: any
operation except `bin`, and `summarize` only when no group-by expression
carries a `bin(` call. -/
def binSafeOp : KQLOperation → Bool
  | .bin _ => false
  | .summarize _ groupBy => groupBy.all (fun c => !containsSub (jstr "bin(") c)
  | _ => true

/-- The right-hand table of a join or union resolves; true for every
other operation. -/
def opTableOk : KQLOperation → Bool
  | .join _ table _ => isKnownTableName table
  | .union table => isKnownTableName table
  | _ => true

/-- Rows `a` and `b` carry finite numeric tags in column `tcol` with
`a`'s tag at most `b`'s; used to state that joins emit left rows in
left-table order. -/
def tagLe (tcol : JSStr) (a b : Row) : Prop :=
  ∃ qa qb : ℚ, jsIndex a tcol = some (Value.num (JSNum.rat qa)) ∧
    jsIndex b tcol = some (Value.num (JSNum.rat qb)) ∧ qa ≤ qb

/-! ## Shared lemmas -/

theorem numLtB_nan_right (a : JSNum) : numLtB a .nan = false := by
  cases a <;> rfl

theorem numLtB_nan_left (a : JSNum) : numLtB .nan a = false := by
  cases a <;> rfl

theorem numEqB_nan_left (a : JSNum) : numEqB .nan a = false := by
  cases a <;> rfl

theorem numEqB_nan_right (a : JSNum) : numEqB a .nan = false := by
  cases a <;> rfl

theorem numLeB_nan_left (a : JSNum) : numLeB .nan a = false := by
  simp [numLeB, numLtB_nan_left, numEqB_nan_left]

theorem numLeB_nan_right (a : JSNum) : numLeB a .nan = false := by
  simp [numLeB, numLtB_nan_right, numEqB_nan_right]

theorem jsSortInsert_perm {α : Type} (le : α → α → Bool) (x : α) (l : List α) :
    List.Perm (jsSortInsert le x l) (x :: l) := by
  induction l with
  | nil => exact List.Perm.refl _
  | cons y ys ih =>
    unfold jsSortInsert
    by_cases h : le x y = true
    · rw [if_pos h]
    · rw [if_neg h]
      exact List.Perm.trans (List.Perm.cons y ih) (List.Perm.swap x y ys)

theorem jsArraySort_perm {α : Type} (le : α → α → Bool) (l : List α) :
    List.Perm (jsArraySort le l) l := by
  induction l with
  | nil => exact List.Perm.refl _
  | cons x xs ih =>
    unfold jsArraySort
    exact List.Perm.trans (jsSortInsert_perm le x (jsArraySort le xs))
      (List.Perm.cons x ih)

theorem length_jsArraySort {α : Type} (le : α → α → Bool) (l : List α) :
    (jsArraySort le l).length = l.length :=
  (jsArraySort_perm le l).length_eq

theorem mem_jsArraySort {α : Type} {le : α → α → Bool} {l : List α} {a : α} :
    a ∈ jsArraySort le l ↔ a ∈ l :=
  (jsArraySort_perm le l).mem_iff

theorem map_jsSortInsert {α β : Type} (r : α → α → Bool) (s : β → β → Bool)
    (f : α → β) (hc : ∀ a b, r a b = s (f a) (f b)) (x : α) (l : List α) :
    (jsSortInsert r x l).map f = jsSortInsert s (f x) (l.map f) := by
  induction l with
  | nil => rfl
  | cons y ys ih =>
    unfold jsSortInsert
    rw [List.map_cons]
    dsimp only
    rw [← hc x y]
    by_cases h : r x y = true
    · rw [if_pos h, if_pos h]
      rfl
    · rw [if_neg h, if_neg h]
      rw [List.map_cons, ih]

theorem map_jsArraySort {α β : Type} (r : α → α → Bool) (s : β → β → Bool)
    (f : α → β) (hc : ∀ a b, r a b = s (f a) (f b)) (l : List α) :
    (jsArraySort r l).map f = jsArraySort s (l.map f) := by
  induction l with
  | nil => rfl
  | cons x xs ih =>
    unfold jsArraySort
    rw [map_jsSortInsert r s f hc, ih]
    rfl

theorem pairwise_jsSortInsert {α : Type} (le : α → α → Bool) (x : α) (l : List α)
    (htrans : ∀ a ∈ x :: l, ∀ b ∈ x :: l, ∀ c ∈ x :: l,
      le a b = true → le b c = true → le a c = true)
    (htotal : ∀ a ∈ x :: l, ∀ b ∈ x :: l, le a b = true ∨ le b a = true)
    (hs : List.Pairwise (fun a b => le a b = true) l) :
    List.Pairwise (fun a b => le a b = true) (jsSortInsert le x l) := by
  induction l with
  | nil => exact List.pairwise_singleton _ x
  | cons y ys ih =>
    obtain ⟨hy, hys⟩ := List.pairwise_cons.mp hs
    unfold jsSortInsert
    by_cases h : le x y = true
    · rw [if_pos h]
      refine List.pairwise_cons.mpr ⟨?_, hs⟩
      intro b hb
      rcases List.mem_cons.mp hb with h2 | h2
      · rw [h2]
        exact h
      · exact htrans x (List.mem_cons_self _ _) y
          (List.mem_cons_of_mem _ (List.mem_cons_self _ _))
          b (List.mem_cons_of_mem _ (List.mem_cons_of_mem _ h2)) h (hy b h2)
    · rw [if_neg h]
      refine List.pairwise_cons.mpr ⟨?_, ?_⟩
      · intro b hb
        have hperm := jsSortInsert_perm le x ys
        have hb2 : b ∈ x :: ys := hperm.mem_iff.mp hb
        rcases List.mem_cons.mp hb2 with h2 | h2
        · rw [h2]
          rcases htotal x (List.mem_cons_self _ _) y
            (List.mem_cons_of_mem _ (List.mem_cons_self _ _)) with h3 | h3
          · exact absurd h3 h
          · exact h3
        · exact hy b h2
      · refine ih ?_ ?_ hys
        · intro a ha b hb c hc
          have hmem : ∀ z, z ∈ x :: ys → z ∈ x :: y :: ys := by
            intro z hz
            rcases List.mem_cons.mp hz with h2 | h2
            · rw [h2]
              exact List.mem_cons_self _ _
            · exact List.mem_cons_of_mem _ (List.mem_cons_of_mem _ h2)
          exact htrans a (hmem a ha) b (hmem b hb) c (hmem c hc)
        · intro a ha b hb
          have hmem : ∀ z, z ∈ x :: ys → z ∈ x :: y :: ys := by
            intro z hz
            rcases List.mem_cons.mp hz with h2 | h2
            · rw [h2]
              exact List.mem_cons_self _ _
            · exact List.mem_cons_of_mem _ (List.mem_cons_of_mem _ h2)
          exact htotal a (hmem a ha) b (hmem b hb)

/-- Pairwise sortedness of the `Array.prototype.sort` model whenever the
comparator is transitive and total on the list members. -/
theorem sorted_jsArraySort_local {α : Type} (le : α → α → Bool) (l : List α)
    (htrans : ∀ a ∈ l, ∀ b ∈ l, ∀ c ∈ l, le a b = true → le b c = true → le a c = true)
    (htotal : ∀ a ∈ l, ∀ b ∈ l, le a b = true ∨ le b a = true) :
    List.Pairwise (fun a b => le a b = true) (jsArraySort le l) := by
  induction l with
  | nil => exact List.Pairwise.nil
  | cons x xs ih =>
    unfold jsArraySort
    have hmem : ∀ z, z ∈ x :: jsArraySort le xs → z ∈ x :: xs := by
      intro z hz
      rcases List.mem_cons.mp hz with h2 | h2
      · rw [h2]
        exact List.mem_cons_self _ _
      · exact List.mem_cons_of_mem _ (mem_jsArraySort.mp h2)
    refine pairwise_jsSortInsert le x (jsArraySort le xs)
      (fun a ha b hb c hc => htrans a (hmem a ha) b (hmem b hb) c (hmem c hc))
      (fun a ha b hb => htotal a (hmem a ha) b (hmem b hb))
      (ih (fun a ha b hb c hc => htrans a (List.mem_cons_of_mem _ ha)
          b (List.mem_cons_of_mem _ hb) c (List.mem_cons_of_mem _ hc))
        (fun a ha b hb => htotal a (List.mem_cons_of_mem _ ha)
          b (List.mem_cons_of_mem _ hb)))

theorem rowEntry_cons_self (e : JSStr × Option Value) (rest : Row) (k : JSStr)
    (h : e.1 = k) : rowEntry (e :: rest) k = some e.2 := by
  unfold rowEntry
  rw [List.find?_cons_of_pos _ (by simpa using h)]
  rfl

theorem rowEntry_cons_ne (e : JSStr × Option Value) (rest : Row) (k : JSStr)
    (h : ¬ e.1 = k) : rowEntry (e :: rest) k = rowEntry rest k := by
  unfold rowEntry
  rw [List.find?_cons_of_neg _ (by simpa using h)]

theorem rowEntry_append (a b : Row) (k : JSStr) :
    rowEntry (a ++ b) k =
      match rowEntry a k with
      | some jv => some jv
      | none => rowEntry b k := by
  unfold rowEntry
  rw [List.find?_append]
  cases ha : a.find? (fun e => decide (e.1 = k)) <;> simp [Option.or]

theorem rowEntry_mapset_ne (row : Row) (k k2 : JSStr) (v : Option Value)
    (h : ¬ k2 = k) :
    rowEntry (row.map (fun e => if e.1 = k then (k, v) else e)) k2 = rowEntry row k2 := by
  induction row with
  | nil => rfl
  | cons e rest ih =>
    rw [List.map_cons]
    by_cases he : e.1 = k
    · rw [if_pos he]
      rw [rowEntry_cons_ne (k, v) _ k2 (fun hc => h hc.symm)]
      rw [rowEntry_cons_ne e rest k2 (fun hc => h (by rw [← hc, he]))]
      exact ih
    · rw [if_neg he]
      by_cases he2 : e.1 = k2
      · rw [rowEntry_cons_self _ _ _ he2, rowEntry_cons_self _ _ _ he2]
      · rw [rowEntry_cons_ne _ _ _ he2, rowEntry_cons_ne _ _ _ he2]
        exact ih

theorem rowEntry_mapset_self (row : Row) (k : JSStr) (v : Option Value)
    (h : hasKeyRow row k = true) :
    rowEntry (row.map (fun e => if e.1 = k then (k, v) else e)) k = some v := by
  induction row with
  | nil => simp [hasKeyRow, rowEntry] at h
  | cons e rest ih =>
    rw [List.map_cons]
    by_cases he : e.1 = k
    · rw [if_pos he]
      exact rowEntry_cons_self _ _ _ rfl
    · rw [if_neg he]
      rw [rowEntry_cons_ne _ _ _ he]
      apply ih
      unfold hasKeyRow at h ⊢
      rw [rowEntry_cons_ne _ _ _ he] at h
      exact h

theorem rowEntry_setKey_self (row : Row) (k : JSStr) (v : Option Value) :
    rowEntry (setKey row k v) k = some v := by
  unfold setKey
  by_cases h : hasKeyRow row k = true
  · rw [if_pos h]
    exact rowEntry_mapset_self row k v h
  · rw [if_neg h]
    rw [rowEntry_append]
    have hn : rowEntry row k = none := by
      unfold hasKeyRow at h
      cases hr : rowEntry row k with
      | none => rfl
      | some jv => rw [hr] at h; simp at h
    rw [hn]
    exact rowEntry_cons_self _ _ _ rfl

theorem rowEntry_setKey_ne (row : Row) (k k2 : JSStr) (v : Option Value)
    (h : ¬ k2 = k) : rowEntry (setKey row k v) k2 = rowEntry row k2 := by
  unfold setKey
  by_cases hk : hasKeyRow row k = true
  · rw [if_pos hk]
    exact rowEntry_mapset_ne row k k2 v h
  · rw [if_neg hk]
    rw [rowEntry_append]
    cases hr : rowEntry row k2 with
    | some jv => rfl
    | none =>
      rw [rowEntry_cons_ne _ _ _ (fun hc => h hc.symm)]
      rfl

/-! ## Claim C1 -/

/-- C1 counterexample: in `where voltage > 5`, a row whose `voltage` is
the non-numeric string `abc` (so `parseFloat` gives `NaN`) is dropped,
not kept — `NaN > 5` is false — contradicting the claim that a parse
failure satisfies the predicate for every operator. -/
theorem c1_counterexample :
    applyWhereOperation 0 [[(jstr "voltage", some (.str (jstr "abc")))]]
      (jstr "voltage > 5") = [] ∧
    evaluateCondition 0 [(jstr "voltage", some (.str (jstr "abc")))]
      (jstr "voltage > 5") = false := by
  exact ⟨rfl, rfl⟩

/-- C1 amended: for a numeric leaf `field <op> number` (no `ago(`, no
quoted-equality match), when the row's field value fails to parse as a
number the predicate is false for `>`, `<`, `>=`, `<=`, `==` and true
only for any other matched operator (such as `!=`); and when the numeric
pattern does not match at all (e.g. the right-hand side is not a number
literal), the leaf evaluates to true. -/
theorem c1_numeric_failopen_amended (now : Int) (row : Row) (cond : JSStr)
    (hago : containsSub (jstr "ago(") cond = false)
    (heq : firstScan tryEquality cond = none) :
    (∀ f op rhs, firstScan tryNumericCmp cond = some (f, op, rhs) →
      parseFloatStr (jsToString (jsIndex row f)) = .nan →
      ((op = jstr ">" ∨ op = jstr "<" ∨ op = jstr ">=" ∨ op = jstr "<=" ∨
          op = jstr "==") →
        evaluateCondition now row cond = false) ∧
      (¬ (op = jstr ">" ∨ op = jstr "<" ∨ op = jstr ">=" ∨ op = jstr "<=" ∨
          op = jstr "==") →
        evaluateCondition now row cond = true)) ∧
    (firstScan tryNumericCmp cond = none → evaluateCondition now row cond = true) := by
  constructor
  · intro f op rhs hnum hnan
    unfold evaluateCondition
    rw [hago]
    simp only [Bool.false_eq_true, if_false]
    rw [heq, hnum]
    dsimp only
    rw [hnan]
    constructor
    · rintro (h | h | h | h | h) <;> subst h <;>
        simp [numGtB, numGeB, numLtB_nan_left, numLtB_nan_right, numLeB_nan_left,
          numLeB_nan_right, numEqB_nan_left, jstr]
    · intro hnot
      push_neg at hnot
      obtain ⟨h1, h2, h3, h4, h5⟩ := hnot
      rw [if_neg h1, if_neg h2, if_neg h3, if_neg h4, if_neg h5]
      by_cases h6 : op = jstr "!="
      · rw [if_pos h6]
        simp [numEqB_nan_left]
      · rw [if_neg h6]
  · intro hnone
    unfold evaluateCondition
    rw [hago]
    simp only [Bool.false_eq_true, if_false]
    rw [heq, hnone]

/-- Witness for the amended C1 at concrete inputs: a `NaN` field value is
dropped under `>` and kept under `!=`. -/
theorem c1_amended_witness :
    evaluateCondition 0 [(jstr "voltage", some (.str (jstr "abc")))]
      (jstr "voltage > 5") = false ∧
    evaluateCondition 0 [(jstr "voltage", some (.str (jstr "abc")))]
      (jstr "voltage != 5") = true := by
  constructor
  · exact ((c1_numeric_failopen_amended 0
      [(jstr "voltage", some (.str (jstr "abc")))] (jstr "voltage > 5")
      rfl rfl).1 (jstr "voltage") (jstr ">") (jstr "5") rfl rfl).1 (Or.inl rfl)
  · exact ((c1_numeric_failopen_amended 0
      [(jstr "voltage", some (.str (jstr "abc")))] (jstr "voltage != 5")
      rfl rfl).1 (jstr "voltage") (jstr "!=") (jstr "5") rfl rfl).2 (by decide)

/-! ## Claim C9 -/

theorem aggValues_nil_of_all_nan (data : List Row) (f : JSStr)
    (h : ∀ r ∈ data, parseFloatStr (jsToString (jsIndex r f)) = .nan) :
    aggValues data f = [] := by
  unfold aggValues
  induction data with
  | nil => rfl
  | cons r rest ih =>
    rw [List.map_cons, List.filter_cons]
    rw [h r (List.mem_cons_self r rest)]
    simp only [ne_eq, not_true_eq_false, decide_False, Bool.false_eq_true, if_false]
    exact ih (fun x hx => h x (List.mem_cons_of_mem r hx))

theorem aggFold_cons (data : List Row) (a : JSStr) (rest : List JSStr) (base : Row) :
    aggFold data (a :: rest) base =
      aggFold data rest
        (match calculateAggregation data a with
         | none => base
         | some jv => setKey base a jv) := rfl

theorem rowEntry_aggFold_not_mem (data : List Row) (aggs : List JSStr) (base : Row)
    (k : JSStr) (hk : k ∉ aggs) :
    rowEntry (aggFold data aggs base) k = rowEntry base k := by
  induction aggs generalizing base with
  | nil => rfl
  | cons a rest ih =>
    rw [aggFold_cons]
    have hka : ¬ k = a := fun hc => hk (hc ▸ List.mem_cons_self a rest)
    have hkrest : k ∉ rest := fun hc => hk (List.mem_cons_of_mem a hc)
    cases hca : calculateAggregation data a with
    | none => exact ih base hkrest
    | some jv =>
      dsimp only
      rw [ih (setKey base a jv) hkrest]
      exact rowEntry_setKey_ne base a k jv hka

theorem rowEntry_aggFold_mem (data : List Row) (aggs : List JSStr) (base : Row)
    (k : JSStr) (jv : Option Value) (hk : k ∈ aggs)
    (hv : calculateAggregation data k = some jv) :
    rowEntry (aggFold data aggs base) k = some jv := by
  induction aggs generalizing base with
  | nil => exact absurd hk (List.not_mem_nil k)
  | cons a rest ih =>
    rw [aggFold_cons]
    by_cases hmem : k ∈ rest
    · cases hca : calculateAggregation data a with
      | none => exact ih base hmem
      | some jv2 =>
        dsimp only
        exact ih (setKey base a jv2) hmem
    · have hka : k = a := by
        rcases List.mem_cons.mp hk with h | h
        · exact h
        · exact absurd h hmem
      subst hka
      rw [hv]
      dsimp only
      rw [rowEntry_aggFold_not_mem data rest (setKey base k jv) k hmem]
      exact rowEntry_setKey_self base k jv

/-- C9: `avg(f)` over a group in which no value of `f` parses as a number
returns 0 (never null), and the field is present in the summarize output
row keyed by the literal spec text. -/
theorem c9_avg_empty_zero (data : List Row) (agg f : JSStr) (aggs : List JSStr)
    (hscan : firstScan tryBasicAgg agg = some (jstr "avg", f))
    (hnan : ∀ r ∈ data, parseFloatStr (jsToString (jsIndex r f)) = .nan)
    (hmem : agg ∈ aggs) :
    calculateAggregation data agg = some (some (.num (.rat 0))) ∧
    ∃ out, applySummarizeOperation data aggs [] = .ok [out] ∧
      rowEntry out agg = some (some (.num (.rat 0))) := by
  have hcalc : calculateAggregation data agg = some (some (.num (.rat 0))) := by
    unfold calculateAggregation
    rw [hscan]
    dsimp only
    rw [if_pos rfl]
    rw [aggValues_nil_of_all_nan data f hnan]
    rfl
  refine ⟨hcalc, aggFold data aggs [], rfl,
    rowEntry_aggFold_mem data aggs [] agg (some (.num (.rat 0))) hmem hcalc⟩

/-- Witness for C9 at a concrete group: one row whose `v` is the
non-numeric string `x`. -/
theorem c9_witness :
    calculateAggregation [[(jstr "v", some (.str (jstr "x")))]] (jstr "avg(v)")
      = some (some (.num (.rat 0))) ∧
    ∃ out, applySummarizeOperation [[(jstr "v", some (.str (jstr "x")))]]
        [jstr "avg(v)"] [] = .ok [out] ∧
      rowEntry out (jstr "avg(v)") = some (some (.num (.rat 0))) := by
  exact c9_avg_empty_zero [[(jstr "v", some (.str (jstr "x")))]]
    (jstr "avg(v)") (jstr "v") [jstr "avg(v)"] (by decide)
    (by intro r hr; simp only [List.mem_singleton] at hr; subst hr; decide)
    (List.mem_singleton.mpr rfl)

/-! ## Claim C7 -/

def toRatList (vs : List JSNum) : List ℚ :=
  vs.filterMap (fun v => match v with | .rat q => some q | _ => none)

theorem all_rat_eq_map (vs : List JSNum) (h : ∀ v ∈ vs, ∃ q, v = .rat q) :
    vs = (toRatList vs).map JSNum.rat := by
  induction vs with
  | nil => rfl
  | cons v rest ih =>
    obtain ⟨q, hq⟩ := h v (List.mem_cons_self v rest)
    subst hq
    unfold toRatList
    rw [List.filterMap_cons]
    dsimp only
    rw [List.map_cons]
    exact congrArg _ (ih (fun x hx => h x (List.mem_cons_of_mem _ hx)))

theorem aggValues_all_rat (data : List Row) (f : JSStr)
    (hfin : ∀ r ∈ data, parseFloatStr (jsToString (jsIndex r f)) = .nan ∨
      ∃ q, parseFloatStr (jsToString (jsIndex r f)) = .rat q) :
    ∀ v ∈ aggValues data f, ∃ q, v = .rat q := by
  intro v hv
  unfold aggValues at hv
  rw [List.mem_filter] at hv
  obtain ⟨hv1, hv2⟩ := hv
  rw [List.mem_map] at hv1
  obtain ⟨r, hr, hpr⟩ := hv1
  rcases hfin r hr with h | ⟨q, hq⟩
  · exfalso
    rw [hpr] at h
    rw [h] at hv2
    simp at hv2
  · exact ⟨q, by rw [← hpr, hq]⟩

theorem ascNumLe_rat (a b : ℚ) : ascNumLe (.rat a) (.rat b) = decide (a ≤ b) := by
  unfold ascNumLe
  have hs : numSub (.rat a) (.rat b) = .rat (a + -b) := rfl
  rw [hs]
  by_cases h : a ≤ b
  · have h2 : a + -b ≤ 0 := by linarith
    simp [h, h2]
  · have h2 : ¬ (a + -b ≤ 0) := by
      intro hc
      exact h (by linarith)
    simp [h, h2]

theorem jsArraySort_rats (qs : List ℚ) :
    jsArraySort ascNumLe (qs.map JSNum.rat) =
      (jsArraySort (fun a b => decide (a ≤ b)) qs).map JSNum.rat := by
  exact (map_jsArraySort (fun a b => decide (a ≤ b)) ascNumLe JSNum.rat
    (fun a b => (ascNumLe_rat a b).symm) qs).symm

theorem numMinB_rat (a q : ℚ) : numMinB (.rat a) (.rat q) = .rat (min a q) := by
  unfold numMinB
  rw [if_neg (by simp)]
  by_cases h : q < a
  · rw [if_pos (by simpa [numLtB] using h), min_eq_right (le_of_lt h)]
  · rw [if_neg (by simpa [numLtB] using h), min_eq_left (not_lt.mp h)]

theorem numMaxB_rat (a q : ℚ) : numMaxB (.rat a) (.rat q) = .rat (max a q) := by
  unfold numMaxB
  rw [if_neg (by simp)]
  by_cases h : a < q
  · rw [if_pos (by simpa [numLtB] using h), max_eq_right (le_of_lt h)]
  · rw [if_neg (by simpa [numLtB] using h), max_eq_left (not_lt.mp h)]

theorem foldl_numMinB_rats (qs : List ℚ) (a : ℚ) :
    (qs.map JSNum.rat).foldl numMinB (.rat a) = .rat (qs.foldl min a) := by
  induction qs generalizing a with
  | nil => rfl
  | cons q rest ih =>
    rw [List.map_cons, List.foldl_cons, List.foldl_cons, numMinB_rat]
    exact ih (min a q)

theorem foldl_numMaxB_rats (qs : List ℚ) (a : ℚ) :
    (qs.map JSNum.rat).foldl numMaxB (.rat a) = .rat (qs.foldl max a) := by
  induction qs generalizing a with
  | nil => rfl
  | cons q rest ih =>
    rw [List.map_cons, List.foldl_cons, List.foldl_cons, numMaxB_rat]
    exact ih (max a q)

theorem foldMinL_rats (q : ℚ) (qs : List ℚ) :
    foldMinL ((q :: qs).map JSNum.rat) = .rat (qs.foldl min q) := by
  unfold foldMinL
  rw [List.map_cons, List.foldl_cons]
  have h : numMinB .inf (.rat q) = .rat q := rfl
  rw [h]
  exact foldl_numMinB_rats qs q

theorem foldMaxL_rats (q : ℚ) (qs : List ℚ) :
    foldMaxL ((q :: qs).map JSNum.rat) = .rat (qs.foldl max q) := by
  unfold foldMaxL
  rw [List.map_cons, List.foldl_cons]
  have h : numMaxB .ninf (.rat q) = .rat q := rfl
  rw [h]
  exact foldl_numMaxB_rats qs q

theorem foldl_min_le (qs : List ℚ) (a : ℚ) :
    qs.foldl min a ≤ a ∧ ∀ x ∈ qs, qs.foldl min a ≤ x := by
  induction qs generalizing a with
  | nil => exact ⟨le_refl a, by intro x hx; cases hx⟩
  | cons q rest ih =>
    rw [List.foldl_cons]
    obtain ⟨h1, h2⟩ := ih (min a q)
    refine ⟨le_trans h1 (min_le_left a q), ?_⟩
    intro x hx
    rcases List.mem_cons.mp hx with h | h
    · rw [h]
      exact le_trans h1 (min_le_right a q)
    · exact h2 x h

theorem foldl_min_mem (qs : List ℚ) (a : ℚ) :
    qs.foldl min a = a ∨ qs.foldl min a ∈ qs := by
  induction qs generalizing a with
  | nil => exact Or.inl rfl
  | cons q rest ih =>
    rw [List.foldl_cons]
    rcases ih (min a q) with h | h
    · rw [h]
      rcases min_choice a q with h2 | h2
      · exact Or.inl h2
      · exact Or.inr (by rw [h2]; exact List.mem_cons_self q rest)
    · exact Or.inr (List.mem_cons_of_mem q h)

theorem foldl_max_ge (qs : List ℚ) (a : ℚ) :
    a ≤ qs.foldl max a ∧ ∀ x ∈ qs, x ≤ qs.foldl max a := by
  induction qs generalizing a with
  | nil => exact ⟨le_refl a, by intro x hx; cases hx⟩
  | cons q rest ih =>
    rw [List.foldl_cons]
    obtain ⟨h1, h2⟩ := ih (max a q)
    refine ⟨le_trans (le_max_left a q) h1, ?_⟩
    intro x hx
    rcases List.mem_cons.mp hx with h | h
    · rw [h]
      exact le_trans (le_max_right a q) h1
    · exact h2 x h

theorem foldl_max_mem (qs : List ℚ) (a : ℚ) :
    qs.foldl max a = a ∨ qs.foldl max a ∈ qs := by
  induction qs generalizing a with
  | nil => exact Or.inl rfl
  | cons q rest ih =>
    rw [List.foldl_cons]
    rcases ih (max a q) with h | h
    · rw [h]
      rcases max_choice a q with h2 | h2
      · exact Or.inl h2
      · exact Or.inr (by rw [h2]; exact List.mem_cons_self q rest)
    · exact Or.inr (List.mem_cons_of_mem q h)

theorem pairwise_le_getLast (qs : List ℚ) (h : List.Pairwise (fun a b : ℚ => a ≤ b) qs)
    (hne : qs ≠ []) : ∀ x ∈ qs, x ≤ qs.getLast hne := by
  induction qs with
  | nil => exact absurd rfl hne
  | cons a rest ih =>
    rcases List.pairwise_cons.mp h with ⟨ha, hrest⟩
    intro x hx
    cases rest with
    | nil =>
      have h2 := List.mem_singleton.mp hx
      subst h2
      exact le_refl x
    | cons b t =>
      rw [List.getLast_cons (List.cons_ne_nil b t)]
      rcases List.mem_cons.mp hx with h2 | h2
      · subst h2
        exact ha _ (List.getLast_mem (List.cons_ne_nil b t))
      · exact ih hrest (List.cons_ne_nil b t) x h2

theorem ratLe_trans3 : ∀ a b c : ℚ, (fun a b : ℚ => decide (a ≤ b)) a b = true →
    (fun a b : ℚ => decide (a ≤ b)) b c = true →
    (fun a b : ℚ => decide (a ≤ b)) a c = true := by
  intro a b c hab hbc
  simp only [decide_eq_true_eq] at *
  exact le_trans hab hbc

theorem ratLe_total : ∀ a b : ℚ, ((fun a b : ℚ => decide (a ≤ b)) a b ||
    (fun a b : ℚ => decide (a ≤ b)) b a) = true := by
  intro a b
  rcases le_total a b with h | h <;> simp [h]

/-- Evaluation of `calculateAggregation` on a spec whose basic-aggregate
scan matched `min`. -/
theorem calcAgg_min_form (data : List Row) (aggM f : JSStr)
    (hbm : firstScan tryBasicAgg aggM = some (jstr "min", f)) :
    calculateAggregation data aggM =
      (if (aggValues data f).length > 0 then
        some (some (.num (foldMinL (aggValues data f)))) else none) := by
  unfold calculateAggregation
  rw [hbm]
  dsimp only
  rw [if_neg (show ¬ jstr "min" = jstr "avg" from by decide)]
  rw [if_neg (show ¬ jstr "min" = jstr "sum" from by decide)]
  rw [if_neg (show ¬ jstr "min" = jstr "count" from by decide)]
  rw [if_pos (show jstr "min" = jstr "min" from rfl)]

/-- Evaluation of `calculateAggregation` on a spec whose basic-aggregate
scan matched `max`. -/
theorem calcAgg_max_form (data : List Row) (aggM f : JSStr)
    (hbm : firstScan tryBasicAgg aggM = some (jstr "max", f)) :
    calculateAggregation data aggM =
      (if (aggValues data f).length > 0 then
        some (some (.num (foldMaxL (aggValues data f)))) else none) := by
  unfold calculateAggregation
  rw [hbm]
  dsimp only
  rw [if_neg (show ¬ jstr "max" = jstr "avg" from by decide)]
  rw [if_neg (show ¬ jstr "max" = jstr "sum" from by decide)]
  rw [if_neg (show ¬ jstr "max" = jstr "count" from by decide)]
  rw [if_neg (show ¬ jstr "max" = jstr "min" from by decide)]

/-- Shared core for C7: with the percentile scan hypotheses in place,
`calculateAggregation` on the percentile spec reduces to the sorted
lookup. -/
theorem calcAgg_percentile_form (data : List Row) (aggP f pcap : JSStr)
    (hb : firstScan tryBasicAgg aggP = none)
    (hd : firstScan (tryNamedArg (jstr "dcount")) aggP = none)
    (hp : firstScan tryPercentile aggP = some (f, pcap)) :
    calculateAggregation data aggP =
      (if (jsArraySort ascNumLe (aggValues data f)).length = 0 then none
       else
         match parseFloatStr pcap with
         | .rat p =>
           (match (jsArraySort ascNumLe (aggValues data f)).get?
              ((p / 100) * (((jsArraySort ascNumLe (aggValues data f)).length : ℚ)
                - 1)).floor.toNat with
            | some v => some (some (.num v))
            | none => some none)
         | _ => some none) := by
  have hcnone : firstScan tryPercentile (jstr "count()") = none := by decide
  have hcnone2 : firstScan tryPercentile (jstr "count") = none := by decide
  have hne1 : ¬ aggP = jstr "count()" := by
    intro hc
    rw [hc, hcnone] at hp
    exact Option.noConfusion hp
  have hne2 : ¬ aggP = jstr "count" := by
    intro hc
    rw [hc, hcnone2] at hp
    exact Option.noConfusion hp
  unfold calculateAggregation
  rw [hb]
  dsimp only
  rw [if_neg (by simp [hne1, hne2])]
  rw [hd]
  dsimp only
  rw [hp]

/-- C7: on any group, `percentile(f, 0)` computes the same result as
`min(f)` and `percentile(f, 100)` the same result as `max(f)` (null
included when the group has no numeric values), provided each value of
the field parses as a finite number or fails to parse. -/
theorem c7_percentile_extremes (data : List Row) (f aggP aggM pcap : JSStr)
    (hb : firstScan tryBasicAgg aggP = none)
    (hd : firstScan (tryNamedArg (jstr "dcount")) aggP = none)
    (hp : firstScan tryPercentile aggP = some (f, pcap))
    (hfin : ∀ r ∈ data, parseFloatStr (jsToString (jsIndex r f)) = .nan ∨
      ∃ q, parseFloatStr (jsToString (jsIndex r f)) = .rat q) :
    (parseFloatStr pcap = .rat 0 → firstScan tryBasicAgg aggM = some (jstr "min", f) →
      calculateAggregation data aggP = calculateAggregation data aggM) ∧
    (parseFloatStr pcap = .rat 100 → firstScan tryBasicAgg aggM = some (jstr "max", f) →
      calculateAggregation data aggP = calculateAggregation data aggM) := by
  have hall := aggValues_all_rat data f hfin
  have hmapped := all_rat_eq_map (aggValues data f) hall
  have hperm := jsArraySort_perm (fun a b : ℚ => decide (a ≤ b))
    (toRatList (aggValues data f))
  have hpair := sorted_jsArraySort_local (fun a b : ℚ => decide (a ≤ b))
    (toRatList (aggValues data f))
    (fun a _ b _ c _ => ratLe_trans3 a b c)
    (fun a _ b _ => by
      rcases le_total a b with h | h
      · exact Or.inl (by simpa using h)
      · exact Or.inr (by simpa using h))
  have hsortmap : jsArraySort ascNumLe (aggValues data f) =
      (jsArraySort (fun a b : ℚ => decide (a ≤ b))
        (toRatList (aggValues data f))).map JSNum.rat := by
    conv_lhs => rw [hmapped]
    rw [jsArraySort_rats]
  have hlen_eq : (aggValues data f).length = (toRatList (aggValues data f)).length := by
    conv_lhs => rw [hmapped]
    rw [List.length_map]
  constructor
  · intro hpv hbm
    rw [calcAgg_percentile_form data aggP f pcap hb hd hp,
      calcAgg_min_form data aggM f hbm]
    cases hqs : jsArraySort (fun a b : ℚ => decide (a ≤ b))
        (toRatList (aggValues data f)) with
    | nil =>
      have hvlen : (aggValues data f).length = 0 := by
        rw [hlen_eq, ← length_jsArraySort (fun a b : ℚ => decide (a ≤ b))
          (toRatList (aggValues data f)), hqs]
        rfl
      rw [if_pos (by rw [hsortmap, hqs]; rfl)]
      rw [if_neg (by rw [hvlen]; exact lt_irrefl 0)]
    | cons h t =>
      have hvlenpos : (aggValues data f).length > 0 := by
        rw [hlen_eq, ← length_jsArraySort (fun a b : ℚ => decide (a ≤ b))
          (toRatList (aggValues data f)), hqs]
        exact Nat.succ_pos _
      rw [if_neg (by rw [hsortmap, hqs]; simp)]
      rw [hpv]
      dsimp only
      rw [if_pos hvlenpos]
      have hidx : (((0 : ℚ) / 100) *
          (((jsArraySort ascNumLe (aggValues data f)).length : ℚ) - 1)).floor.toNat
          = 0 := by
        rw [show ((0 : ℚ) / 100) *
          (((jsArraySort ascNumLe (aggValues data f)).length : ℚ) - 1) = 0 from by ring]
        rw [show Rat.floor (0 : ℚ) = ⌊(0 : ℚ)⌋ from by rw [Rat.floor_def', Rat.floor_def]]
        rw [Int.floor_zero]
        rfl
      rw [hidx]
      have hget : (jsArraySort ascNumLe (aggValues data f)).get? 0 =
          some (.rat h) := by
        rw [hsortmap, hqs]
        rfl
      rw [hget]
      rcases hqs2 : toRatList (aggValues data f) with _ | ⟨q, rest⟩
      · rw [hqs2] at hqs
        rw [show jsArraySort (fun a b : ℚ => decide (a ≤ b)) ([] : List ℚ) = []
          from rfl] at hqs
        exact List.noConfusion hqs
      · have hfold : foldMinL (aggValues data f) = .rat (rest.foldl min q) := by
          conv_lhs => rw [hmapped, hqs2]
          exact foldMinL_rats q rest
        rw [hfold]
        have hperm2 : List.Perm (h :: t) (q :: rest) := by
          rw [← hqs, ← hqs2]
          exact hperm
        have hsorted : List.Pairwise (fun a b : ℚ => a ≤ b) (h :: t) := by
          rw [hqs] at hpair
          exact hpair.imp (fun {a b} hab => by simpa using hab)
        have hmem_h : h ∈ q :: rest := hperm2.mem_iff.mp (List.mem_cons_self h t)
        have h_le_all : ∀ x ∈ q :: rest, h ≤ x := by
          intro x hx
          have hx2 : x ∈ h :: t := hperm2.mem_iff.mpr hx
          rcases List.mem_cons.mp hx2 with h2 | h2
          · rw [h2]
          · exact (List.pairwise_cons.mp hsorted).1 x h2
        have hm_le_all : ∀ x ∈ q :: rest, rest.foldl min q ≤ x := by
          intro x hx
          rcases List.mem_cons.mp hx with h2 | h2
          · rw [h2]
            exact (foldl_min_le rest q).1
          · exact (foldl_min_le rest q).2 x h2
        have hm_mem : rest.foldl min q ∈ q :: rest := by
          rcases foldl_min_mem rest q with h2 | h2
          · rw [h2]
            exact List.mem_cons_self q rest
          · exact List.mem_cons_of_mem q h2
        have heq : h = rest.foldl min q :=
          le_antisymm (h_le_all _ hm_mem) (hm_le_all _ hmem_h)
        rw [heq]
  · intro hpv hbm
    rw [calcAgg_percentile_form data aggP f pcap hb hd hp,
      calcAgg_max_form data aggM f hbm]
    cases hqs : jsArraySort (fun a b : ℚ => decide (a ≤ b))
        (toRatList (aggValues data f)) with
    | nil =>
      have hvlen : (aggValues data f).length = 0 := by
        rw [hlen_eq, ← length_jsArraySort (fun a b : ℚ => decide (a ≤ b))
          (toRatList (aggValues data f)), hqs]
        rfl
      rw [if_pos (by rw [hsortmap, hqs]; rfl)]
      rw [if_neg (by rw [hvlen]; exact lt_irrefl 0)]
    | cons h t =>
      have hvlenpos : (aggValues data f).length > 0 := by
        rw [hlen_eq, ← length_jsArraySort (fun a b : ℚ => decide (a ≤ b))
          (toRatList (aggValues data f)), hqs]
        exact Nat.succ_pos _
      rw [if_neg (by rw [hsortmap, hqs]; simp)]
      rw [hpv]
      dsimp only
      rw [if_pos hvlenpos]
      have hslen : (jsArraySort ascNumLe (aggValues data f)).length = t.length + 1 := by
        rw [hsortmap, hqs, List.length_map, List.length_cons]
      have hidx : (((100 : ℚ) / 100) *
          (((jsArraySort ascNumLe (aggValues data f)).length : ℚ) - 1)).floor.toNat
          = t.length := by
        rw [hslen]
        rw [show ((100 : ℚ) / 100) * (((t.length + 1 : ℕ) : ℚ) - 1)
          = ((t.length : ℕ) : ℚ) from by push_cast; ring]
        rw [show Rat.floor ((t.length : ℕ) : ℚ) = ⌊((t.length : ℕ) : ℚ)⌋ from by
          rw [Rat.floor_def', Rat.floor_def]]
        rw [Int.floor_natCast]
        simp
      rw [hidx]
      have hget : (jsArraySort ascNumLe (aggValues data f)).get? t.length =
          some (.rat ((h :: t).getLast (List.cons_ne_nil h t))) := by
        rw [hsortmap, hqs, List.get?_map]
        have h2 : (h :: t).get? t.length = (h :: t).getLast? := by
          rw [List.getLast?_eq_get?]
          rfl
        rw [h2, List.getLast?_eq_getLast _ (List.cons_ne_nil h t)]
        rfl
      rw [hget]
      rcases hqs2 : toRatList (aggValues data f) with _ | ⟨q, rest⟩
      · rw [hqs2] at hqs
        rw [show jsArraySort (fun a b : ℚ => decide (a ≤ b)) ([] : List ℚ) = []
          from rfl] at hqs
        exact List.noConfusion hqs
      · have hfold : foldMaxL (aggValues data f) = .rat (rest.foldl max q) := by
          conv_lhs => rw [hmapped, hqs2]
          exact foldMaxL_rats q rest
        rw [hfold]
        have hperm2 : List.Perm (h :: t) (q :: rest) := by
          rw [← hqs, ← hqs2]
          exact hperm
        have hsorted : List.Pairwise (fun a b : ℚ => a ≤ b) (h :: t) := by
          rw [hqs] at hpair
          exact hpair.imp (fun {a b} hab => by simpa using hab)
        have hlast := pairwise_le_getLast (h :: t) hsorted (List.cons_ne_nil h t)
        have hm_ge_all : ∀ x ∈ q :: rest, x ≤ rest.foldl max q := by
          intro x hx
          rcases List.mem_cons.mp hx with h2 | h2
          · rw [h2]
            exact (foldl_max_ge rest q).1
          · exact (foldl_max_ge rest q).2 x h2
        have hm_mem : rest.foldl max q ∈ q :: rest := by
          rcases foldl_max_mem rest q with h2 | h2
          · rw [h2]
            exact List.mem_cons_self q rest
          · exact List.mem_cons_of_mem q h2
        have heq : (h :: t).getLast (List.cons_ne_nil h t) = rest.foldl max q :=
          le_antisymm (hm_ge_all _ (hperm2.mem_iff.mp (List.getLast_mem _)))
            (hlast _ (hperm2.mem_iff.mpr hm_mem))
        rw [heq]

/-- Witness for C7 at a concrete two-row group with field values 5 and 2:
`percentile(v, 0)` equals `min(v)` and `percentile(v, 100)` equals
`max(v)`. -/
theorem c7_witness :
    calculateAggregation
      [[(jstr "v", some (.num (.rat 5)))], [(jstr "v", some (.num (.rat 2)))]]
      (jstr "percentile(v, 0)") =
    calculateAggregation
      [[(jstr "v", some (.num (.rat 5)))], [(jstr "v", some (.num (.rat 2)))]]
      (jstr "min(v)") ∧
    calculateAggregation
      [[(jstr "v", some (.num (.rat 5)))], [(jstr "v", some (.num (.rat 2)))]]
      (jstr "percentile(v, 100)") =
    calculateAggregation
      [[(jstr "v", some (.num (.rat 5)))], [(jstr "v", some (.num (.rat 2)))]]
      (jstr "max(v)") := by
  have hfin : ∀ r ∈ [[(jstr "v", some (Value.num (JSNum.rat 5)))],
      [(jstr "v", some (Value.num (JSNum.rat 2)))]],
      parseFloatStr (jsToString (jsIndex r (jstr "v"))) = .nan ∨
      ∃ q, parseFloatStr (jsToString (jsIndex r (jstr "v"))) = .rat q := by
    intro r hr
    rcases List.mem_cons.mp hr with h | h
    · subst h
      exact Or.inr ⟨5, by decide⟩
    · rcases List.mem_singleton.mp h with h2
      subst h2
      exact Or.inr ⟨2, by decide⟩
  constructor
  · exact (c7_percentile_extremes
      [[(jstr "v", some (.num (.rat 5)))], [(jstr "v", some (.num (.rat 2)))]]
      (jstr "v") (jstr "percentile(v, 0)") (jstr "min(v)") (jstr "0")
      (by decide) (by decide) (by decide) hfin).1 (by decide) (by decide)
  · exact (c7_percentile_extremes
      [[(jstr "v", some (.num (.rat 5)))], [(jstr "v", some (.num (.rat 2)))]]
      (jstr "v") (jstr "percentile(v, 100)") (jstr "max(v)") (jstr "100")
      (by decide) (by decide) (by decide) hfin).2 (by decide) (by decide)

/-! ## Claim C5 -/

/-- C5 counterexample: `summarize min(x)` (no `by` clause) over an empty
row group returns one row, but that row has no `min(x)` field, because
the null aggregation result is skipped — contradicting "one field per
aggregation spec". -/
theorem c5_counterexample :
    applySummarizeOperation [] [jstr "min(x)"] [] = .ok [[]] ∧
    rowEntry ([] : Row) (jstr "min(x)") = none := ⟨rfl, rfl⟩

theorem rowEntry_aggFold_none (data : List Row) (aggs : List JSStr) (base : Row)
    (k : JSStr) (h : calculateAggregation data k = none) :
    rowEntry (aggFold data aggs base) k = rowEntry base k := by
  induction aggs generalizing base with
  | nil => rfl
  | cons a rest ih =>
    rw [aggFold_cons]
    cases hca : calculateAggregation data a with
    | none => exact ih base
    | some jv =>
      dsimp only
      rw [ih (setKey base a jv)]
      refine rowEntry_setKey_ne base a k jv (fun hc => ?_)
      rw [hc, hca] at h
      exact Option.noConfusion h

/-- C5 amended: `summarize` with an empty group-by list returns exactly
one output row; that row has a field keyed by the literal spec text for
exactly those specs whose aggregation result is non-null (null results —
unrecognized specs, or `min`/`max`/`percentile` over no numeric values —
are omitted). -/
theorem c5_summarize_no_groupby_amended (data : List Row) (aggs : List JSStr) :
    ∃ out, applySummarizeOperation data aggs [] = .ok [out] ∧
      ∀ agg, agg ∈ aggs →
        (calculateAggregation data agg = none → rowEntry out agg = none) ∧
        (∀ jv, calculateAggregation data agg = some jv → rowEntry out agg = some jv) := by
  refine ⟨aggFold data aggs [], rfl, fun agg hmem => ⟨fun hnone => ?_, fun jv hjv => ?_⟩⟩
  · rw [rowEntry_aggFold_none data aggs [] agg hnone]
    rfl
  · exact rowEntry_aggFold_mem data aggs [] agg jv hmem hjv

/-- Witness for the amended C5: `summarize min(x), count()` over no rows
yields one row that omits `min(x)` (null) but carries `count()` = 0. -/
theorem c5_amended_witness :
    ∃ out, applySummarizeOperation [] [jstr "min(x)", jstr "count()"] [] = .ok [out] ∧
      rowEntry out (jstr "min(x)") = none ∧
      rowEntry out (jstr "count()") = some (some (.num (.rat 0))) := by
  obtain ⟨out, h1, h2⟩ :=
    c5_summarize_no_groupby_amended [] [jstr "min(x)", jstr "count()"]
  refine ⟨out, h1, ?_, ?_⟩
  · exact (h2 (jstr "min(x)") (by decide)).1 rfl
  · exact (h2 (jstr "count()") (by decide)).2 (some (.num (.rat 0))) rfl

/-! ## Claim C6 -/

/-- C6 counterexample: `top 4 by v desc` over rows with `v` values
`0, missing, missing, 1` returns them in the order `0, missing, missing,
1` — the row with `v = 0` precedes the row with `v = 1`, so the output is
not sorted descending by `v` (the `NaN`-valued comparisons make the sort
comparator inconsistent). -/
theorem c6_counterexample :
    (applyTopOperation
      [[(jstr "v", some (.num (.rat 0)))], [], [],
       [(jstr "v", some (.num (.rat 1)))]] 4 (some (jstr "v desc"))).map
      (fun r => jsIndex r (jstr "v")) =
      [some (.num (.rat 0)), none, none, some (.num (.rat 1))] ∧
    jsLtB (some (.num (.rat 0))) (some (.num (.rat 1))) = true := ⟨rfl, rfl⟩

theorem rowCompareLe_desc_rat (f : JSStr) (a b : Row) (qa qb : ℚ)
    (ha : jsIndex a f = some (.num (.rat qa))) (hb : jsIndex b f = some (.num (.rat qb))) :
    rowCompareLe f true a b = decide (qb ≤ qa) := by
  unfold rowCompareLe
  rw [ha, hb]
  dsimp only
  rw [show jsLtB (some (Value.num (JSNum.rat qa))) (some (Value.num (JSNum.rat qb)))
    = decide (qa < qb) from rfl]
  rw [show jsLtB (some (Value.num (JSNum.rat qb))) (some (Value.num (JSNum.rat qa)))
    = decide (qb < qa) from rfl]
  by_cases h1 : qa < qb
  · by_cases h2 : qb < qa
    · exact absurd h2 (asymm h1)
    · simp [h1, h2, not_le.mpr h1]
  · by_cases h2 : qb < qa
    · simp [h1, h2, le_of_lt h2]
    · simp [h1, h2, not_lt.mp h1]

/-- C6 amended: `top N by f desc` returns exactly `min(N, |rows|)` rows,
and they are pairwise descending in `f` provided every row's `f` value is
a number; with non-numeric or missing values the comparator is
inconsistent and sortedness can fail (see the counterexample). -/
theorem c6_top_desc_amended (data : List Row) (count : Nat) (ob f : JSStr)
    (hdesc : containsSub (jstr " desc") ob = true)
    (hfield : trimStr (removeFirstSub (jstr " desc") ob) = f)
    (hnum : ∀ r ∈ data, ∃ q : ℚ, jsIndex r f = some (.num (.rat q))) :
    (applyTopOperation data count (some ob)).length = min count data.length ∧
    List.Pairwise (fun a b => jsLtB (jsIndex a f) (jsIndex b f) = false)
      (applyTopOperation data count (some ob)) := by
  have hsplit : sortDirSplit ob = (f, true) := by
    unfold sortDirSplit
    rw [if_pos hdesc, hfield]
  have happ : applyTopOperation data count (some ob) =
      (jsArraySort (rowCompareLe f true) data).take count := by
    unfold applyTopOperation
    dsimp only
    rw [hsplit]
  constructor
  · rw [happ, List.length_take, length_jsArraySort]
  · have hpair := sorted_jsArraySort_local (rowCompareLe f true) data
      (fun a ha b hb c hc hab hbc => by
        obtain ⟨qa, hqa⟩ := hnum a ha
        obtain ⟨qb, hqb⟩ := hnum b hb
        obtain ⟨qc, hqc⟩ := hnum c hc
        rw [rowCompareLe_desc_rat f a b qa qb hqa hqb] at hab
        rw [rowCompareLe_desc_rat f b c qb qc hqb hqc] at hbc
        rw [rowCompareLe_desc_rat f a c qa qc hqa hqc]
        simp only [decide_eq_true_eq] at *
        exact le_trans hbc hab)
      (fun a ha b hb => by
        obtain ⟨qa, hqa⟩ := hnum a ha
        obtain ⟨qb, hqb⟩ := hnum b hb
        rw [rowCompareLe_desc_rat f a b qa qb hqa hqb,
          rowCompareLe_desc_rat f b a qb qa hqb hqa]
        rcases le_total qa qb with h | h <;> simp [h])
    have hconv : List.Pairwise
        (fun a b => jsLtB (jsIndex a f) (jsIndex b f) = false)
        (jsArraySort (rowCompareLe f true) data) := by
      refine List.Pairwise.imp_of_mem ?_ hpair
      intro a b hma hmb hab
      have ha : a ∈ data := mem_jsArraySort.mp hma
      have hb : b ∈ data := mem_jsArraySort.mp hmb
      obtain ⟨qa, hqa⟩ := hnum a ha
      obtain ⟨qb, hqb⟩ := hnum b hb
      rw [rowCompareLe_desc_rat f a b qa qb hqa hqb] at hab
      rw [hqa, hqb]
      have hlt : jsLtB (some (.num (.rat qa))) (some (.num (.rat qb)))
          = decide (qa < qb) := rfl
      rw [hlt]
      simp only [decide_eq_true_eq] at hab
      simp [not_lt.mpr hab]
    rw [happ]
    exact hconv.sublist (List.take_sublist count _)

/-- Witness for the amended C6: `top 2 by v desc` over three numeric rows
returns two rows in descending order. -/
theorem c6_amended_witness :
    (applyTopOperation
      [[(jstr "v", some (.num (.rat 1)))], [(jstr "v", some (.num (.rat 3)))],
       [(jstr "v", some (.num (.rat 2)))]] 2 (some (jstr "v desc"))).length
      = min 2 3 ∧
    List.Pairwise
      (fun a b => jsLtB (jsIndex a (jstr "v")) (jsIndex b (jstr "v")) = false)
      (applyTopOperation
        [[(jstr "v", some (.num (.rat 1)))], [(jstr "v", some (.num (.rat 3)))],
         [(jstr "v", some (.num (.rat 2)))]] 2 (some (jstr "v desc"))) := by
  have h := c6_top_desc_amended
    [[(jstr "v", some (.num (.rat 1)))], [(jstr "v", some (.num (.rat 3)))],
     [(jstr "v", some (.num (.rat 2)))]] 2 (jstr "v desc") (jstr "v")
    (by decide) (by decide)
    (by
      intro r hr
      rcases List.mem_cons.mp hr with h1 | h1
      · exact ⟨1, by subst h1; rfl⟩
      rcases List.mem_cons.mp h1 with h2 | h2
      · exact ⟨3, by subst h2; rfl⟩
      · have h3 := List.mem_singleton.mp h2
        exact ⟨2, by subst h3; rfl⟩)
  exact h

/-! ## C2: pipeline segment recognition and ordering -/

theorem dropWhile_fix_head {p : Char → Bool} (c : Char) (t : JSStr)
    (h : (c :: t).dropWhile p = c :: t) : p c = false := by
  cases hpc : p c
  · rfl
  · rw [List.dropWhile_cons_of_pos hpc] at h
    have h2 : (t.dropWhile p).length ≤ t.length :=
      (List.dropWhile_suffix p).sublist.length_le
    have h3 := congrArg List.length h
    simp only [List.length_cons] at h3
    omega

theorem trim_fixed_parts (s : JSStr) (h : trimStr s = s) :
    s.dropWhile isWSChar = s ∧ s.reverse.dropWhile isWSChar = s.reverse := by
  have hsuf1 : (s.dropWhile isWSChar).length ≤ s.length :=
    (List.dropWhile_suffix isWSChar).sublist.length_le
  have hsuf2 : ((s.dropWhile isWSChar).reverse.dropWhile isWSChar).length
      ≤ (s.dropWhile isWSChar).reverse.length :=
    (List.dropWhile_suffix isWSChar).sublist.length_le
  have hlen : (trimStr s).length
      = ((s.dropWhile isWSChar).reverse.dropWhile isWSChar).length := by
    unfold trimStr; rw [List.length_reverse]
  rw [h] at hlen
  rw [List.length_reverse] at hsuf2
  have heq1 : (s.dropWhile isWSChar).length = s.length := by omega
  have hfix1 : s.dropWhile isWSChar = s :=
    (List.dropWhile_suffix isWSChar).eq_of_length heq1
  refine ⟨hfix1, ?_⟩
  have h2 : (s.reverse.dropWhile isWSChar).reverse = s := by
    have h3 := h; unfold trimStr at h3; rw [hfix1] at h3; exact h3
  have h4 := congrArg List.reverse h2
  rw [List.reverse_reverse] at h4
  exact h4

theorem trimStr_of_fixed_ends (s : JSStr) (h1 : s.dropWhile isWSChar = s)
    (h2 : s.reverse.dropWhile isWSChar = s.reverse) : trimStr s = s := by
  unfold trimStr; rw [h1, h2, List.reverse_reverse]

theorem dropWhile_eq_self_of_all {p : Char → Bool} (s : JSStr)
    (h : ∀ x ∈ s, p x = false) : s.dropWhile p = s := by
  cases s with
  | nil => rfl
  | cons x xs =>
    exact List.dropWhile_cons_of_neg (by simp [h x (List.mem_cons_self x xs)])

theorem trim_of_all_nonws (s : JSStr) (h : ∀ x ∈ s, isWSChar x = false) :
    trimStr s = s :=
  trimStr_of_fixed_ends s (dropWhile_eq_self_of_all s h)
    (dropWhile_eq_self_of_all s.reverse (fun x hx => h x (List.mem_reverse.mp hx)))

theorem takeWhile_eq_self_of_all {p : Char → Bool} (s : JSStr)
    (h : ∀ x ∈ s, p x = true) : s.takeWhile p = s := by
  induction s with
  | nil => rfl
  | cons x xs ih =>
    rw [List.takeWhile_cons_of_pos (h x (List.mem_cons_self x xs)),
      ih (fun y hy => h y (List.mem_cons_of_mem x hy))]

theorem trim_cons_ws (c : Char) (s : JSStr) (hc : isWSChar c = true) :
    trimStr (c :: s) = trimStr s := by
  unfold trimStr
  rw [List.dropWhile_cons_of_pos hc]

theorem trim_append_ws_right (s : JSStr) (c : Char) (hc : isWSChar c = true)
    (hfix : trimStr s = s) (hne : s ≠ []) : trimStr (s ++ [c]) = s := by
  obtain ⟨hd, hr⟩ := trim_fixed_parts s hfix
  obtain ⟨x, t, hx⟩ := List.exists_cons_of_ne_nil hne
  have hxw : isWSChar x = false := dropWhile_fix_head x t (hx ▸ hd)
  have h1 : (s ++ [c]).dropWhile isWSChar = s ++ [c] := by
    rw [hx, List.cons_append, List.dropWhile_cons_of_neg (by simp [hxw])]
  have hrev : (s ++ [c]).reverse = c :: s.reverse := by simp
  unfold trimStr
  rw [h1, hrev, List.dropWhile_cons_of_pos hc, hr, List.reverse_reverse]

theorem splitOnChar_cons (c x : Char) (xs : JSStr) :
    splitOnChar c (x :: xs) =
      if x = c then [] :: splitOnChar c xs
      else match splitOnChar c xs with
        | [] => [[x]]
        | h :: t => (x :: h) :: t := rfl

theorem splitOnChar_of_not_mem (c : Char) (s : JSStr) (h : c ∉ s) :
    splitOnChar c s = [s] := by
  induction s with
  | nil => rfl
  | cons x xs ih =>
    have hx : ¬ x = c := by
      intro he; exact h (List.mem_cons.mpr (Or.inl he.symm))
    have hxs : c ∉ xs := fun hm => h (List.mem_cons_of_mem x hm)
    rw [splitOnChar_cons, if_neg hx, ih hxs]

theorem splitOnChar_append_cons (c : Char) (a b : JSStr) (h : c ∉ a) :
    splitOnChar c (a ++ c :: b) = a :: splitOnChar c b := by
  induction a with
  | nil =>
    rw [List.nil_append, splitOnChar_cons, if_pos rfl]
  | cons x xs ih =>
    have hx : ¬ x = c := by
      intro he; exact h (List.mem_cons.mpr (Or.inl he.symm))
    have hxs : c ∉ xs := fun hm => h (List.mem_cons_of_mem x hm)
    rw [List.cons_append, splitOnChar_cons, if_neg hx, ih hxs]

theorem split_sep_flatten (sep : Char) (parts : List JSStr) :
    (∀ p ∈ parts, sep ∉ p) → ∀ head : JSStr, sep ∉ head →
    splitOnChar sep (head ++ (parts.map (fun p => sep :: p)).flatten)
      = head :: parts := by
  induction parts with
  | nil =>
    intro _ head hh
    rw [List.map_nil, List.flatten_nil, List.append_nil,
      splitOnChar_of_not_mem _ _ hh]
  | cons p ps ih =>
    intro hp head hh
    rw [List.map_cons, List.flatten_cons,
      show head ++ ((sep :: p) ++ (ps.map (fun q => sep :: q)).flatten)
        = head ++ sep :: (p ++ (ps.map (fun q => sep :: q)).flatten)
        from by simp,
      splitOnChar_append_cons _ _ _ hh,
      ih (fun q hq => hp q (List.mem_cons_of_mem p hq)) p (hp p (List.mem_cons_self p ps))]

theorem filterMap_congr_mem {α β : Type} (f g : α → Option β) (l : List α)
    (h : ∀ a ∈ l, f a = g a) : l.filterMap f = l.filterMap g := by
  induction l with
  | nil => rfl
  | cons x xs ih =>
    rw [List.filterMap_cons, List.filterMap_cons, h x (List.mem_cons_self x xs),
      ih (fun y hy => h y (List.mem_cons_of_mem x hy))]

theorem flat_rev_head (segs : List JSStr) :
    (∀ s ∈ segs, trimStr s = s ∧ s ≠ []) → segs ≠ [] →
    ∃ c u, ((segs.map (fun s => ' ' :: '|' :: ' ' :: s)).flatten).reverse = c :: u
      ∧ isWSChar c = false := by
  induction segs with
  | nil => intro _ h; exact absurd rfl h
  | cons s rest ih =>
    intro hs _
    obtain ⟨hfix, hne⟩ := hs s (List.mem_cons_self s rest)
    obtain ⟨hd, hr⟩ := trim_fixed_parts s hfix
    cases rest with
    | nil =>
      obtain ⟨x, t, hx⟩ := List.exists_cons_of_ne_nil
        (show s.reverse ≠ [] by simp [hne])
      have hxw : isWSChar x = false := dropWhile_fix_head x t (hx ▸ hr)
      refine ⟨x, t ++ [' ', '|', ' '], ?_, hxw⟩
      rw [List.map_cons, List.map_nil, List.flatten_cons, List.flatten_nil,
        List.append_nil,
        show (' ' :: '|' :: ' ' :: s).reverse = s.reverse ++ [' ', '|', ' '] from by simp,
        hx, List.cons_append]
    | cons s1 r2 =>
      obtain ⟨c, u, hcu, hcw⟩ :=
        ih (fun q hq => hs q (List.mem_cons_of_mem s hq)) (by simp)
      refine ⟨c, u ++ (' ' :: '|' :: ' ' :: s).reverse, ?_, hcw⟩
      rw [List.map_cons, List.flatten_cons, List.reverse_append, hcu,
        List.cons_append]

theorem parseKQLStatement_cons (q firstLine : JSStr) (rest : List JSStr)
    (h : ((splitOnChar '\n' q).map trimStr).filter (fun line => line ≠ [])
      = firstLine :: rest) :
    parseKQLStatement q = .ok
      ⟨firstLine.takeWhile (fun c => !isWSChar c),
        rest.filterMap (fun line =>
          if beginsWith (jstr "|") line then parseKQLOperation (trimStr (line.drop 1))
          else none)
        ++ (if beginsWith (jstr "|")
              (trimStr (firstLine.drop
                (firstLine.takeWhile (fun c => !isWSChar c)).length)) then
             ((splitOnChar '|'
                (trimStr (firstLine.drop
                  (firstLine.takeWhile (fun c => !isWSChar c)).length))).filter
               (fun part => trimStr part ≠ [])).filterMap
               (fun part => parseKQLOperation (trimStr part))
           else [])⟩ := by
  unfold parseKQLStatement
  rw [h]

theorem chain_ops (segs : List JSStr) :
    (∀ s ∈ segs, trimStr s = s ∧ s ≠ [] ∧ '|' ∉ s) →
    ∀ s : JSStr, trimStr s = s → s ≠ [] → '|' ∉ s →
    ((splitOnChar '|'
        (' ' :: (s ++ (segs.map (fun x => ' ' :: '|' :: ' ' :: x)).flatten))).filter
      (fun part => trimStr part ≠ [])).filterMap
      (fun part => parseKQLOperation (trimStr part))
      = (s :: segs).filterMap parseKQLOperation := by
  induction segs with
  | nil =>
    intro _ s hfix hne hnp
    rw [List.map_nil, List.flatten_nil, List.append_nil]
    have hns : '|' ∉ (' ' :: s) := by
      intro hm
      rcases List.mem_cons.mp hm with h | h
      · exact absurd h (by decide)
      · exact hnp h
    rw [splitOnChar_of_not_mem _ _ hns]
    have htr : trimStr (' ' :: s) = s := by
      rw [trim_cons_ws ' ' s (by decide), hfix]
    rw [show (List.filter (fun part => decide (trimStr part ≠ [])) [' ' :: s])
        = [' ' :: s] from by simp [htr, hne]]
    simp only [List.filterMap_cons, List.filterMap_nil]
    rw [htr]
  | cons y ys ih =>
    intro hall s hfix hne hnp
    have hstr : (' ' :: (s ++ ((y :: ys).map (fun x => ' ' :: '|' :: ' ' :: x)).flatten))
        = (' ' :: (s ++ [' '])) ++
          '|' :: (' ' :: (y ++ (ys.map (fun x => ' ' :: '|' :: ' ' :: x)).flatten)) := by
      simp
    rw [hstr]
    have hnleft : '|' ∉ (' ' :: (s ++ [' '])) := by
      intro hm
      rcases List.mem_cons.mp hm with h | h
      · exact absurd h (by decide)
      · rcases List.mem_append.mp h with h2 | h2
        · exact hnp h2
        · exact absurd (List.mem_singleton.mp h2) (by decide)
    rw [splitOnChar_append_cons _ _ _ hnleft]
    have htr : trimStr (' ' :: (s ++ [' '])) = s := by
      rw [trim_cons_ws ' ' _ (by decide)]
      exact trim_append_ws_right s ' ' (by decide) hfix hne
    obtain ⟨hyfix, hyne, hynp⟩ := hall y (List.mem_cons_self y ys)
    have hih := ih (fun q hq => hall q (List.mem_cons_of_mem y hq)) y hyfix hyne hynp
    rw [show (List.filter (fun part => decide (trimStr part ≠ []))
          ((' ' :: (s ++ [' '])) ::
            splitOnChar '|'
              (' ' :: (y ++ (ys.map (fun x => ' ' :: '|' :: ' ' :: x)).flatten))))
        = (' ' :: (s ++ [' '])) ::
            (List.filter (fun part => decide (trimStr part ≠ []))
              (splitOnChar '|'
                (' ' :: (y ++ (ys.map (fun x => ' ' :: '|' :: ' ' :: x)).flatten))))
        from by rw [List.filter_cons]; simp [htr, hne]]
    simp only [List.filterMap_cons]
    rw [htr, hih]
    cases parseKQLOperation s <;> rfl

theorem rev_append_tail_fixed (s0 : JSStr) (r : List JSStr) (tail : JSStr)
    (hs0fix : trimStr s0 = s0) (hs0ne : s0 ≠ [])
    (hr : ∀ s ∈ r, trimStr s = s ∧ s ≠ []) :
    ∃ c u, ((s0 ++ (r.map (fun x => ' ' :: '|' :: ' ' :: x)).flatten).reverse ++ tail)
        = c :: u ∧ isWSChar c = false := by
  rw [List.reverse_append]
  cases r with
  | nil =>
    obtain ⟨x, t, hx⟩ := List.exists_cons_of_ne_nil
      (show s0.reverse ≠ [] by simp [hs0ne])
    have hxw : isWSChar x = false :=
      dropWhile_fix_head x t (hx ▸ (trim_fixed_parts s0 hs0fix).2)
    refine ⟨x, t ++ tail, ?_, hxw⟩
    rw [List.map_nil, List.flatten_nil, List.reverse_nil, List.nil_append, hx,
      List.cons_append]
  | cons s1 r2 =>
    obtain ⟨c, u, hcu, hcw⟩ := flat_rev_head (s1 :: r2) hr (by simp)
    refine ⟨c, u ++ (s0.reverse ++ tail), ?_, hcw⟩
    rw [hcu, List.append_assoc, List.cons_append]

theorem parse_single_line (tbl : JSStr) (segs : List JSStr)
    (htne : tbl ≠ [])
    (htc : ∀ x ∈ tbl, isWSChar x = false ∧ x ≠ '|' ∧ x ≠ '\n')
    (hsegs : ∀ s ∈ segs, trimStr s = s ∧ s ≠ [] ∧ '|' ∉ s ∧ '\n' ∉ s) :
    parseKQLStatement (tbl ++ (segs.map (fun s => ' ' :: '|' :: ' ' :: s)).flatten)
      = .ok ⟨tbl, segs.filterMap parseKQLOperation⟩ := by
  obtain ⟨x, t, hx⟩ := List.exists_cons_of_ne_nil htne
  have hxw : isWSChar x = false :=
    (htc x (by rw [hx]; exact List.mem_cons_self x t)).1
  have hqne : (tbl ++ (segs.map (fun s => ' ' :: '|' :: ' ' :: s)).flatten) ≠ [] := by
    rw [hx]; simp
  have hnonl : '\n' ∉ (tbl ++ (segs.map (fun s => ' ' :: '|' :: ' ' :: s)).flatten) := by
    intro hm
    rcases List.mem_append.mp hm with h | h
    · exact ((htc _ h).2.2) rfl
    · obtain ⟨l, hl, hml⟩ := List.mem_flatten.mp h
      obtain ⟨s, hsm, rfl⟩ := List.mem_map.mp hl
      rcases List.mem_cons.mp hml with h1 | h1
      · exact absurd h1 (by decide)
      rcases List.mem_cons.mp h1 with h2 | h2
      · exact absurd h2 (by decide)
      rcases List.mem_cons.mp h2 with h3 | h3
      · exact absurd h3 (by decide)
      · exact (hsegs s hsm).2.2.2 h3
  have hqfix : trimStr (tbl ++ (segs.map (fun s => ' ' :: '|' :: ' ' :: s)).flatten)
      = tbl ++ (segs.map (fun s => ' ' :: '|' :: ' ' :: s)).flatten := by
    apply trimStr_of_fixed_ends
    · rw [hx, List.cons_append]
      exact List.dropWhile_cons_of_neg (by simp [hxw])
    · rw [List.reverse_append]
      cases hs0 : segs with
      | nil =>
        simp only [List.map_nil, List.flatten_nil, List.reverse_nil, List.nil_append]
        exact dropWhile_eq_self_of_all _
          (fun c hc => (htc c (List.mem_reverse.mp hc)).1)
      | cons s0 r =>
        obtain ⟨c, u, hcu, hcw⟩ := flat_rev_head (s0 :: r)
          (fun s hs => ⟨(hsegs s (hs0 ▸ hs)).1, (hsegs s (hs0 ▸ hs)).2.1⟩) (by simp)
        rw [hcu, List.cons_append]
        exact List.dropWhile_cons_of_neg (by simp [hcw])
  have hlines : ((splitOnChar '\n'
        (tbl ++ (segs.map (fun s => ' ' :: '|' :: ' ' :: s)).flatten)).map trimStr).filter
        (fun line => line ≠ [])
      = (tbl ++ (segs.map (fun s => ' ' :: '|' :: ' ' :: s)).flatten) :: [] := by
    rw [splitOnChar_of_not_mem _ _ hnonl, List.map_cons, List.map_nil, hqfix]
    simp [hqne]
  rw [parseKQLStatement_cons _ _ _ hlines]
  have htake : ((tbl ++ (segs.map (fun s => ' ' :: '|' :: ' ' :: s)).flatten).takeWhile
        (fun c => !isWSChar c)) = tbl := by
    rw [List.takeWhile_append_of_pos (fun a ha => by simp [(htc a ha).1])]
    cases segs with
    | nil => simp
    | cons s0 r =>
      rw [show ((s0 :: r).map (fun s => ' ' :: '|' :: ' ' :: s)).flatten
          = ' ' :: ('|' :: ' ' :: (s0 ++ (r.map (fun s => ' ' :: '|' :: ' ' :: s)).flatten))
          from rfl]
      rw [List.takeWhile_cons_of_neg (by decide)]
      simp
  rw [htake, List.drop_left, List.filterMap_nil]
  cases segs with
  | nil => rfl
  | cons s0 r =>
    obtain ⟨hs0fix, hs0ne, hs0np, _⟩ := hsegs s0 (List.mem_cons_self s0 r)
    rw [show ((s0 :: r).map (fun s => ' ' :: '|' :: ' ' :: s)).flatten
        = ' ' :: ('|' :: ' ' :: (s0 ++ (r.map (fun s => ' ' :: '|' :: ' ' :: s)).flatten))
        from rfl]
    have htrflat : trimStr (' ' :: ('|' :: ' ' ::
          (s0 ++ (r.map (fun s => ' ' :: '|' :: ' ' :: s)).flatten)))
        = '|' :: ' ' :: (s0 ++ (r.map (fun s => ' ' :: '|' :: ' ' :: s)).flatten) := by
      rw [trim_cons_ws ' ' _ (by decide)]
      apply trimStr_of_fixed_ends
      · exact List.dropWhile_cons_of_neg (by decide)
      · obtain ⟨c, u, hcu, hcw⟩ := rev_append_tail_fixed s0 r [' ', '|'] hs0fix hs0ne
          (fun s hs => ⟨(hsegs s (List.mem_cons_of_mem s0 hs)).1,
            (hsegs s (List.mem_cons_of_mem s0 hs)).2.1⟩)
        rw [show ('|' :: ' ' :: (s0 ++ (r.map (fun s => ' ' :: '|' :: ' ' :: s)).flatten)).reverse
            = (s0 ++ (r.map (fun s => ' ' :: '|' :: ' ' :: s)).flatten).reverse ++ [' ', '|']
            from by simp, hcu]
        exact List.dropWhile_cons_of_neg (by simp [hcw])
    rw [htrflat]
    rw [show beginsWith (jstr "|")
        ('|' :: ' ' :: (s0 ++ (r.map (fun s => ' ' :: '|' :: ' ' :: s)).flatten)) = true
        from rfl]
    rw [if_pos rfl]
    rw [show splitOnChar '|'
        ('|' :: ' ' :: (s0 ++ (r.map (fun s => ' ' :: '|' :: ' ' :: s)).flatten))
        = [] :: splitOnChar '|'
            (' ' :: (s0 ++ (r.map (fun s => ' ' :: '|' :: ' ' :: s)).flatten))
        from by rw [splitOnChar_cons, if_pos rfl]]
    have h0 : trimStr ([] : JSStr) = [] := rfl
    rw [show List.filter (fun part => decide (trimStr part ≠ []))
        (([] : JSStr) :: splitOnChar '|'
          (' ' :: (s0 ++ (r.map (fun s => ' ' :: '|' :: ' ' :: s)).flatten)))
        = List.filter (fun part => decide (trimStr part ≠ []))
          (splitOnChar '|'
            (' ' :: (s0 ++ (r.map (fun s => ' ' :: '|' :: ' ' :: s)).flatten)))
        from by rw [List.filter_cons]; simp [h0]]
    rw [chain_ops r
      (fun s hs => ⟨(hsegs s (List.mem_cons_of_mem s0 hs)).1,
        (hsegs s (List.mem_cons_of_mem s0 hs)).2.1,
        (hsegs s (List.mem_cons_of_mem s0 hs)).2.2.1⟩)
      s0 hs0fix hs0ne hs0np]
    rw [List.nil_append]

theorem parse_multi_line (tbl : JSStr) (segs : List JSStr)
    (htne : tbl ≠ [])
    (htc : ∀ x ∈ tbl, isWSChar x = false ∧ x ≠ '|' ∧ x ≠ '\n')
    (hsegs : ∀ s ∈ segs, trimStr s = s ∧ s ≠ [] ∧ '|' ∉ s ∧ '\n' ∉ s) :
    parseKQLStatement (tbl ++ (segs.map (fun s => '\n' :: '|' :: ' ' :: s)).flatten)
      = .ok ⟨tbl, segs.filterMap parseKQLOperation⟩ := by
  have hsplit : splitOnChar '\n'
      (tbl ++ (segs.map (fun s => '\n' :: '|' :: ' ' :: s)).flatten)
      = tbl :: segs.map (fun s => '|' :: ' ' :: s) := by
    rw [show segs.map (fun s => '\n' :: '|' :: ' ' :: s)
        = (segs.map (fun s => '|' :: ' ' :: s)).map (fun p => '\n' :: p)
        from by rw [List.map_map]; rfl]
    exact split_sep_flatten '\n' (segs.map (fun s => '|' :: ' ' :: s))
      (by
        intro p hp
        obtain ⟨s, hsm, rfl⟩ := List.mem_map.mp hp
        intro hmem
        rcases List.mem_cons.mp hmem with h | h
        · exact absurd h (by decide)
        rcases List.mem_cons.mp h with h2 | h2
        · exact absurd h2 (by decide)
        · exact (hsegs s hsm).2.2.2 h2)
      tbl (fun hmem => ((htc '\n' hmem).2.2) rfl)
  have htr_tbl : trimStr tbl = tbl :=
    trim_of_all_nonws tbl (fun y hy => (htc y hy).1)
  have hmapline : (segs.map (fun s => '|' :: ' ' :: s)).map trimStr
      = segs.map (fun s => '|' :: ' ' :: s) := by
    rw [List.map_map]
    exact List.map_congr_left (fun s hs => by
      show trimStr ('|' :: ' ' :: s) = '|' :: ' ' :: s
      obtain ⟨hfix, hne, _, _⟩ := hsegs s hs
      obtain ⟨hd, hr⟩ := trim_fixed_parts s hfix
      obtain ⟨y, u, hy⟩ := List.exists_cons_of_ne_nil
        (show s.reverse ≠ [] by simp [hne])
      have hyw : isWSChar y = false := dropWhile_fix_head y u (hy ▸ hr)
      apply trimStr_of_fixed_ends
      · exact List.dropWhile_cons_of_neg (by decide)
      · rw [show ('|' :: ' ' :: s).reverse = s.reverse ++ [' ', '|'] from by simp,
          hy, List.cons_append]
        exact List.dropWhile_cons_of_neg (by simp [hyw]))
  have hlines : ((splitOnChar '\n'
        (tbl ++ (segs.map (fun s => '\n' :: '|' :: ' ' :: s)).flatten)).map trimStr).filter
        (fun line => line ≠ [])
      = tbl :: segs.map (fun s => '|' :: ' ' :: s) := by
    rw [hsplit, List.map_cons, htr_tbl, hmapline]
    apply List.filter_eq_self.mpr
    intro a ha
    rcases List.mem_cons.mp ha with h | h
    · subst h; simp [htne]
    · obtain ⟨s, hsm, rfl⟩ := List.mem_map.mp h
      simp
  rw [parseKQLStatement_cons _ _ _ hlines]
  have htake : tbl.takeWhile (fun c => !isWSChar c) = tbl :=
    takeWhile_eq_self_of_all tbl (fun y hy => by simp [(htc y hy).1])
  rw [htake, List.drop_length]
  rw [show beginsWith (jstr "|") (trimStr ([] : JSStr)) = false from rfl]
  rw [if_neg (by decide), List.append_nil]
  rw [show (segs.map (fun s => '|' :: ' ' :: s)).filterMap
      (fun line => if beginsWith (jstr "|") line
        then parseKQLOperation (trimStr (line.drop 1)) else none)
      = segs.filterMap (fun s =>
          if beginsWith (jstr "|") ('|' :: ' ' :: s)
          then parseKQLOperation (trimStr (' ' :: s)) else none)
      from by rw [List.filterMap_map]; rfl]
  rw [filterMap_congr_mem _ parseKQLOperation segs (fun s hs => by
    rw [show beginsWith (jstr "|") ('|' :: ' ' :: s) = true from rfl, if_pos rfl,
      trim_cons_ws ' ' s (by decide), (hsegs s hs).1])]

/-- C2 (counterexample): in `T | top 3\n| where x > 5` the `top` segment is
chained after the table name and the `where` segment is on its own line, yet
the parsed operation list is `[where, top]` — the reverse of the left-to-right
textual order of the segments. -/
theorem c2_counterexample :
    parseKQLStatement (jstr "T | top 3\n| where x > 5")
      = .ok ⟨jstr "T", [.whereOp (jstr "x > 5"), .top 3 none]⟩ ∧
    [KQLOperation.whereOp (jstr "x > 5"), KQLOperation.top 3 none]
      ≠ [KQLOperation.top 3 none, KQLOperation.whereOp (jstr "x > 5")] :=
  ⟨rfl, by decide⟩

/-- C2 (amended, corrected claim): a `|`-prefixed segment is recognized both
when chained after the table name on the first line and when placed on its own
`|`-prefixed line, and within each placement style the operations appear in
left-to-right textual order.  (Operations from subsequent lines are collected
before first-line chained operations, so mixing the two styles can reorder: see
the counterexample.)  For a table name without whitespace, `|` or newline, and
trimmed non-empty segments without `|` or newline, both the all-chained query
`tbl | s1 | … | sn` and the one-per-line query `tbl\n| s1\n| …\n| sn` parse to
the table name and exactly `segs.filterMap parseKQLOperation`, in order. -/
theorem c2_segment_order_amended (tbl : JSStr) (segs : List JSStr)
    (htne : tbl ≠ [])
    (htc : ∀ x ∈ tbl, isWSChar x = false ∧ x ≠ '|' ∧ x ≠ '\n')
    (hsegs : ∀ s ∈ segs, trimStr s = s ∧ s ≠ [] ∧ '|' ∉ s ∧ '\n' ∉ s) :
    parseKQLStatement (tbl ++ (segs.map (fun s => ' ' :: '|' :: ' ' :: s)).flatten)
      = .ok ⟨tbl, segs.filterMap parseKQLOperation⟩ ∧
    parseKQLStatement (tbl ++ (segs.map (fun s => '\n' :: '|' :: ' ' :: s)).flatten)
      = .ok ⟨tbl, segs.filterMap parseKQLOperation⟩ :=
  ⟨parse_single_line tbl segs htne htc hsegs,
   parse_multi_line tbl segs htne htc hsegs⟩

/-- Witness for the amended C2 at `tbl = "T"`, `segs = ["where x > 5", "top 3"]`. -/
theorem c2_amended_witness :
    parseKQLStatement
        (jstr "T" ++ ([jstr "where x > 5", jstr "top 3"].map
          (fun s => ' ' :: '|' :: ' ' :: s)).flatten)
      = .ok ⟨jstr "T", [jstr "where x > 5", jstr "top 3"].filterMap parseKQLOperation⟩ ∧
    parseKQLStatement
        (jstr "T" ++ ([jstr "where x > 5", jstr "top 3"].map
          (fun s => '\n' :: '|' :: ' ' :: s)).flatten)
      = .ok ⟨jstr "T", [jstr "where x > 5", jstr "top 3"].filterMap parseKQLOperation⟩ :=
  c2_segment_order_amended (jstr "T") [jstr "where x > 5", jstr "top 3"]
    (by decide) (by decide) (by decide)

/-! ## C4: filter negation partition -/

theorem containsSub_cons_false (pat : JSStr) (c : Char) (s : JSStr)
    (h : containsSub pat (c :: s) = false) : containsSub pat s = false := by
  have h2 : (beginsWith pat (c :: s) || containsSub pat s) = false := h
  exact (Bool.or_eq_false_iff.mp h2).2

theorem evalCCFuel_leaf (now : Int) (row : Row) (f : Nat) (P : JSStr)
    (hor : containsSub (jstr " or ") P = false)
    (hand : containsSub (jstr " and ") P = false)
    (hpar : isParenWrapped P = false)
    (hnot : beginsWith (jstr "not ") (trimStr P) = false) :
    evalCCFuel now row (f + 1) P = evaluateLeafCondition now row P := by
  unfold evalCCFuel
  rw [hor, if_neg (by decide), hand, if_neg (by decide), hpar, if_neg (by decide),
    hnot, if_neg (by decide)]

theorem evalCC_not_step (now : Int) (row : Row) (P : JSStr)
    (htr : trimStr P = P) (hne : P ≠ [])
    (hnor : containsSub (jstr " or ") ('n' :: 'o' :: 't' :: ' ' :: P) = false)
    (hnand : containsSub (jstr " and ") ('n' :: 'o' :: 't' :: ' ' :: P) = false)
    (hpar : isParenWrapped P = false)
    (hnot : beginsWith (jstr "not ") P = false) :
    evaluateComplexCondition now row ('n' :: 'o' :: 't' :: ' ' :: P)
      = !evaluateComplexCondition now row P := by
  have hor : containsSub (jstr " or ") P = false :=
    containsSub_cons_false _ _ _ (containsSub_cons_false _ _ _
      (containsSub_cons_false _ _ _ (containsSub_cons_false _ _ _ hnor)))
  have hand : containsSub (jstr " and ") P = false :=
    containsSub_cons_false _ _ _ (containsSub_cons_false _ _ _
      (containsSub_cons_false _ _ _ (containsSub_cons_false _ _ _ hnand)))
  have hnotP : beginsWith (jstr "not ") (trimStr P) = false := by rw [htr]; exact hnot
  have htrnp : trimStr ('n' :: 'o' :: 't' :: ' ' :: P) = 'n' :: 'o' :: 't' :: ' ' :: P := by
    apply trimStr_of_fixed_ends
    · exact List.dropWhile_cons_of_neg (by decide)
    · obtain ⟨hd, hr⟩ := trim_fixed_parts P htr
      obtain ⟨x, u, hx⟩ := List.exists_cons_of_ne_nil
        (show P.reverse ≠ [] by simp [hne])
      have hxw := dropWhile_fix_head x u (hx ▸ hr)
      rw [show ('n' :: 'o' :: 't' :: ' ' :: P).reverse
          = P.reverse ++ [' ', 't', 'o', 'n'] from by simp, hx, List.cons_append]
      exact List.dropWhile_cons_of_neg (by simp [hxw])
  show evalCCFuel now row (('n' :: 'o' :: 't' :: ' ' :: P).length + 1)
      ('n' :: 'o' :: 't' :: ' ' :: P) = _
  rw [show ('n' :: 'o' :: 't' :: ' ' :: P).length + 1 = (P.length + 4) + 1 from by simp]
  unfold evalCCFuel
  rw [hnor, if_neg (by decide), hnand, if_neg (by decide),
    show isParenWrapped ('n' :: 'o' :: 't' :: ' ' :: P) = false from rfl,
    if_neg (by decide), htrnp,
    show beginsWith (jstr "not ") ('n' :: 'o' :: 't' :: ' ' :: P) = true from rfl,
    if_pos rfl,
    show ('n' :: 'o' :: 't' :: ' ' :: P).drop 4 = P from rfl]
  rw [show P.length + 4 = (P.length + 3) + 1 from rfl]
  rw [evalCCFuel_leaf now row (P.length + 3) P hor hand hpar hnotP]
  show _ = !evalCCFuel now row (P.length + 1) P
  rw [evalCCFuel_leaf now row P.length P hor hand hpar hnotP]

/-- C4 (counterexample): for `P = "a > 5 or b > 3"` and the row
`{a: 0, b: 10}`, both `where P` and `where not P` keep the row — `not P`
is split on ` or ` before the `not` is seen, so it negates only the first
disjunct.  The kept sets are not disjoint and their disjoint union has the
row twice. -/
theorem c4_counterexample :
    applyWhereOperation 0
        [[(jstr "a", some (.num (.rat 0))), (jstr "b", some (.num (.rat 10)))]]
        (jstr "a > 5 or b > 3")
      = [[(jstr "a", some (.num (.rat 0))), (jstr "b", some (.num (.rat 10)))]] ∧
    applyWhereOperation 0
        [[(jstr "a", some (.num (.rat 0))), (jstr "b", some (.num (.rat 10)))]]
        (jstr "not a > 5 or b > 3")
      = [[(jstr "a", some (.num (.rat 0))), (jstr "b", some (.num (.rat 10)))]] :=
  ⟨rfl, rfl⟩

/-- C4 (amended, corrected claim): the negation partition holds for
conditions that reach the `not` branch: if `P` is trimmed and non-empty,
`not P` contains no ` or `/` and ` separator, `P` is not
parenthesis-wrapped, and `P` does not itself start with `not `, then
`where P` and `where not P` keep disjoint row sets whose concatenation is
a permutation of the input.  (For a `P` with a top-level ` or `/` and `,
the `not` prefix binds to the first operand only and the partition
fails: see the counterexample.) -/
theorem c4_negation_partition_amended (now : Int) (data : List Row) (P : JSStr)
    (htr : trimStr P = P) (hne : P ≠ [])
    (hnor : containsSub (jstr " or ") ('n' :: 'o' :: 't' :: ' ' :: P) = false)
    (hnand : containsSub (jstr " and ") ('n' :: 'o' :: 't' :: ' ' :: P) = false)
    (hpar : isParenWrapped P = false)
    (hnot : beginsWith (jstr "not ") P = false) :
    (∀ row, row ∈ applyWhereOperation now data P →
        row ∈ applyWhereOperation now data ('n' :: 'o' :: 't' :: ' ' :: P) → False) ∧
    List.Perm (applyWhereOperation now data P
        ++ applyWhereOperation now data ('n' :: 'o' :: 't' :: ' ' :: P)) data := by
  have hkey : ∀ row, evaluateComplexCondition now row ('n' :: 'o' :: 't' :: ' ' :: P)
      = !evaluateComplexCondition now row P :=
    fun row => evalCC_not_step now row P htr hne hnor hnand hpar hnot
  have hnp : applyWhereOperation now data ('n' :: 'o' :: 't' :: ' ' :: P)
      = data.filter (fun row => !evaluateComplexCondition now row P) :=
    List.filter_congr (fun row _ => hkey row)
  constructor
  · intro row h1 h2
    have hp1 := (List.mem_filter.mp h1).2
    rw [hnp] at h2
    have hp2 := (List.mem_filter.mp h2).2
    rw [hp1] at hp2
    exact absurd hp2 (by decide)
  · rw [hnp]
    exact List.filter_append_perm _ data

/-- Witness for the amended C4 at `P = "a > 5"` over one row `{a: 1}`. -/
theorem c4_amended_witness :
    (∀ row, row ∈ applyWhereOperation 0 [[(jstr "a", some (Value.num (JSNum.rat 1)))]]
        (jstr "a > 5") →
      row ∈ applyWhereOperation 0 [[(jstr "a", some (Value.num (JSNum.rat 1)))]]
        ('n' :: 'o' :: 't' :: ' ' :: jstr "a > 5") → False) ∧
    List.Perm (applyWhereOperation 0 [[(jstr "a", some (Value.num (JSNum.rat 1)))]]
        (jstr "a > 5")
      ++ applyWhereOperation 0 [[(jstr "a", some (Value.num (JSNum.rat 1)))]]
        ('n' :: 'o' :: 't' :: ' ' :: jstr "a > 5"))
      [[(jstr "a", some (Value.num (JSNum.rat 1)))]] :=
  c4_negation_partition_amended 0 [[(jstr "a", some (Value.num (JSNum.rat 1)))]]
    (jstr "a > 5") (by decide) (by decide) (by decide) (by decide) (by decide) (by decide)

/-! ## C10: group-by columns are strings -/

theorem splitOnChar_ne_nil (c : Char) (s : JSStr) : splitOnChar c s ≠ [] := by
  cases s with
  | nil => simp [splitOnChar]
  | cons x xs =>
    rw [splitOnChar_cons]
    by_cases hx : x = c
    · simp [hx]
    · rw [if_neg hx]
      rcases hr : splitOnChar c xs with _ | ⟨h, t⟩ <;> simp

theorem splitOnChar_length (c : Char) (s : JSStr) :
    (splitOnChar c s).length = s.count c + 1 := by
  induction s with
  | nil => rfl
  | cons x xs ih =>
    rw [splitOnChar_cons, List.count_cons]
    by_cases hx : x = c
    · rw [if_pos hx, if_pos (by simp [hx]), List.length_cons, ih]
    · rw [if_neg hx, if_neg (by simp [hx])]
      rcases hr : splitOnChar c xs with _ | ⟨h, t⟩
      · exact absurd hr (splitOnChar_ne_nil c xs)
      · rw [hr] at ih
        simp only [List.length_cons] at ih ⊢
        omega

theorem count_joinWithChar (c : Char) : ∀ comps : List JSStr,
    comps.length ≤ (joinWithChar c comps).count c + 1 := by
  intro comps
  induction comps with
  | nil => simp
  | cons s rest ih =>
    cases rest with
    | nil => simp
    | cons r t =>
      rw [show joinWithChar c (s :: r :: t) = s ++ c :: joinWithChar c (r :: t) from rfl,
        List.count_append, List.count_cons]
      simp only [List.length_cons] at ih ⊢
      have : (c == c) = true := by simp
      rw [this, if_pos rfl]
      omega

theorem exceptBind_ok {α β : Type} (m : Except ExecError α) (k : α → Except ExecError β)
    (b : β) (h : (m >>= k) = .ok b) : ∃ a, m = .ok a ∧ k a = .ok b := by
  cases m with
  | error e => exact absurd h (by simp [Bind.bind, Except.bind])
  | ok a => exact ⟨a, rfl, by simpa [Bind.bind, Except.bind] using h⟩

theorem mapM_except_length {α β : Type} (f : α → Except ExecError β) :
    ∀ (l : List α) (out : List β), l.mapM f = .ok out → out.length = l.length := by
  intro l
  induction l with
  | nil =>
    intro out h
    rw [List.mapM_nil] at h
    have h2 : Except.ok ([] : List β) = Except.ok out := h
    cases h2
    rfl
  | cons x xs ih =>
    intro out h
    rw [List.mapM_cons] at h
    obtain ⟨b, hb, h2⟩ := exceptBind_ok _ _ _ h
    obtain ⟨bs, hbs, h3⟩ := exceptBind_ok _ _ _ h2
    have h4 : Except.ok (b :: bs) = Except.ok out := h3
    cases h4
    simp [ih bs hbs]

theorem groupKeyOf_split_len (groupBy : List JSStr) (row : Row) (key : JSStr)
    (h : groupKeyOf groupBy row = .ok key) :
    groupBy.length ≤ (splitOnChar '|' key).length := by
  unfold groupKeyOf at h
  obtain ⟨parts, hparts, h2⟩ := exceptBind_ok _ _ _ h
  have h3 : Except.ok (joinWithChar '|' parts) = Except.ok key := h2
  cases h3
  rw [splitOnChar_length]
  have hlen := mapM_except_length _ _ _ hparts
  have hcnt := count_joinWithChar '|' parts
  omega

theorem mem_enumFrom_facts : ∀ (l : List JSStr) (k : Nat) (p : Nat × JSStr),
    p ∈ List.enumFrom k l → p.1 < k + l.length ∧ p.2 ∈ l := by
  intro l
  induction l with
  | nil => intro k p hp; exact absurd hp (List.not_mem_nil p)
  | cons x xs ih =>
    intro k p hp
    rw [List.enumFrom_cons] at hp
    rcases List.mem_cons.mp hp with h | h
    · subst h
      exact ⟨by simp, List.mem_cons_self x xs⟩
    · obtain ⟨h1, h2⟩ := ih (k + 1) p h
      exact ⟨by simp at h1 ⊢; omega, List.mem_cons_of_mem x h2⟩

theorem exists_mem_enumFrom : ∀ (l : List JSStr) (k : Nat) (col : JSStr), col ∈ l →
    ∃ i, (i, col) ∈ List.enumFrom k l := by
  intro l
  induction l with
  | nil => intro k col h; exact absurd h (List.not_mem_nil col)
  | cons x xs ih =>
    intro k col h
    rcases List.mem_cons.mp h with h1 | h1
    · exact ⟨k, by rw [List.enumFrom_cons]; exact List.mem_cons.mpr (Or.inl (by rw [h1]))⟩
    · obtain ⟨i, hi⟩ := ih (k + 1) col h1
      exact ⟨i, by rw [List.enumFrom_cons]; exact List.mem_cons_of_mem _ hi⟩

theorem rowEntry_pairsFold_not_mem (parts : List JSStr) :
    ∀ (ps : List (Nat × JSStr)) (acc : Row) (col : JSStr),
    (∀ p ∈ ps, p.2 ≠ col) →
    rowEntry (ps.foldl (fun acc e => setKey acc e.2
      (match parts.get? e.1 with | some s => some (.str s) | none => none)) acc) col
      = rowEntry acc col := by
  intro ps
  induction ps with
  | nil => intro acc col _; rfl
  | cons p ps' ih =>
    intro acc col h
    rw [List.foldl_cons, ih _ col (fun q hq => h q (List.mem_cons_of_mem p hq))]
    exact rowEntry_setKey_ne acc p.2 col _ (Ne.symm (h p (List.mem_cons_self p ps')))

theorem rowEntry_pairsFold_mem (parts : List JSStr) :
    ∀ (ps : List (Nat × JSStr)) (acc : Row) (col : JSStr),
    (∃ p ∈ ps, p.2 = col) → (∀ p ∈ ps, p.1 < parts.length) →
    ∃ s, rowEntry (ps.foldl (fun acc e => setKey acc e.2
      (match parts.get? e.1 with | some s => some (.str s) | none => none)) acc) col
      = some (some (Value.str s)) := by
  intro ps
  induction ps with
  | nil =>
    intro acc col h _
    obtain ⟨p, hp, _⟩ := h
    exact absurd hp (List.not_mem_nil p)
  | cons p ps' ih =>
    intro acc col hex hlt
    rw [List.foldl_cons]
    by_cases hex2 : ∃ q ∈ ps', q.2 = col
    · exact ih _ col hex2 (fun q hq => hlt q (List.mem_cons_of_mem p hq))
    · have hp2 : p.2 = col := by
        obtain ⟨q, hq, hq2⟩ := hex
        rcases List.mem_cons.mp hq with h1 | h1
        · rw [← h1]; exact hq2
        · exact absurd ⟨q, h1, hq2⟩ hex2
      have hnot : ∀ q ∈ ps', q.2 ≠ col := fun q hq hqc => hex2 ⟨q, hq, hqc⟩
      rw [rowEntry_pairsFold_not_mem parts ps' _ col hnot, hp2]
      have hlt1 : p.1 < parts.length := hlt p (List.mem_cons_self p ps')
      cases hget : parts.get? p.1 with
      | none =>
        have h2 := List.get?_eq_none.mp hget
        omega
      | some s =>
        exact ⟨s, rowEntry_setKey_self acc col (some (.str s))⟩

theorem rowEntry_groupByColumns (groupBy parts : List JSStr) (col : JSStr)
    (hcol : col ∈ groupBy) (hlen : groupBy.length ≤ parts.length) :
    ∃ s, rowEntry (groupByColumns groupBy parts) col = some (some (Value.str s)) := by
  unfold groupByColumns
  apply rowEntry_pairsFold_mem
  · obtain ⟨i, hi⟩ := exists_mem_enumFrom groupBy 0 col hcol
    exact ⟨(i, col), hi, rfl⟩
  · intro p hp
    have h1 := (mem_enumFrom_facts groupBy 0 p hp).1
    omega

theorem groups_keys_len (groupBy : List JSStr) :
    ∀ (data : List Row) (gs groups : List (JSStr × List Row)),
    (∀ g ∈ gs, groupBy.length ≤ (splitOnChar '|' g.1).length) →
    data.foldlM (fun gs row => do
      let key ← groupKeyOf groupBy row
      pure (insertGroup gs key row)) gs = .ok groups →
    ∀ g ∈ groups, groupBy.length ≤ (splitOnChar '|' g.1).length := by
  intro data
  induction data with
  | nil =>
    intro gs groups hgs h
    have h2 : Except.ok gs = Except.ok groups := h
    cases h2
    exact hgs
  | cons row rows ih =>
    intro gs groups hgs h
    rw [List.foldlM_cons] at h
    obtain ⟨gs2, hstep, hrest⟩ := exceptBind_ok _ _ _ h
    obtain ⟨key, hkey, hpure⟩ := exceptBind_ok _ _ _ hstep
    have h3 : Except.ok (insertGroup gs key row) = Except.ok gs2 := hpure
    cases h3
    apply ih _ groups _ hrest
    intro g hg
    unfold insertGroup at hg
    by_cases hany : gs.any (fun g => g.1 = key) = true
    · rw [if_pos hany] at hg
      obtain ⟨g0, hg0, hmap⟩ := List.mem_map.mp hg
      by_cases he : g0.1 = key
      · rw [if_pos he] at hmap
        rw [← hmap]
        exact hgs g0 hg0
      · rw [if_neg he] at hmap
        rw [← hmap]
        exact hgs g0 hg0
    · rw [if_neg hany] at hg
      rcases List.mem_append.mp hg with h1 | h1
      · exact hgs g h1
      · have h2 := List.mem_singleton.mp h1
        rw [h2]
        exact groupKeyOf_split_len groupBy row key hkey

/-- C10 (counterexample): `summarize count() by count()` over one row — the
aggregation spec collides with the group-by column name, so the group-by
column of the output row ends up holding the numeric aggregate `1`, not a
string. -/
theorem c10_counterexample :
    applySummarizeOperation [[(jstr "x", some (.num (.rat 1)))]]
        [jstr "count()"] [jstr "count()"]
      = .ok [[(jstr "count()", some (.num (.rat 1)))]] ∧
    ∀ s : JSStr, (some (some (Value.num (JSNum.rat 1))) : Option (Option Value))
      ≠ some (some (Value.str s)) :=
  ⟨rfl, fun s h => Value.noConfusion (Option.some.inj (Option.some.inj h))⟩

/-- C10 (amended, corrected claim): for a summarize with non-empty group-by,
every group-by column of every output row holds a string (the stringified
group-key component, or the bin key string) — provided no group-by column
name is also an aggregation spec; a colliding aggregation spec overwrites
the string with the typed aggregate (see the counterexample). -/
theorem c10_groupby_strings_amended (data : List Row) (aggs groupBy : List JSStr)
    (rows : List Row) (hgb : groupBy ≠ [])
    (hnoagg : ∀ col ∈ groupBy, col ∉ aggs)
    (hok : applySummarizeOperation data aggs groupBy = .ok rows) :
    ∀ out ∈ rows, ∀ col ∈ groupBy, ∃ s, rowEntry out col = some (some (Value.str s)) := by
  unfold applySummarizeOperation at hok
  have hemp : groupBy.isEmpty = false := by
    cases groupBy with
    | nil => exact absurd rfl hgb
    | cons a b => rfl
  rw [hemp, if_neg (by decide)] at hok
  obtain ⟨groups, hfold, hpure⟩ := exceptBind_ok _ _ _ hok
  have hrows : Except.ok (jsArraySort (rowCompareLe (groupBy.headD []) false)
      (groups.map (fun g =>
        aggFold g.2 aggs (groupByColumns groupBy (splitOnChar '|' g.1)))))
      = Except.ok rows := hpure
  have hrows2 : rows = jsArraySort (rowCompareLe (groupBy.headD []) false)
      (groups.map (fun g =>
        aggFold g.2 aggs (groupByColumns groupBy (splitOnChar '|' g.1)))) := by
    cases hrows
    rfl
  subst hrows2
  intro out hout col hcol
  have hout2 : out ∈ groups.map (fun g =>
      aggFold g.2 aggs (groupByColumns groupBy (splitOnChar '|' g.1))) :=
    mem_jsArraySort.mp hout
  obtain ⟨g, hgm, hgeq⟩ := List.mem_map.mp hout2
  have hglen := groups_keys_len groupBy data [] groups
    (fun g hg => absurd hg (List.not_mem_nil g)) hfold g hgm
  rw [← hgeq, rowEntry_aggFold_not_mem g.2 aggs _ col (hnoagg col hcol)]
  exact rowEntry_groupByColumns groupBy (splitOnChar '|' g.1) col hcol hglen

/-- Witness for the amended C10: `summarize avg(x) by x` over one row
`{x: 1}` yields one output row whose `x` column holds the string `"1"`. -/
theorem c10_amended_witness :
    ∃ s, rowEntry [(jstr "x", some (Value.str (jstr "1"))),
        (jstr "avg(x)", some (Value.num (JSNum.rat 1)))] (jstr "x")
      = some (some (Value.str s)) :=
  c10_groupby_strings_amended [[(jstr "x", some (.num (.rat 1)))]]
    [jstr "avg(x)"] [jstr "x"]
    [[(jstr "x", some (.str (jstr "1"))), (jstr "avg(x)", some (.num (.rat 1)))]]
    (by decide) (by decide) (by rfl)
    [(jstr "x", some (.str (jstr "1"))), (jstr "avg(x)", some (.num (.rat 1)))]
    (List.mem_singleton.mpr rfl)
    (jstr "x") (List.mem_singleton.mpr rfl)

/-! ## C8: order preservation outside sort/top/summarize -/

theorem rowEntry_none_iff (row : Row) (k : JSStr) :
    rowEntry row k = none ↔ ∀ e ∈ row, e.1 ≠ k := by
  unfold rowEntry
  simp [List.find?_eq_none]

theorem rowEntry_filter_none (b : Row) (p : (JSStr × Option Value) → Bool) (k : JSStr)
    (hb : rowEntry b k = none) : rowEntry (b.filter p) k = none := by
  rw [rowEntry_none_iff] at hb ⊢
  exact fun e he => hb e (List.mem_of_mem_filter he)

theorem rowEntry_map_keylocal (f : (JSStr × Option Value) → (JSStr × Option Value))
    (a : Row) (k : JSStr)
    (hkeys : ∀ e, (f e).1 = e.1) (hfix : ∀ e, e.1 = k → f e = e) :
    rowEntry (a.map f) k = rowEntry a k := by
  induction a with
  | nil => rfl
  | cons e rest ih =>
    rw [List.map_cons]
    by_cases hek : e.1 = k
    · rw [hfix e hek, rowEntry_cons_self e _ k hek, rowEntry_cons_self e _ k hek]
    · rw [rowEntry_cons_ne _ _ _ (by rw [hkeys e]; exact hek),
        rowEntry_cons_ne _ _ _ hek, ih]

theorem rowEntry_mergeRow_absent (a b : Row) (k : JSStr)
    (hb : rowEntry b k = none) : rowEntry (mergeRow a b) k = rowEntry a k := by
  unfold mergeRow
  rw [rowEntry_append]
  rw [rowEntry_map_keylocal _ a k
    (fun e => by cases hre : rowEntry b e.1 <;> rfl)
    (fun e he => by rw [he, hb])]
  cases hra : rowEntry a k with
  | some jv => rfl
  | none => exact rowEntry_filter_none b _ k hb

theorem jsIndex_mergeRow_absent (a b : Row) (k : JSStr)
    (hb : rowEntry b k = none) : jsIndex (mergeRow a b) k = jsIndex a k := by
  unfold jsIndex
  rw [rowEntry_mergeRow_absent a b k hb]

theorem rowEntry_nullRowOf_none (rows : List Row) (k : JSStr)
    (h : ∀ r ∈ rows, rowEntry r k = none) : rowEntry (nullRowOf rows) k = none := by
  unfold nullRowOf
  cases rows with
  | nil => rfl
  | cons r0 rest =>
    rw [rowEntry_none_iff]
    intro e he
    obtain ⟨e0, he0, rfl⟩ := List.mem_map.mp he
    exact (rowEntry_none_iff r0 k).mp (h r0 (List.mem_cons_self r0 rest)) e0 he0

theorem pairwise_tagLe_flatMap (tcol : JSStr) (leftData : List Row) (f : Row → List Row)
    (htags : List.Pairwise (tagLe tcol) leftData)
    (htagq : ∀ l ∈ leftData, ∃ q : ℚ, jsIndex l tcol = some (Value.num (JSNum.rat q)))
    (hblock : ∀ l ∈ leftData, ∀ o ∈ f l, jsIndex o tcol = jsIndex l tcol) :
    List.Pairwise (tagLe tcol) (leftData.flatMap f) := by
  induction leftData with
  | nil => exact List.Pairwise.nil
  | cons l rest ih =>
    rw [List.flatMap_cons]
    rw [List.pairwise_append]
    obtain ⟨hl, hrest⟩ := List.pairwise_cons.mp htags
    obtain ⟨q, hq⟩ := htagq l (List.mem_cons_self l rest)
    refine ⟨?_, ?_, ?_⟩
    · apply List.pairwise_of_forall_mem_list
      intro a ha b hb
      refine ⟨q, q, ?_, ?_, le_refl q⟩
      · rw [hblock l (List.mem_cons_self l rest) a ha]; exact hq
      · rw [hblock l (List.mem_cons_self l rest) b hb]; exact hq
    · exact ih hrest (fun l2 h2 => htagq l2 (List.mem_cons_of_mem l h2))
        (fun l2 h2 => hblock l2 (List.mem_cons_of_mem l h2))
    · intro a ha b hb
      obtain ⟨l2, hl2, hb2⟩ := List.mem_flatMap.mp hb
      obtain ⟨qa, qb, ha1, hb1, hle⟩ := hl l2 hl2
      refine ⟨qa, qb, ?_, ?_, hle⟩
      · rw [hblock l (List.mem_cons_self l rest) a ha]; exact ha1
      · rw [hblock l2 (List.mem_cons_of_mem l hl2) b hb2]; exact hb1

theorem distinctGo_sublist (columns : List JSStr) :
    ∀ (data : List Row) (seen : List JSStr),
    List.Sublist (distinctGo columns data seen) data := by
  intro data
  induction data with
  | nil => intro seen; exact List.Sublist.refl []
  | cons row rest ih =>
    intro seen
    unfold distinctGo
    by_cases h : seen.any (fun s => s = distinctKeyOf columns row) = true
    · rw [if_pos h]
      exact List.Sublist.cons row (ih seen)
    · rw [if_neg h]
      exact List.Sublist.cons₂ row (ih _)

theorem mapM_except_forall {α β : Type} (f : α → Except ExecError β) :
    ∀ (l : List α) (out : List β), l.mapM f = .ok out →
    List.Forall₂ (fun a b => f a = .ok b) l out := by
  intro l
  induction l with
  | nil =>
    intro out h
    rw [List.mapM_nil] at h
    have h2 : Except.ok ([] : List β) = Except.ok out := h
    cases h2
    exact List.Forall₂.nil
  | cons x xs ih =>
    intro out h
    rw [List.mapM_cons] at h
    obtain ⟨b, hb, h2⟩ := exceptBind_ok _ _ _ h
    obtain ⟨bs, hbs, h3⟩ := exceptBind_ok _ _ _ h2
    have h4 : Except.ok (b :: bs) = Except.ok out := h3
    cases h4
    exact List.Forall₂.cons hb (ih bs hbs)

/-- C8 (counterexample): a `kind=right` join iterates the right table in
the outer loop, so two left rows (tagged `t = 1` and `t = 2`, in that
input order) contribute output rows in right-table order `[2, 1]` — the
left rows' relative order is not preserved. -/
theorem c8_counterexample :
    (performJoin
        [[(jstr "k", some (.num (.rat 1))), (jstr "t", some (.num (.rat 1)))],
         [(jstr "k", some (.num (.rat 2))), (jstr "t", some (.num (.rat 2)))]]
        [[(jstr "k", some (.num (.rat 2)))], [(jstr "k", some (.num (.rat 1)))]]
        (jstr "k") (jstr "k") (jstr "right")).map (fun r => jsIndex r (jstr "t"))
      = [some (.num (.rat 2)), some (.num (.rat 1))] ∧
    ([some (Value.num (JSNum.rat 2)), some (Value.num (JSNum.rat 1))]
      ≠ [some (Value.num (JSNum.rat 1)), some (Value.num (JSNum.rat 2))]) :=
  ⟨rfl, fun h => by
    injection h with h1 h2
    injection h1 with h3
    injection h3 with h4
    injection h4 with h5
    exact absurd h5 (by decide)⟩

/-- C8 (amended, corrected claim): filter and distinct emit sublists of
their input; project and extend transform rows in place; bin (when it
succeeds) transforms rows in place; union keeps the left rows as a
prefix; and inner joins, left joins and cross joins emit left rows in
left-table order (stated via a numeric tag column absent from the right
table).  Right/rightouter joins, however, iterate the right table in the
outer loop and need not preserve left-row order: see the counterexample. -/
theorem c8_order_preservation_amended
    (env : Env) (now : Int) (data : List Row)
    (cond : JSStr) (cols : List JSStr) (expr : JSStr) (tbl : JSStr)
    (leftData rightData : List Row) (lf rf tcol : JSStr)
    (htags : List.Pairwise (tagLe tcol) leftData)
    (htagq : ∀ l ∈ leftData, ∃ q : ℚ, jsIndex l tcol = some (Value.num (JSNum.rat q)))
    (habsent : ∀ r ∈ rightData, rowEntry r tcol = none) :
    List.Sublist (applyWhereOperation now data cond) data ∧
    List.Sublist (applyDistinctOperation data cols) data ∧
    (∀ i : Nat, (applyProjectOperation data cols).get? i
      = (data.get? i).map (projectRow cols)) ∧
    (∀ i : Nat, (applyExtendOperation data expr).get? i
      = (data.get? i).map (fun row =>
          match firstScan tryAssignment expr with
          | some p => setKey row p.1 (evaluateExpression row p.2)
          | none => row)) ∧
    (∀ out, applyBinOperation data expr = .ok out →
      List.Forall₂ (fun r o => o = r ∨ ∃ f2 bv,
        o = setKey r (jstr "bin_" ++ f2) (some (Value.str bv))) data out) ∧
    (∀ out, applyUnionOperation env leftData tbl = .ok out →
      List.IsPrefix leftData out) ∧
    List.Pairwise (tagLe tcol) (performJoin leftData rightData lf rf (jstr "inner")) ∧
    List.Pairwise (tagLe tcol) (performJoin leftData rightData lf rf (jstr "left")) ∧
    List.Pairwise (tagLe tcol)
      (leftData.flatMap (fun l => rightData.map (fun r => mergeRow l r))) := by
  refine ⟨List.filter_sublist data, distinctGo_sublist cols data [],
    fun i => List.get?_map _ _ _, ?_, ?_, ?_, ?_, ?_, ?_⟩
  · intro i
    unfold applyExtendOperation
    cases hscan : firstScan tryAssignment expr with
    | some p =>
      obtain ⟨nf, e⟩ := p
      exact List.get?_map _ _ _
    | none =>
      cases data.get? i <;> rfl
  · intro out hok
    unfold applyBinOperation at hok
    cases hscan : firstScan tryBin expr with
    | none =>
      rw [hscan] at hok
      have h2 : Except.ok data = Except.ok out := hok
      cases h2
      exact List.forall₂_same.mpr (fun r _ => Or.inl rfl)
    | some p =>
      obtain ⟨field, iv⟩ := p
      rw [hscan] at hok
      refine (mapM_except_forall _ data out hok).imp ?_
      intro r o h
      obtain ⟨bv, hbv, hpure⟩ := exceptBind_ok _ _ _ h
      have h2 : Except.ok (setKey r (jstr "bin_" ++ field) (some (Value.str bv)))
          = Except.ok o := hpure
      cases h2
      exact Or.inr ⟨field, bv, rfl⟩
  · intro out hok
    unfold applyUnionOperation at hok
    obtain ⟨rd, hrd, hpure⟩ := exceptBind_ok _ _ _ hok
    have h2 : Except.ok (leftData ++ rd) = Except.ok out := hpure
    cases h2
    exact ⟨rd, rfl⟩
  · have hinner : performJoin leftData rightData lf rf (jstr "inner")
        = leftData.flatMap (fun l => rightData.filterMap (fun r =>
            if jsStrictEqV (jsIndex l lf) (jsIndex r rf) then
              some (mergeRow l r) else none)) := rfl
    rw [hinner]
    apply pairwise_tagLe_flatMap tcol leftData _ htags htagq
    intro l hl o ho
    obtain ⟨r, hr, hro⟩ := List.mem_filterMap.mp ho
    by_cases hceq : jsStrictEqV (jsIndex l lf) (jsIndex r rf) = true
    · rw [if_pos hceq] at hro
      have h2 : mergeRow l r = o := Option.some.inj hro
      rw [← h2]
      exact jsIndex_mergeRow_absent l r tcol (habsent r hr)
    · rw [if_neg hceq] at hro
      exact Option.noConfusion hro
  · have hleft : performJoin leftData rightData lf rf (jstr "left")
        = leftData.flatMap (fun l =>
            let ms := rightData.filterMap (fun r =>
              if jsStrictEqV (jsIndex l lf) (jsIndex r rf) then
                some (mergeRow l r) else none)
            if ms.isEmpty then [mergeRow l (nullRowOf rightData)] else ms) := rfl
    rw [hleft]
    apply pairwise_tagLe_flatMap tcol leftData _ htags htagq
    intro l hl o ho
    dsimp only at ho
    by_cases hemp : (rightData.filterMap (fun r =>
        if jsStrictEqV (jsIndex l lf) (jsIndex r rf) then
          some (mergeRow l r) else none)).isEmpty = true
    · rw [if_pos hemp] at ho
      have h2 := List.mem_singleton.mp ho
      rw [h2]
      exact jsIndex_mergeRow_absent l (nullRowOf rightData) tcol
        (rowEntry_nullRowOf_none rightData tcol habsent)
    · rw [if_neg hemp] at ho
      obtain ⟨r, hr, hro⟩ := List.mem_filterMap.mp ho
      by_cases hceq : jsStrictEqV (jsIndex l lf) (jsIndex r rf) = true
      · rw [if_pos hceq] at hro
        have h2 : mergeRow l r = o := Option.some.inj hro
        rw [← h2]
        exact jsIndex_mergeRow_absent l r tcol (habsent r hr)
      · rw [if_neg hceq] at hro
        exact Option.noConfusion hro
  · apply pairwise_tagLe_flatMap tcol leftData _ htags htagq
    intro l hl o ho
    obtain ⟨r, hr, hro⟩ := List.mem_map.mp ho
    rw [← hro]
    exact jsIndex_mergeRow_absent l r tcol (habsent r hr)

/-- Witness for the amended C8: two tagged left rows and one right row. -/
theorem c8_amended_witness :
    List.Sublist (applyWhereOperation 0 [] (jstr "")) [] ∧
    List.Sublist (applyDistinctOperation [] []) [] ∧
    (∀ i : Nat, (applyProjectOperation [] []).get? i
      = (([] : List Row).get? i).map (projectRow [])) ∧
    (∀ i : Nat, (applyExtendOperation [] (jstr "")).get? i
      = (([] : List Row).get? i).map (fun row =>
          match firstScan tryAssignment (jstr "") with
          | some p => setKey row p.1 (evaluateExpression row p.2)
          | none => row)) ∧
    (∀ out, applyBinOperation [] (jstr "") = .ok out →
      List.Forall₂ (fun r o => o = r ∨ ∃ f2 bv,
        o = setKey r (jstr "bin_" ++ f2) (some (Value.str bv))) [] out) ∧
    (∀ out, applyUnionOperation ⟨[], [], [], [], [], []⟩
        [[(jstr "t", some (Value.num (JSNum.rat 1)))],
         [(jstr "t", some (Value.num (JSNum.rat 2)))]] (jstr "x") = .ok out →
      List.IsPrefix
        [[(jstr "t", some (Value.num (JSNum.rat 1)))],
         [(jstr "t", some (Value.num (JSNum.rat 2)))]] out) ∧
    List.Pairwise (tagLe (jstr "t"))
      (performJoin
        [[(jstr "t", some (Value.num (JSNum.rat 1)))],
         [(jstr "t", some (Value.num (JSNum.rat 2)))]]
        [[(jstr "k", some (Value.num (JSNum.rat 1)))]]
        (jstr "t") (jstr "k") (jstr "inner")) ∧
    List.Pairwise (tagLe (jstr "t"))
      (performJoin
        [[(jstr "t", some (Value.num (JSNum.rat 1)))],
         [(jstr "t", some (Value.num (JSNum.rat 2)))]]
        [[(jstr "k", some (Value.num (JSNum.rat 1)))]]
        (jstr "t") (jstr "k") (jstr "left")) ∧
    List.Pairwise (tagLe (jstr "t"))
      ([[(jstr "t", some (Value.num (JSNum.rat 1)))],
        [(jstr "t", some (Value.num (JSNum.rat 2)))]].flatMap
        (fun l => [[(jstr "k", some (Value.num (JSNum.rat 1)))]].map
          (fun r => mergeRow l r))) :=
  c8_order_preservation_amended ⟨[], [], [], [], [], []⟩ 0 [] (jstr "") [] (jstr "")
    (jstr "x")
    [[(jstr "t", some (Value.num (JSNum.rat 1)))],
     [(jstr "t", some (Value.num (JSNum.rat 2)))]]
    [[(jstr "k", some (Value.num (JSNum.rat 1)))]]
    (jstr "t") (jstr "k") (jstr "t")
    (by
      constructor
      · intro b hb
        have h2 := List.mem_singleton.mp hb
        subst h2
        exact ⟨1, 2, rfl, rfl, by norm_num⟩
      · constructor
        · intro b hb
          exact absurd hb (List.not_mem_nil b)
        · exact List.Pairwise.nil)
    (by
      intro l hl
      rcases List.mem_cons.mp hl with h1 | h1
      · exact ⟨1, by subst h1; rfl⟩
      · have h2 := List.mem_singleton.mp h1
        exact ⟨2, by subst h2; rfl⟩)
    (by
      intro r hr
      have h2 := List.mem_singleton.mp hr
      subst h2
      rfl)

/-! ## C3: errors are exactly unknown-table failures (modulo parse/bin) -/

theorem exceptBind_error {α β : Type} (m : Except ExecError α)
    (k : α → Except ExecError β) (e : ExecError) (h : (m >>= k) = .error e) :
    m = .error e ∨ ∃ a, m = .ok a ∧ k a = .error e := by
  cases m with
  | error e2 =>
    left
    have h2 : Except.error e2 = Except.error e := h
    cases h2
    rfl
  | ok a => exact Or.inr ⟨a, rfl, h⟩

theorem getTableData_unknown (env : Env) (t : JSStr)
    (h : isKnownTableName t = false) :
    getTableData env t = .error (.unknownTable t) := by
  have h0 : (decide (lowerStr t = jstr "batteryreadings") ||
      decide (lowerStr t = jstr "vesselinfo") ||
      decide (lowerStr t = jstr "vesselmaintenance") ||
      decide (lowerStr t = jstr "weatherdata") ||
      decide (lowerStr t = jstr "navigationdata") ||
      decide (lowerStr t = jstr "alertsandevents")) = false := h
  simp only [Bool.or_eq_false_iff] at h0
  obtain ⟨⟨⟨⟨⟨h1, h2⟩, h3⟩, h4⟩, h5⟩, h6⟩ := h0
  unfold getTableData
  rw [if_neg (of_decide_eq_false h1), if_neg (of_decide_eq_false h2),
    if_neg (of_decide_eq_false h3), if_neg (of_decide_eq_false h4),
    if_neg (of_decide_eq_false h5), if_neg (of_decide_eq_false h6)]

theorem getTableData_known (env : Env) (t : JSStr)
    (h : isKnownTableName t = true) :
    ∃ rows, getTableData env t = .ok rows := by
  have h0 : (decide (lowerStr t = jstr "batteryreadings") ||
      decide (lowerStr t = jstr "vesselinfo") ||
      decide (lowerStr t = jstr "vesselmaintenance") ||
      decide (lowerStr t = jstr "weatherdata") ||
      decide (lowerStr t = jstr "navigationdata") ||
      decide (lowerStr t = jstr "alertsandevents")) = true := h
  simp only [Bool.or_eq_true, decide_eq_true_eq] at h0
  unfold getTableData
  rcases h0 with ((((h | h) | h) | h) | h) | h <;> rw [h]
  · rw [if_pos rfl]; exact ⟨env.battery, rfl⟩
  · rw [if_neg (by decide), if_pos rfl]; exact ⟨env.vessels, rfl⟩
  · rw [if_neg (by decide), if_neg (by decide), if_pos rfl]
    exact ⟨env.maintenance, rfl⟩
  · rw [if_neg (by decide), if_neg (by decide), if_neg (by decide), if_pos rfl]
    exact ⟨env.weather, rfl⟩
  · rw [if_neg (by decide), if_neg (by decide), if_neg (by decide),
      if_neg (by decide), if_pos rfl]
    exact ⟨env.navigation, rfl⟩
  · rw [if_neg (by decide), if_neg (by decide), if_neg (by decide),
      if_neg (by decide), if_neg (by decide), if_pos rfl]
    exact ⟨env.events, rfl⟩

theorem getTableData_error_inv (env : Env) (t : JSStr) (e : ExecError)
    (h : getTableData env t = .error e) :
    e = .unknownTable t ∧ isKnownTableName t = false := by
  cases hk : isKnownTableName t with
  | true =>
    obtain ⟨rows, hrows⟩ := getTableData_known env t hk
    rw [hrows] at h
    exact absurd h (by simp)
  | false =>
    rw [getTableData_unknown env t hk] at h
    have h2 : ExecError.unknownTable t = e := by
      have h3 : Except.error (α := List Row) (ExecError.unknownTable t)
          = Except.error e := h
      cases h3
      rfl
    exact ⟨h2.symm, rfl⟩

theorem mapM_except_ok_of {α β : Type} (f : α → Except ExecError β) :
    ∀ (l : List α), (∀ a ∈ l, ∃ b, f a = .ok b) → ∃ out, l.mapM f = .ok out := by
  intro l
  induction l with
  | nil => intro _; exact ⟨[], rfl⟩
  | cons x xs ih =>
    intro h
    obtain ⟨b, hb⟩ := h x (List.mem_cons_self x xs)
    obtain ⟨bs, hbs⟩ := ih (fun a ha => h a (List.mem_cons_of_mem x ha))
    refine ⟨b :: bs, ?_⟩
    rw [List.mapM_cons, hb, hbs]
    rfl

theorem groupComponent_ok (row : Row) (col : JSStr)
    (h : containsSub (jstr "bin(") col = false) :
    ∃ s, groupComponent row col = .ok s := by
  unfold groupComponent
  rw [h, if_neg (by decide)]
  exact ⟨_, rfl⟩

theorem groupKeyOf_ok (groupBy : List JSStr) (row : Row)
    (h : ∀ c ∈ groupBy, containsSub (jstr "bin(") c = false) :
    ∃ key, groupKeyOf groupBy row = .ok key := by
  unfold groupKeyOf
  obtain ⟨parts, hparts⟩ := mapM_except_ok_of (groupComponent row) groupBy
    (fun c hc => groupComponent_ok row c (h c hc))
  refine ⟨joinWithChar '|' parts, ?_⟩
  rw [hparts]
  rfl

theorem summarize_groups_ok (groupBy : List JSStr)
    (h : ∀ c ∈ groupBy, containsSub (jstr "bin(") c = false) :
    ∀ (data : List Row) (gs : List (JSStr × List Row)),
    ∃ groups, data.foldlM (fun gs row => do
      let key ← groupKeyOf groupBy row
      pure (insertGroup gs key row)) gs = .ok groups := by
  intro data
  induction data with
  | nil => intro gs; exact ⟨gs, rfl⟩
  | cons row rest ih =>
    intro gs
    obtain ⟨key, hkey⟩ := groupKeyOf_ok groupBy row h
    obtain ⟨groups, hgroups⟩ := ih (insertGroup gs key row)
    refine ⟨groups, ?_⟩
    rw [List.foldlM_cons]
    rw [show ((do
        let key ← groupKeyOf groupBy row
        pure (insertGroup gs key row)) : Except ExecError (List (JSStr × List Row)))
      = .ok (insertGroup gs key row) from by rw [hkey]; rfl]
    exact hgroups

theorem applySummarizeOperation_ok (data : List Row) (aggs groupBy : List JSStr)
    (h : ∀ c ∈ groupBy, containsSub (jstr "bin(") c = false) :
    ∃ out, applySummarizeOperation data aggs groupBy = .ok out := by
  unfold applySummarizeOperation
  cases hgb : groupBy.isEmpty with
  | true => exact ⟨_, rfl⟩
  | false =>
    rw [if_neg (by simp)]
    obtain ⟨groups, hgroups⟩ := summarize_groups_ok groupBy h data []
    exact ⟨jsArraySort (rowCompareLe (groupBy.headD []) false)
        (groups.map (fun g =>
          aggFold g.2 aggs (groupByColumns groupBy (splitOnChar '|' g.1)))),
      by rw [hgroups]; rfl⟩

theorem applyKQLOperation_safe (env : Env) (now : Int) (data : List Row)
    (op : KQLOperation) (h1 : binSafeOp op = true) (h2 : opTableOk op = true) :
    ∃ out, applyKQLOperation env now data op = .ok out := by
  cases op with
  | whereOp c => exact ⟨_, rfl⟩
  | project c => exact ⟨_, rfl⟩
  | distinct c => exact ⟨_, rfl⟩
  | top c o => exact ⟨_, rfl⟩
  | sort e => exact ⟨_, rfl⟩
  | extend e => exact ⟨_, rfl⟩
  | bin e => exact Bool.noConfusion (show false = true from h1)
  | summarize aggs gb =>
    apply applySummarizeOperation_ok
    intro c hc
    have h3 : gb.all (fun c => !containsSub (jstr "bin(") c) = true := h1
    have h4 := List.all_eq_true.mp h3 c hc
    simpa using h4
  | join kind table cond =>
    have hk : isKnownTableName table = true := h2
    obtain ⟨rd, hrd⟩ := getTableData_known env table hk
    clear h1 h2
    show ∃ out, applyJoinOperation env data kind table cond = Except.ok out
    have hjoin : applyJoinOperation env data kind table cond = (match cond with
        | none => pure (data.flatMap (fun l => rd.map (fun r => mergeRow l r)))
        | some cond =>
          match firstScan tryDottedEq cond with
          | some (lf, rf) => pure (performJoin data rd lf rf kind)
          | none =>
            match firstScan tryBareEq cond with
            | some (lf, rf) => pure (performJoin data rd lf rf kind)
            | none => pure data) := by
      unfold applyJoinOperation
      rw [hrd]
      rfl
    rw [hjoin]
    cases cond with
    | none => exact ⟨_, rfl⟩
    | some c =>
      dsimp only
      cases hd : firstScan tryDottedEq c with
      | some p =>
        obtain ⟨lf, rf⟩ := p
        exact ⟨_, rfl⟩
      | none =>
        dsimp only
        cases hb : firstScan tryBareEq c with
        | some p =>
          obtain ⟨lf, rf⟩ := p
          exact ⟨_, rfl⟩
        | none => exact ⟨_, rfl⟩
  | union table =>
    have hk : isKnownTableName table = true := h2
    obtain ⟨rd, hrd⟩ := getTableData_known env table hk
    show ∃ out, applyUnionOperation env data table = Except.ok out
    unfold applyUnionOperation
    rw [hrd]
    exact ⟨_, rfl⟩

theorem applyKQLOperation_error_inv (env : Env) (now : Int) (data : List Row)
    (op : KQLOperation) (e : ExecError)
    (h1 : binSafeOp op = true)
    (herr : applyKQLOperation env now data op = .error e) :
    ∃ t, e = .unknownTable t ∧ isKnownTableName t = false := by
  cases op with
  | whereOp c => exact Except.noConfusion herr
  | project c => exact Except.noConfusion herr
  | distinct c => exact Except.noConfusion herr
  | top c o => exact Except.noConfusion herr
  | sort e2 => exact Except.noConfusion herr
  | extend e2 => exact Except.noConfusion herr
  | bin e2 => exact Bool.noConfusion (show false = true from h1)
  | summarize aggs gb =>
    obtain ⟨out, hout⟩ := applySummarizeOperation_ok data aggs gb (fun c hc => by
      have h3 : gb.all (fun c => !containsSub (jstr "bin(") c) = true := h1
      have h4 := List.all_eq_true.mp h3 c hc
      simpa using h4)
    have herr2 : applySummarizeOperation data aggs gb = .error e := herr
    rw [hout] at herr2
    exact Except.noConfusion herr2
  | join kind table cond =>
    have herr2 : applyJoinOperation env data kind table cond = .error e := herr
    unfold applyJoinOperation at herr2
    rcases exceptBind_error _ _ _ herr2 with hL | ⟨rd, hrd, hk⟩
    · obtain ⟨he, hu⟩ := getTableData_error_inv env table e hL
      exact ⟨table, he, hu⟩
    · clear h1 herr herr2
      cases cond with
      | none => exact Except.noConfusion hk
      | some c =>
        dsimp only at hk
        cases hd : firstScan tryDottedEq c with
        | some p =>
          obtain ⟨lf, rf⟩ := p
          rw [hd] at hk
          exact Except.noConfusion hk
        | none =>
          rw [hd] at hk
          cases hb : firstScan tryBareEq c with
          | some p =>
            obtain ⟨lf, rf⟩ := p
            rw [hb] at hk
            exact Except.noConfusion hk
          | none =>
            rw [hb] at hk
            exact Except.noConfusion hk
  | union table =>
    have herr2 : applyUnionOperation env data table = .error e := herr
    unfold applyUnionOperation at herr2
    rcases exceptBind_error _ _ _ herr2 with hL | ⟨rd, hrd, hk⟩
    · obtain ⟨he, hu⟩ := getTableData_error_inv env table e hL
      exact ⟨table, he, hu⟩
    · exact Except.noConfusion hk

theorem foldlM_ops_ok (env : Env) (now : Int) :
    ∀ (ops : List KQLOperation) (init : List Row),
    (∀ op ∈ ops, binSafeOp op = true ∧ opTableOk op = true) →
    ∃ rows, ops.foldlM (applyKQLOperation env now) init = .ok rows := by
  intro ops
  induction ops with
  | nil => intro init _; exact ⟨init, rfl⟩
  | cons op rest ih =>
    intro init h
    obtain ⟨h1, h2⟩ := h op (List.mem_cons_self op rest)
    obtain ⟨out, hout⟩ := applyKQLOperation_safe env now init op h1 h2
    obtain ⟨rows, hrows⟩ := ih out (fun o ho => h o (List.mem_cons_of_mem op ho))
    refine ⟨rows, ?_⟩
    rw [List.foldlM_cons, hout]
    exact hrows

theorem foldlM_ops_error_inv (env : Env) (now : Int) :
    ∀ (ops : List KQLOperation) (init : List Row) (e : ExecError),
    (∀ op ∈ ops, binSafeOp op = true) →
    ops.foldlM (applyKQLOperation env now) init = .error e →
    ∃ t, e = .unknownTable t ∧ isKnownTableName t = false := by
  intro ops
  induction ops with
  | nil => intro init e _ h; exact Except.noConfusion h
  | cons op rest ih =>
    intro init e hsafe h
    rw [List.foldlM_cons] at h
    rcases exceptBind_error _ _ _ h with hL | ⟨out, hout, hrest⟩
    · exact applyKQLOperation_error_inv env now init op e
        (hsafe op (List.mem_cons_self op rest)) hL
    · exact ih out e (fun o ho => hsafe o (List.mem_cons_of_mem op ho)) hrest

/-- C3 (counterexample): executing the empty query raises a `TypeError`
(reading `lines[0]` of an empty filtered line list), which is an error
that names no table — so execution can fail on input other than an
unknown table name. -/
theorem c3_counterexample :
    executeKQLQuery ⟨[], [], [], [], [], []⟩ 0 [] = .error .typeError ∧
    ∀ t : JSStr, ExecError.typeError ≠ .unknownTable t :=
  ⟨rfl, fun t h => ExecError.noConfusion h⟩

/-- C3 (amended, corrected claim): for a query that parses (non-blank
text) and whose parsed operations are bin-safe (no `bin` pipe operation
and no `bin(` group-by expression — these can raise range errors, and an
all-blank query raises a `TypeError`: see the counterexample), execution
fails exactly on unknown tables: an unknown main table yields
`unknownTable` naming it; any error is an `unknownTable` naming a table
that is in fact unknown; and with the main table and every join/union
table known, execution succeeds. -/
theorem c3_unknown_table_amended (env : Env) (now : Int) (q : JSStr)
    (pq : KQLQuery) (hparse : parseKQLStatement q = .ok pq)
    (hsafe : ∀ op ∈ pq.operations, binSafeOp op = true) :
    (isKnownTableName pq.table = false →
      executeKQLQuery env now q = .error (.unknownTable pq.table)) ∧
    (∀ e, executeKQLQuery env now q = .error e →
      ∃ t, e = .unknownTable t ∧ isKnownTableName t = false) ∧
    (isKnownTableName pq.table = true →
      (∀ op ∈ pq.operations, opTableOk op = true) →
      ∃ rows, executeKQLQuery env now q = .ok rows) := by
  have hexec : executeKQLQuery env now q
      = (getTableData env pq.table >>= fun init =>
          pq.operations.foldlM (applyKQLOperation env now) init) := by
    unfold executeKQLQuery
    rw [hparse]
    rfl
  refine ⟨?_, ?_, ?_⟩
  · intro hunk
    rw [hexec, getTableData_unknown env _ hunk]
    rfl
  · intro e he
    rw [hexec] at he
    rcases exceptBind_error _ _ _ he with hL | ⟨init, hinit, hrest⟩
    · obtain ⟨he2, hu⟩ := getTableData_error_inv env _ e hL
      exact ⟨pq.table, he2, hu⟩
    · exact foldlM_ops_error_inv env now pq.operations init e hsafe hrest
  · intro hk htab
    obtain ⟨init, hinit⟩ := getTableData_known env pq.table hk
    obtain ⟨rows, hrows⟩ := foldlM_ops_ok env now pq.operations init
      (fun op ho => ⟨hsafe op ho, htab op ho⟩)
    refine ⟨rows, ?_⟩
    rw [hexec, hinit]
    exact hrows

/-- Witness for the amended C3 at the query `Foo | where a > 0` (unknown
main table) — all three conjuncts instantiated, the first applied. -/
theorem c3_amended_witness :
    (isKnownTableName (jstr "Foo") = false →
      executeKQLQuery ⟨[], [], [], [], [], []⟩ 0 (jstr "Foo | where a > 0")
        = .error (.unknownTable (jstr "Foo"))) ∧
    (∀ e, executeKQLQuery ⟨[], [], [], [], [], []⟩ 0 (jstr "Foo | where a > 0")
        = .error e →
      ∃ t, e = .unknownTable t ∧ isKnownTableName t = false) ∧
    (isKnownTableName (jstr "Foo") = true →
      (∀ op ∈ [KQLOperation.whereOp (jstr "a > 0")], opTableOk op = true) →
      ∃ rows, executeKQLQuery ⟨[], [], [], [], [], []⟩ 0 (jstr "Foo | where a > 0")
        = .ok rows) :=
  c3_unknown_table_amended ⟨[], [], [], [], [], []⟩ 0 (jstr "Foo | where a > 0")
    ⟨jstr "Foo", [KQLOperation.whereOp (jstr "a > 0")]⟩ rfl (by decide)
